import Mathlib

/-!
# The 8-tile slider puzzle solver (`main.cpp`)

A shallow embedding of the search engine of `main.cpp` and a verification of its
specification.

Conventions of the embedding.

* A C++ `string` is a `List Char`; `s[i]` is `s.getD i (Char.ofNat 0)`.  Every state the
  program handles has nine characters, so no read is past the end of a state.
* `char puzzle[ROW][COL]` and `int intPuzzle[ROW][COL]` are functions on `Fin 3 × Fin 3`;
  a function of the source that writes into such an array returns the new array.
* The global variables of the program are the fields of `Globals`; a function that
  reads or writes them takes and returns a `Globals` value.
* The `int` values of the program (depth, count, counter, cheapest) are bounded by the
  number of states of the puzzle, far below `2^31`; they are natural numbers here.
* A `while` loop takes a fuel argument: `none` means that the fuel ran out.
-/

namespace SliderPuzzle

/-! ## Globals declarations -/

/-- The macro `ROW`: row length. -/
def ROW : Nat := 3

/-- The macro `COL`: column length. -/
def COL : Nat := 3

/-- The constant goal state of the puzzle, `"12345678E"`. -/
def GOALSTATE : List Char := ['1', '2', '3', '4', '5', '6', '7', '8', 'E']

/-- The struct `Point`: X and Y points in the puzzle 2d array. -/
structure Point where
  x : Fin 3
  y : Fin 3
deriving DecidableEq, Repr

/-- The struct `Node`: the game data object. -/
structure Node where
  point : Nat
  state : List Char
  depth : Nat
  path : List String
  count : Nat
  cheapest : Nat
deriving DecidableEq, Repr

/-- The member function `Node::clear`: clear the vector and state data. -/
def Node.clear (n : Node) : Node :=
  { n with state := [], path := [] }

/-- The comparison object `compare` of the priority queues: `a.cheapest > b.cheapest`. -/
def compare (a b : Node) : Bool :=
  decide (a.cheapest > b.cheapest)

/-- A `char puzzle[ROW][COL]` array. -/
abbrev Puzzle := Fin 3 → Fin 3 → Char

/-- An `int intPuzzle[ROW][COL]` array. -/
abbrev IntPuzzle := Fin 3 → Fin 3 → Nat

/-- The global variables of the program that the search engine uses: the nodes `curr`
and `neighbor`, `counter`, `dataStructure`, the `visited` map and the four containers.
The queue holds its front first, the stack its top first. -/
structure Globals where
  curr : Node
  neighbor : Node
  counter : Nat
  dataStructure : Nat
  visited : List (List Char × Nat)
  bfsQueue : List Node
  dfsStack : List Node
  aStarOutofPlace : List Node
  aStarManhattan : List Node
deriving DecidableEq, Repr

/-- The permanent puzzle tile coordinates. -/
def one : Point := ⟨0, 0⟩
def two : Point := ⟨0, 1⟩
def three : Point := ⟨0, 2⟩
def four : Point := ⟨1, 0⟩
def five : Point := ⟨1, 1⟩
def six : Point := ⟨1, 2⟩
def seven : Point := ⟨2, 0⟩
def eight : Point := ⟨2, 1⟩
def nine : Point := ⟨2, 2⟩

/-- The zero-initialised node of static storage. -/
def Node.zero : Node :=
  { point := 0, state := [], depth := 0, path := [], count := 0, cheapest := 0 }

/-- The globals at program start: `counter = 1`, everything else zero or empty. -/
def Globals.initial : Globals :=
  { curr := Node.zero, neighbor := Node.zero, counter := 1, dataStructure := 0,
    visited := [], bfsQueue := [], dfsStack := [], aStarOutofPlace := [],
    aStarManhattan := [] }

/-! ## The containers of the standard library -/

/-- The function `push` of `std::priority_queue<Node, vector<Node>, compare>`, a container
of the standard library: the queue is a list ordered by `cheapest`, its top first.  The
order in which nodes of equal `cheapest` leave the queue is not fixed by the C++
standard; here a pushed node goes behind every node that `compare` does not put behind
it, so that such nodes leave in insertion order, which the specification accepts
("ties broken by arbitrary but stable order of insertion"). -/
def pqPush (n : Node) : List Node → List Node
  | [] => [n]
  | m :: rest => if compare m n then n :: m :: rest else m :: pqPush n rest

/-! ## Strings, arrays and the solvability check -/

/-- The character `s[i]` of a string. -/
def charAt (s : List Char) (i : Nat) : Char := s.getD i (Char.ofNat 0)

/-- The stream extraction `convert >> intState` on a string of digits: the value of the
leading decimal digits (0 when there is none), `INT_MAX` when that value does not fit
an `int`.  Signs and white space, which no state contains, are not modelled. -/
def readInt (s : List Char) : Nat :=
  let v := (s.takeWhile Char.isDigit).foldl (fun acc c => 10 * acc + (c.toNat - 48)) 0
  if v > 2147483647 then 2147483647 else v

/-- The function `stringToInt`: change `'E'` to `'0'`, read the string as an integer and
put its digits into `testArray`, counting backwards with modulus and division. -/
def stringToInt (stringState : List Char) : List Nat :=
  let stringState := stringState.map (fun c => if c = 'E' then '0' else c)
  let intState := readInt stringState
  ([8, 7, 6, 5, 4, 3, 2, 1, 0].foldl
    (fun (acc : List Nat × Nat) i => (acc.1.set i (acc.2 % 10), acc.2 / 10))
    (List.replicate 9 0, intState)).1

/-- The function `getInvCount`: the inversion count of a given array, value 0 being the
empty space. -/
def getInvCount (arr : List Nat) : Nat :=
  (List.range (9 - 1)).foldl (fun inv_count i =>
    ((List.range 9).filter (fun j => decide (i + 1 ≤ j))).foldl (fun inv_count j =>
      if arr.getD j 0 ≠ 0 ∧ arr.getD i 0 ≠ 0 ∧ arr.getD i 0 > arr.getD j 0
      then inv_count + 1 else inv_count) inv_count) 0

/-- The cast `(int *)puzzle` of a 3x3 array: its cells in row-major order. -/
def flatten (puzzle : IntPuzzle) : List Nat :=
  [puzzle 0 0, puzzle 0 1, puzzle 0 2, puzzle 1 0, puzzle 1 1, puzzle 1 2,
   puzzle 2 0, puzzle 2 1, puzzle 2 2]

/-- The function `isSolvable`: true if the inversion count of the puzzle is even. -/
def isSolvable (puzzle : IntPuzzle) : Bool :=
  let invCount := getInvCount (flatten puzzle)
  decide (invCount % 2 = 0)

/-- The loop nest shared by `populateIntPuzzle`, `populatePuzzle` and `puzzleState`:
the cells `(i, j)` in the order the loops visit them, with the value of `count`. -/
def cellOrder : List (Fin 3 × Fin 3 × Nat) :=
  [(0, 0, 0), (0, 1, 1), (0, 2, 2), (1, 0, 3), (1, 1, 4), (1, 2, 5),
   (2, 0, 6), (2, 1, 7), (2, 2, 8)]

/-- The assignment `puzzle[i][j] = v`. -/
def setCell {α : Type} (puzzle : Fin 3 → Fin 3 → α) (i j : Fin 3) (v : α) :
    Fin 3 → Fin 3 → α :=
  fun a b => if a = i ∧ b = j then v else puzzle a b

/-- The function `populateIntPuzzle`: populate an int 2D array with an int 1D array. -/
def populateIntPuzzle (intArray : List Nat) : IntPuzzle :=
  cellOrder.foldl (fun intPuzzle c => setCell intPuzzle c.1 c.2.1 (intArray.getD c.2.2 0))
    (fun _ _ => 0)

/-- The function `populatePuzzle`: populate a char 2D array with a string state. -/
def populatePuzzle (startState : List Char) : Puzzle :=
  cellOrder.foldl (fun puzzle c => setCell puzzle c.1 c.2.1 (charAt startState c.2.2))
    (fun _ _ => Char.ofNat 0)

/-- The function `puzzleState`: build the string state of a 2D array. -/
def puzzleState (puzzle : Puzzle) : List Char :=
  cellOrder.foldl (fun state c => state.set c.2.2 (puzzle c.1 c.2.1))
    (List.replicate 9 (Char.ofNat 0))

/-- The solvability test of `generateState`: `stringToInt`, `populateIntPuzzle`, then
`isSolvable`. -/
def stateSolvable (s : List Char) : Bool :=
  isSolvable (populateIntPuzzle (stringToInt s))

/-! ## The twelve swaps -/

/-- The body shared by `oneTwo` .. `eightNine`: exchange the cells `a` and `b` of the
array and build the string of the result.  Returns the array as the function leaves it
and the returned string. -/
def swapTiles (a b : Point) (puzzle : Puzzle) : Puzzle × List Char :=
  let temp := puzzle a.x a.y
  let puzzle := setCell puzzle a.x a.y (puzzle b.x b.y)
  let puzzle := setCell puzzle b.x b.y temp
  (puzzle, puzzleState puzzle)

def oneTwo : Puzzle → Puzzle × List Char := swapTiles one two
def oneFour : Puzzle → Puzzle × List Char := swapTiles one four
def twoThree : Puzzle → Puzzle × List Char := swapTiles two three
def twoFive : Puzzle → Puzzle × List Char := swapTiles two five
def threeSix : Puzzle → Puzzle × List Char := swapTiles three six
def fourSeven : Puzzle → Puzzle × List Char := swapTiles four seven
def fourFive : Puzzle → Puzzle × List Char := swapTiles four five
def fiveEight : Puzzle → Puzzle × List Char := swapTiles five eight
def fiveSix : Puzzle → Puzzle × List Char := swapTiles five six
def sixNine : Puzzle → Puzzle × List Char := swapTiles six nine
def sevenEight : Puzzle → Puzzle × List Char := swapTiles seven eight
def eightNine : Puzzle → Puzzle × List Char := swapTiles eight nine

/-! ## The visited map, the goal test and the heuristics -/

/-- The function `checkMap`: search the map for the state. -/
def checkMap (state : List Char) (g : Globals) : Bool :=
  g.visited.any (fun e => decide (state = e.1))

/-- The function `insertMap`: `visited.insert(pair(state, counter))`, which leaves the
map unchanged when the key is present. -/
def insertMap (state : List Char) (counter : Nat) (g : Globals) : Globals :=
  if g.visited.any (fun e => decide (e.1 = state)) then g
  else { g with visited := g.visited ++ [(state, counter)] }

/-- The function `checkGoal`. -/
def checkGoal (state : List Char) : Bool :=
  if state = GOALSTATE then true else false

/-- The function `misplacedTiles`: the loop bound `state.length() - 1` is computed in
the unsigned 64-bit type of `length()`. -/
def misplacedTiles (state : List Char) : Nat :=
  (List.range ((state.length + 2 ^ 64 - 1) % 2 ^ 64)).foldl (fun tiles i =>
    if charAt state i ≠ charAt GOALSTATE i then tiles + 1 else tiles) 0

/-- The function `manhattanDistance`. -/
def manhattanDistance (state : List Char) : Nat :=
  let intArray := stringToInt state
  let intPuzzle := populateIntPuzzle intArray
  ([0, 1, 2] : List (Fin 3)).foldl (fun mDis i =>
    ([0, 1, 2] : List (Fin 3)).foldl (fun mDis j =>
      let value := intPuzzle i j
      if value ≠ 0 then
        mDis + (Int.natAbs ((i.val : Int) - (((value - 1) / 3 : Nat) : Int))
              + Int.natAbs ((j.val : Int) - (((value - 1) % 3 : Nat) : Int)))
      else mDis) mDis) 0

/-! ## Building and inserting nodes -/

/-- The function `buildNode`: fill the temporary node `neighbor`. -/
def buildNode (counter : Nat) (tempState : List Char) (_tempPath : String)
    (g : Globals) : Globals :=
  { g with neighbor :=
      { g.neighbor with state := tempState, depth := g.curr.depth + 1, count := counter } }

/-- The function `insertDataStructure`: insert `neighbor` into the container that the
search is using, then clear it. -/
def insertDataStructure (tempPath : String) (g : Globals) : Globals :=
  match g.dataStructure with
  | 1 =>
    let nb := { g.neighbor with path := g.curr.path ++ [tempPath] }
    { g with bfsQueue := g.bfsQueue ++ [nb], neighbor := nb.clear }
  | 2 =>
    { g with dfsStack := g.neighbor :: g.dfsStack, neighbor := g.neighbor.clear }
  | 3 =>
    let cheapest := g.neighbor.depth + misplacedTiles g.neighbor.state
    let nb := { g.neighbor with cheapest := cheapest, path := g.curr.path ++ [tempPath] }
    { g with aStarOutofPlace := pqPush nb g.aStarOutofPlace, neighbor := nb.clear }
  | 4 =>
    let cheapest := g.neighbor.depth + manhattanDistance g.neighbor.state
    let nb := { g.neighbor with cheapest := cheapest, path := g.curr.path ++ [tempPath] }
    { g with aStarManhattan := pqPush nb g.aStarManhattan, neighbor := nb.clear }
  | _ => g

/-- The function `findEmpty`: the tile number of the last `'E'`; the function returns
no value when there is none. -/
def findEmpty (state : List Char) : Option Nat :=
  let number := (List.range state.length).foldl
    (fun number i => if charAt state i = 'E' then i + 1 else number) 0
  if 1 ≤ number ∧ number ≤ 9 then some number else none

/-! ## Expansion -/

/-- One check of a swap pattern, the block that `tileOne` .. `tileNine` repeat: build a
temp puzzle with the working state, swap, and when the swapped state is not in the map
count it, insert it, build the node and insert the node. -/
def tryMove (swap : Puzzle → Puzzle × List Char) (tempPath : String)
    (workingState : List Char) (g : Globals) : Globals :=
  let tempPuzzle := populatePuzzle workingState
  let tempState := (swap tempPuzzle).2
  if checkMap tempState g then g
  else
    let g := { g with counter := g.counter + 1 }
    let g := insertMap tempState g.counter g
    let g := buildNode g.counter tempState tempPath g
    insertDataStructure tempPath g

/-- The checks of the swap pattern for the empty tile on `tile`, in source order: the
swap function called and the path entry assigned. -/
def tileChecks : Nat → List ((Puzzle → Puzzle × List Char) × String)
  | 1 => [(oneTwo, "1 to 2,"), (oneFour, "1 to 4,")]
  | 2 => [(twoThree, "2 to 3,"), (twoFive, "2 to 5,"), (oneTwo, "2 to 1,")]
  | 3 => [(threeSix, "3 to 6,"), (twoThree, "3 to 2,")]
  | 4 => [(fourFive, "4 to 5,"), (fourSeven, "4 to 7,"), (oneFour, "4 to 1,")]
  | 5 => [(fiveSix, "5 to 6,"), (fiveEight, "5 to 8,"), (fourFive, "5 to 4,"),
          (twoFive, "5 to 2,")]
  | 6 => [(sixNine, "6 to 9,"), (fiveSix, "6 to 5,"), (threeSix, "6 to 3,")]
  | 7 => [(sevenEight, "7 to 8,"), (fourSeven, "7 to 4,")]
  | 8 => [(eightNine, "8 to 9,"), (sevenEight, "8 to 7,"), (fiveEight, "8 to 5,")]
  | 9 => [(eightNine, "9 to 8,"), (sixNine, "9 to 6,")]
  | _ => []

/-- Run the checks of a swap pattern one after the other. -/
def runChecks (checks : List ((Puzzle → Puzzle × List Char) × String))
    (workingState : List Char) (g : Globals) : Globals :=
  checks.foldl (fun g c => tryMove c.1 c.2 workingState g) g

def tileOne (workingState : List Char) (g : Globals) : Globals :=
  runChecks (tileChecks 1) workingState g
def tileTwo (workingState : List Char) (g : Globals) : Globals :=
  runChecks (tileChecks 2) workingState g
def tileThree (workingState : List Char) (g : Globals) : Globals :=
  runChecks (tileChecks 3) workingState g
def tileFour (workingState : List Char) (g : Globals) : Globals :=
  runChecks (tileChecks 4) workingState g
def tileFive (workingState : List Char) (g : Globals) : Globals :=
  runChecks (tileChecks 5) workingState g
def tileSix (workingState : List Char) (g : Globals) : Globals :=
  runChecks (tileChecks 6) workingState g
def tileSeven (workingState : List Char) (g : Globals) : Globals :=
  runChecks (tileChecks 7) workingState g
def tileEight (workingState : List Char) (g : Globals) : Globals :=
  runChecks (tileChecks 8) workingState g
def tileNine (workingState : List Char) (g : Globals) : Globals :=
  runChecks (tileChecks 9) workingState g

/-- The function `searchPattern`: initiate the search based on the empty tile position;
any other value only prints a message. -/
def searchPattern (tile : Nat) (workingState : List Char) (g : Globals) : Globals :=
  match tile with
  | 1 => tileOne workingState g
  | 2 => tileTwo workingState g
  | 3 => tileThree workingState g
  | 4 => tileFour workingState g
  | 5 => tileFive workingState g
  | 6 => tileSix workingState g
  | 7 => tileSeven workingState g
  | 8 => tileEight workingState g
  | 9 => tileNine workingState g
  | _ => g

/-- The candidate successor states that the expansion of `workingState` derives for the
empty tile on `tile`: the swapped states in the order of the checks, each built from a
puzzle freshly populated with `workingState`. -/
def candidates (tile : Nat) (workingState : List Char) : List (List Char) :=
  (tileChecks tile).map (fun c => (c.1 (populatePuzzle workingState)).2)

/-! ## The four searches -/

/-- The container that a search with `dataStructure = ds` works on. -/
def frontier (ds : Nat) (g : Globals) : List Node :=
  match ds with
  | 1 => g.bfsQueue
  | 2 => g.dfsStack
  | 3 => g.aStarOutofPlace
  | 4 => g.aStarManhattan
  | _ => []

/-- Replace the container that a search with `dataStructure = ds` works on. -/
def setFrontier (ds : Nat) (l : List Node) (g : Globals) : Globals :=
  match ds with
  | 1 => { g with bfsQueue := l }
  | 2 => { g with dfsStack := l }
  | 3 => { g with aStarOutofPlace := l }
  | 4 => { g with aStarManhattan := l }
  | _ => g

/-- The call `push(e)` on the container of the search `ds`. -/
def pushFrontier (ds : Nat) (e : Node) (g : Globals) : Globals :=
  match ds with
  | 1 => { g with bfsQueue := g.bfsQueue ++ [e] }
  | 2 => { g with dfsStack := e :: g.dfsStack }
  | 3 => { g with aStarOutofPlace := pqPush e g.aStarOutofPlace }
  | 4 => { g with aStarManhattan := pqPush e g.aStarManhattan }
  | _ => g

/-- How a call of a search function ends. -/
inductive Result where
  /-- The start state is the goal state: the string `"error"` is returned. -/
  | error (g : Globals)
  /-- A goal node was examined: `return workingState`. -/
  | found (g : Globals) (workingState : List Char)
  /-- The container became empty: the loop ends and the function returns no value. -/
  | exhausted (g : Globals)
  /-- The function `findEmpty` returned no value. -/
  | undefined
deriving DecidableEq, Repr

/-- The `while` loop of `bfs`, `dfs`, `oopl` and `mhttn`, which differ in the container
only: take the front (top) node as `curr`, return its state when it is the goal,
otherwise remove it and run the swap pattern of its empty tile. -/
def searchLoop (ds : Nat) : Nat → Globals → Option Result
  | 0, _ => none
  | fuel + 1, g =>
    match frontier ds g with
    | [] => some (Result.exhausted g)
    | top :: rest =>
      let g := { g with curr := top }
      let workingState := g.curr.state
      if checkGoal workingState then some (Result.found g workingState)
      else
        let g := setFrontier ds rest g
        match findEmpty workingState with
        | none => some Result.undefined
        | some emptyPoint => searchLoop ds fuel (searchPattern emptyPoint workingState g)

/-- The part of `bfs`, `dfs`, `oopl` and `mhttn` before the loop: set `dataStructure`,
insert the start state into the map and push the entrance node.  The field `cheapest`
of the entrance node, which `bfs` and `dfs` leave unset, is 0. -/
def searchInit (ds : Nat) (startState : List Char) (g : Globals) : Option Globals :=
  let g := { g with dataStructure := ds }
  let g := insertMap startState g.counter g
  match findEmpty startState with
  | none => none
  | some startPoint =>
    let e : Node := { point := startPoint, state := startState, depth := 0,
                      count := g.counter, path := ["Start, "], cheapest := 0 }
    some (pushFrontier ds e g)

/-- The body shared by the four search functions. -/
def search (ds : Nat) (fuel : Nat) (startState : List Char) (g : Globals) :
    Option Result :=
  if startState = GOALSTATE then some (Result.error g)
  else
    match searchInit ds startState g with
    | none => some Result.undefined
    | some g => searchLoop ds fuel g

/-- The function `bfs`: breadth-first search (`dataStructure = 1`, the queue). -/
def bfs (fuel : Nat) (startState : List Char) (g : Globals) : Option Result :=
  search 1 fuel startState g

/-- The function `dfs`: depth-first search (`dataStructure = 2`, the stack). -/
def dfs (fuel : Nat) (startState : List Char) (g : Globals) : Option Result :=
  search 2 fuel startState g

/-- The function `oopl`: A* search with the misplaced tiles heuristic. -/
def oopl (fuel : Nat) (startState : List Char) (g : Globals) : Option Result :=
  search 3 fuel startState g

/-- The function `mhttn`: A* search with the Manhattan distance heuristic. -/
def mhttn (fuel : Nat) (startState : List Char) (g : Globals) : Option Result :=
  search 4 fuel startState g

/-- The function `clear`: set the counter to 1, clear the map and empty the containers. -/
def clear (g : Globals) : Globals :=
  { g with counter := 1, visited := [], bfsQueue := [], dfsStack := [],
           aStarOutofPlace := [], aStarManhattan := [] }

/-! ## The notions of the specification -/

/-- A valid state: each label 1..8 once and the blank once, that is, a permutation of
`"12345678E"`. -/
def ValidState (s : List Char) : Prop := s.Perm GOALSTATE

instance (s : List Char) : Decidable (ValidState s) := by
  unfold ValidState; infer_instance

/-- The label a tile shows: `'1'` shows 1, .., `'8'` shows 8. -/
def label (c : Char) : Nat := c.toNat - 48

/-- The digit that `stringToInt` stores for a character: 0 for the blank, the label for
a tile. -/
def digitOf (c : Char) : Nat := if c = 'E' then 0 else c.toNat - 48

/-- The test of the inner loop of `getInvCount` on one pair, as a number. -/
def invPair (a b : Nat) : Nat := if b ≠ 0 ∧ a ≠ 0 ∧ a > b then 1 else 0

/-- The inversion count in the words of the specification: the number of position pairs
`i < j` in row-major order whose cells are both non-blank tiles with the label at `i`
greater than the label at `j`. -/
def inversionCount (s : List Char) : Nat :=
  (((List.range 9).product (List.range 9)).filter (fun p =>
    decide (p.1 < p.2 ∧ charAt s p.1 ≠ 'E' ∧ charAt s p.2 ≠ 'E' ∧
      label (charAt s p.1) > label (charAt s p.2)))).length

/-- The string `s` with the cells `p` and `q` (0-based, row-major) exchanged. -/
def swapAt (s : List Char) (p q : Nat) : List Char :=
  (s.set p (charAt s q)).set q (charAt s p)

/-- The cells `p` and `q` (0-based, row-major) of the 3x3 grid are orthogonally adjacent:
same row and neighbouring columns, or same column and neighbouring rows. -/
def adjacent (p q : Nat) : Prop :=
  (p / 3 = q / 3 ∧ (p % 3 + 1 = q % 3 ∨ q % 3 + 1 = p % 3)) ∨
  (p % 3 = q % 3 ∧ (p / 3 + 1 = q / 3 ∨ q / 3 + 1 = p / 3))

instance (p q : Nat) : Decidable (adjacent p q) := by
  unfold adjacent; infer_instance

/-- The orthogonal neighbours of the cell `p` of the 3x3 grid. -/
def neighbours (p : Nat) : List Nat :=
  (List.range 9).filter (fun q => decide (adjacent p q))

/-- A legal move: the blank, at cell `p`, is exchanged with an orthogonally adjacent cell
`q` of the grid. -/
def legalMove (s t : List Char) : Prop :=
  ∃ p q, p < 9 ∧ q < 9 ∧ adjacent p q ∧ charAt s p = 'E' ∧ t = swapAt s p q

/-- The state `t` is obtained from `s` by a sequence of exactly `n` legal moves. -/
inductive Moves : Nat → List Char → List Char → Prop where
  | zero (s : List Char) : Moves 0 s s
  | step {n : Nat} {s t u : List Char} : legalMove s t → Moves n t u → Moves (n + 1) s u

/-- The number of positions `i` in 0..8 at which `s` holds a non-blank tile whose label
differs from the label of the goal at `i`: the misplaced tiles in the words of the
specification. -/
def misplacedSpec (s : List Char) : Nat :=
  ((List.range 9).filter (fun i =>
    decide (charAt s i ≠ 'E' ∧ charAt s i ≠ charAt GOALSTATE i))).length

/-- The test of the loop of `misplacedTiles` at one position, as a number. -/
def misplacedAt (a b : Char) : Nat := if a ≠ b then 1 else 0

/-- The summand of the loops of `manhattanDistance` for the value at cell `(i, j)`. -/
def mdCell (i j : Nat) (value : Nat) : Nat :=
  if value ≠ 0 then
    Int.natAbs ((i : Int) - (((value - 1) / 3 : Nat) : Int))
      + Int.natAbs ((j : Int) - (((value - 1) % 3 : Nat) : Int))
  else 0

/-- The search started from a reset state: the counter is 1, the map and the four
containers are empty (the state at program start and after `clear`). -/
def Reset (g : Globals) : Prop :=
  g.counter = 1 ∧ g.visited = [] ∧ g.bfsQueue = [] ∧ g.dfsStack = [] ∧
    g.aStarOutofPlace = [] ∧ g.aStarManhattan = []

instance (g : Globals) : Decidable (Reset g) := by
  unfold Reset; infer_instance

/-- The cells (0-based) that the checks of `tileChecks (k + 1)` exchange with the cell `k`
of the empty tile, in source order. -/
def moveOrder : Nat → List Nat
  | 0 => [1, 3]
  | 1 => [2, 4, 0]
  | 2 => [5, 1]
  | 3 => [4, 6, 0]
  | 4 => [5, 7, 3, 1]
  | 5 => [8, 4, 2]
  | 6 => [7, 3]
  | 7 => [8, 6, 4]
  | 8 => [7, 5]
  | _ => []

/-- The keys of the `visited` map. -/
def keys (g : Globals) : List (List Char) := g.visited.map Prod.fst

/-- The effect of `push(n)` on the container of the search `ds`, as a list. -/
def pushList (ds : Nat) (n : Node) (l : List Node) : List Node :=
  match ds with
  | 1 => l ++ [n]
  | 2 => n :: l
  | _ => pqPush n l

/-- The node that `buildNode` and `insertDataStructure` put into the container of the
search `ds` for the state `t` and the path entry `tempPath`. -/
def newNode (ds : Nat) (g : Globals) (t : List Char) (tempPath : String) : Node :=
  match ds with
  | 1 => { g.neighbor with state := t, depth := g.curr.depth + 1, count := g.counter + 1,
                           path := g.curr.path ++ [tempPath] }
  | 2 => { g.neighbor with state := t, depth := g.curr.depth + 1, count := g.counter + 1 }
  | 3 => { g.neighbor with state := t, depth := g.curr.depth + 1, count := g.counter + 1,
                           cheapest := g.curr.depth + 1 + misplacedTiles t,
                           path := g.curr.path ++ [tempPath] }
  | _ => { g.neighbor with state := t, depth := g.curr.depth + 1, count := g.counter + 1,
                           cheapest := g.curr.depth + 1 + manhattanDistance t,
                           path := g.curr.path ++ [tempPath] }

/-- The numbers that one expansion adds to the counter, to the container of the search
and to the map are all `k`. -/
def Generates (ds : Nat) (g g' : Globals) (k : Nat) : Prop :=
  g'.counter = g.counter + k ∧
  (frontier ds g').length = (frontier ds g).length + k ∧
  g'.visited.length = g.visited.length + k

/-- The pairs of orthogonally adjacent cells of the 3x3 grid. -/
def adjacentPairs : List (Nat × Nat) :=
  [(0, 1), (0, 3), (1, 0), (1, 2), (1, 4), (2, 1), (2, 5), (3, 0), (3, 4), (3, 6), (4, 1),
   (4, 3), (4, 5), (4, 7), (5, 2), (5, 4), (5, 8), (6, 3), (6, 7), (7, 4), (7, 6), (7, 8),
   (8, 5), (8, 7)]

/-- The state `t` can be reached from `s` by legal moves. -/
def Reach (s t : List Char) : Prop := ∃ n, Moves n s t

/-- The invariant of a search with `dataStructure = ds` started from `s0`, while the
state `ws` is being expanded and the candidates `pending` are still to be checked (at
the head of the loop `pending` is empty): the start state is in the map, the keys of
the map are pairwise distinct and reachable from the start, every node of the container
has its state in the map, and every key either is the state of a node of the container
or is not the goal and has all its successors in the map or, for `ws`, among the
pending candidates. -/
structure Inv (ds : Nat) (s0 ws : List Char) (pending : List (List Char))
    (g : Globals) : Prop where
  ds_ok : g.dataStructure = ds
  start_mem : s0 ∈ keys g
  keys_nodup : (keys g).Nodup
  keys_reach : ∀ v ∈ keys g, Reach s0 v
  front_mem : ∀ n ∈ frontier ds g, n.state ∈ keys g
  closed : ∀ v ∈ keys g, (∃ n ∈ frontier ds g, n.state = v) ∨
    (v ≠ GOALSTATE ∧ ∀ u, legalMove v u → u ∈ keys g ∨ (v = ws ∧ u ∈ pending))

/-- The termination measure of the search loop: twice the number of states that are not
yet in the map plus the number of nodes in the container. -/
def measure (ds : Nat) (g : Globals) : Nat :=
  2 * (362880 - (keys g).length) + (frontier ds g).length

/-- The invariant of `bfs` on top of `Inv`, at level `d`: every node of the queue has the
minimal number of moves from the start to its state as depth, the depths in the queue
are non-decreasing from front to back and lie in `d .. d + 1`, and every state that can
be reached from the start in at most `d` moves is in the map. -/
structure BfsInv (s0 ws : List Char) (pending : List (List Char)) (d : Nat)
    (g : Globals) : Prop where
  inv : Inv 1 s0 ws pending g
  depth_ok : ∀ n ∈ g.bfsQueue,
    Moves n.depth s0 n.state ∧ ∀ m, Moves m s0 n.state → n.depth ≤ m
  sorted : (g.bfsQueue.map Node.depth).Pairwise (fun a b => a ≤ b)
  bounds : ∀ n ∈ g.bfsQueue, d ≤ n.depth ∧ n.depth ≤ d + 1
  level : ∀ m u, Moves m s0 u → m ≤ d → u ∈ keys g

/-- The search function `run` started from `s0` in the globals `g` ends on a goal node:
with fuel 725760 or more it returns the goal state, and with no amount of fuel its
container becomes empty. -/
def Finds (run : Nat → List Char → Globals → Option Result) (s0 : List Char)
    (g : Globals) : Prop :=
  (∀ fuel, 725760 ≤ fuel →
    ∃ g', run fuel s0 g = some (Result.found g' GOALSTATE) ∧ g'.curr.state = GOALSTATE) ∧
  (∀ fuel g', run fuel s0 g ≠ some (Result.exhausted g'))

/-- The search function `run`, which works on the container `ds`, started from `s0` in
the globals `g` never examines a goal node: with fuel 725760 or more the loop ends with
the container empty, and with no amount of fuel a state is returned. -/
def Exhausts (run : Nat → List Char → Globals → Option Result) (ds : Nat)
    (s0 : List Char) (g : Globals) : Prop :=
  (∀ fuel, 725760 ≤ fuel →
    ∃ g', run fuel s0 g = some (Result.exhausted g') ∧ frontier ds g' = []) ∧
  (∀ fuel g' w, run fuel s0 g ≠ some (Result.found g' w))

/-- The state after the blank, at cell `p`, has moved along the cells of `path`. -/
def applyPath : List Nat → Nat → List Char → List Char
  | [], _, s => s
  | q :: rest, p, s => applyPath rest q (swapAt s p q)

/-- Every step of `path`, started at cell `p`, goes to an orthogonally adjacent cell of
the grid. -/
def pathOk : List Nat → Nat → Bool
  | [], _ => true
  | q :: rest, p => decide (p < 9 ∧ q < 9 ∧ adjacent p q) && pathOk rest q

/-! ## The nodes of a run -/

/-- The distance of the character `c` at the cell `i` (0-based, row-major) from its goal
cell in the words of the specification: a tile with label `L` at row `i / 3` and column
`i % 3` contributes `|row - (L - 1) / 3| + |col - (L - 1) % 3|`, the blank nothing. -/
def tileDistance (i : Nat) (c : Char) : Nat :=
  if c ≠ 'E' then
    Int.natAbs (((i / 3 : Nat) : Int) - (((label c - 1) / 3 : Nat) : Int))
      + Int.natAbs (((i % 3 : Nat) : Int) - (((label c - 1) % 3 : Nat) : Int))
  else 0

/-- The Manhattan distance in the words of the specification: the sum of `tileDistance`
over the nine cells. -/
def manhattanSpec (s : List Char) : Nat :=
  ((List.range 9).map (fun i => tileDistance i (charAt s i))).sum

/-- The nodes that the checks of a swap pattern generate, in the order of generation: a
check whose swapped state is in the map generates nothing, any other check generates the
node `newNode`; the next check starts from the globals that `tryMove` leaves. -/
def checkNodes (ds : Nat) : List ((Puzzle → Puzzle × List Char) × String) → List Char →
    Globals → List Node
  | [], _, _ => []
  | c :: cs, ws, g =>
    (if checkMap (c.1 (populatePuzzle ws)).2 g then []
     else [newNode ds g (c.1 (populatePuzzle ws)).2 c.2])
      ++ checkNodes ds cs ws (tryMove c.1 c.2 ws g)

/-- The nodes that the expansion of `workingState`, with the empty tile on `tile`,
generates, in the order of generation. -/
def expansionNodes (ds : Nat) (tile : Nat) (workingState : List Char) (g : Globals) :
    List Node :=
  checkNodes ds (tileChecks tile) workingState g

/-- The container `l` of the search `ds` after the nodes `new` are pushed one after the
other. -/
def pushAll (ds : Nat) (new l : List Node) : List Node :=
  new.foldl (fun l n => pushList ds n l) l

/-- The globals at the head of the loop of the search `ds` after `k` further iterations
from `g`, when the loop runs so long: an iteration examines the top node, ends the loop
on the goal, and otherwise pops the node and expands it. -/
def loopHead (ds : Nat) : Nat → Globals → Option Globals
  | 0, g => some g
  | k + 1, g =>
    match frontier ds g with
    | [] => none
    | top :: rest =>
      if checkGoal top.state then none
      else
        match findEmpty top.state with
        | none => none
        | some emptyPoint =>
          loopHead ds k
            (searchPattern emptyPoint top.state (setFrontier ds rest { g with curr := top }))

/-- The nodes that the loop of the search `ds` generates in at most `fuel` iterations
from `g`, in the order of generation. -/
def loopNodes (ds : Nat) : Nat → Globals → List Node
  | 0, _ => []
  | fuel + 1, g =>
    match frontier ds g with
    | [] => []
    | top :: rest =>
      if checkGoal top.state then []
      else
        match findEmpty top.state with
        | none => []
        | some emptyPoint =>
          expansionNodes ds emptyPoint top.state
              (setFrontier ds rest { g with curr := top })
            ++ loopNodes ds fuel
              (searchPattern emptyPoint top.state (setFrontier ds rest { g with curr := top }))

/-- The nodes that enter the container during the search `ds` from `startState`, in the
order of generation: the nodes in the container when the loop is entered (from a reset
state, the root), then the nodes that the loop generates. -/
def searchNodes (ds : Nat) (fuel : Nat) (startState : List Char) (g : Globals) : List Node :=
  if startState = GOALSTATE then []
  else
    match searchInit ds startState g with
    | none => []
    | some g0 => frontier ds g0 ++ loopNodes ds fuel g0

/-! ## Replaying a path, and globals that a search cannot tell apart -/

/-- The cells that a path entry of the form `"p to q,"` names, with `p` and `q` single
digits. -/
def parseMove (entry : String) : Option (Nat × Nat) :=
  match entry.data with
  | [p, ' ', 't', 'o', ' ', q, ','] =>
    if p.isDigit ∧ q.isDigit then some (p.toNat - 48, q.toNat - 48) else none
  | _ => none

/-- Replay path entries `"p to q,"` on the state `s`, one after the other: each entry
must name two cells `p` and `q` in 1..9 (1-based, row-major) with the blank of the
current state at `p`; the cells are exchanged, which takes the blank to `q`. -/
def replayMoves : List String → List Char → Option (List Char)
  | [], s => some s
  | entry :: rest, s =>
    match parseMove entry with
    | none => none
    | some (p, q) =>
      if 1 ≤ p ∧ p ≤ 9 ∧ 1 ≤ q ∧ q ≤ 9 ∧ charAt s (p - 1) = 'E' ∧
          charAt (swapAt s (p - 1) (q - 1)) (q - 1) = 'E' then
        replayMoves rest (swapAt s (p - 1) (q - 1))
      else none

/-- Replay a path from the start state `s`: the entry `"Start, "`, then moves. -/
def replayPath (path : List String) (s : List Char) : Option (List Char) :=
  match path with
  | [] => none
  | entry :: moves => if entry = "Start, " then replayMoves moves s else none

/-- The globals `g` and `h` agree on everything that a search with `dataStructure = ds`
may read before it has written it: the counter, the map, the containers, the field
`point` of `neighbor` (never assigned), its field `cheapest` under `bfs` and `dfs` (not
assigned there) and its field `path` under `dfs` (not assigned there).  They may differ
in `curr`, in `dataStructure` and in the other fields of `neighbor`. -/
def Similar (ds : Nat) (g h : Globals) : Prop :=
  g.counter = h.counter ∧ g.visited = h.visited ∧ g.bfsQueue = h.bfsQueue ∧
  g.dfsStack = h.dfsStack ∧ g.aStarOutofPlace = h.aStarOutofPlace ∧
  g.aStarManhattan = h.aStarManhattan ∧ g.neighbor.point = h.neighbor.point ∧
  (ds = 1 ∨ ds = 2 → g.neighbor.cheapest = h.neighbor.cheapest) ∧
  (ds = 2 → g.neighbor.path = h.neighbor.path)

/-! ## Strings of nine characters -/

theorem exists_nine {α : Type} (s : List α) (h : s.length = 9) :
    ∃ a0 a1 a2 a3 a4 a5 a6 a7 a8, s = [a0, a1, a2, a3, a4, a5, a6, a7, a8] := by
  match s, h with
  | [a0, a1, a2, a3, a4, a5, a6, a7, a8], _ =>
    exact ⟨a0, a1, a2, a3, a4, a5, a6, a7, a8, rfl⟩

theorem digit_facts : ∀ c ∈ GOALSTATE,
    (if c = 'E' then '0' else c).isDigit = true ∧
    (if c = 'E' then '0' else c).toNat - 48 = digitOf c ∧ digitOf c ≤ 8 := by
  decide

/-- The digits that `stringToInt` stores, for characters whose digits are given. -/
theorem stringToInt_of_digits (a0 a1 a2 a3 a4 a5 a6 a7 a8 : Char)
    (d0 d1 d2 d3 d4 d5 d6 d7 d8 : Nat)
    (h0 : (if a0 = 'E' then '0' else a0).isDigit = true ∧
      (if a0 = 'E' then '0' else a0).toNat - 48 = d0 ∧ d0 ≤ 8)
    (h1 : (if a1 = 'E' then '0' else a1).isDigit = true ∧
      (if a1 = 'E' then '0' else a1).toNat - 48 = d1 ∧ d1 ≤ 8)
    (h2 : (if a2 = 'E' then '0' else a2).isDigit = true ∧
      (if a2 = 'E' then '0' else a2).toNat - 48 = d2 ∧ d2 ≤ 8)
    (h3 : (if a3 = 'E' then '0' else a3).isDigit = true ∧
      (if a3 = 'E' then '0' else a3).toNat - 48 = d3 ∧ d3 ≤ 8)
    (h4 : (if a4 = 'E' then '0' else a4).isDigit = true ∧
      (if a4 = 'E' then '0' else a4).toNat - 48 = d4 ∧ d4 ≤ 8)
    (h5 : (if a5 = 'E' then '0' else a5).isDigit = true ∧
      (if a5 = 'E' then '0' else a5).toNat - 48 = d5 ∧ d5 ≤ 8)
    (h6 : (if a6 = 'E' then '0' else a6).isDigit = true ∧
      (if a6 = 'E' then '0' else a6).toNat - 48 = d6 ∧ d6 ≤ 8)
    (h7 : (if a7 = 'E' then '0' else a7).isDigit = true ∧
      (if a7 = 'E' then '0' else a7).toNat - 48 = d7 ∧ d7 ≤ 8)
    (h8 : (if a8 = 'E' then '0' else a8).isDigit = true ∧
      (if a8 = 'E' then '0' else a8).toNat - 48 = d8 ∧ d8 ≤ 8) :
    stringToInt [a0, a1, a2, a3, a4, a5, a6, a7, a8] =
      [d0, d1, d2, d3, d4, d5, d6, d7, d8] := by
  obtain ⟨i0, e0, b0⟩ := h0
  obtain ⟨i1, e1, b1⟩ := h1
  obtain ⟨i2, e2, b2⟩ := h2
  obtain ⟨i3, e3, b3⟩ := h3
  obtain ⟨i4, e4, b4⟩ := h4
  obtain ⟨i5, e5, b5⟩ := h5
  obtain ⟨i6, e6, b6⟩ := h6
  obtain ⟨i7, e7, b7⟩ := h7
  obtain ⟨i8, e8, b8⟩ := h8
  simp only [stringToInt, readInt, List.map, List.takeWhile, i0, i1, i2, i3, i4, i5, i6, i7,
    i8, List.foldl, e0, e1, e2, e3, e4, e5, e6, e7, e8, List.replicate, List.set]
  have hle : ¬ (10 * (10 * (10 * (10 * (10 * (10 * (10 * (10 * (10 * 0 + d0) + d1) + d2)
      + d3) + d4) + d5) + d6) + d7) + d8 > 2147483647) := by omega
  rw [if_neg hle]
  simp only [List.cons.injEq, and_true]
  refine ⟨?_, ?_, ?_, ?_, ?_, ?_, ?_, ?_, ?_⟩ <;> omega

/-- On a string of nine state characters `stringToInt` stores the digit of each cell. -/
theorem stringToInt_digits (a0 a1 a2 a3 a4 a5 a6 a7 a8 : Char)
    (h : ∀ c ∈ [a0, a1, a2, a3, a4, a5, a6, a7, a8], c ∈ GOALSTATE) :
    stringToInt [a0, a1, a2, a3, a4, a5, a6, a7, a8] =
      [digitOf a0, digitOf a1, digitOf a2, digitOf a3, digitOf a4, digitOf a5, digitOf a6,
       digitOf a7, digitOf a8] :=
  stringToInt_of_digits _ _ _ _ _ _ _ _ _ _ _ _ _ _ _ _ _ _
    (digit_facts a0 (h a0 (by simp))) (digit_facts a1 (h a1 (by simp)))
    (digit_facts a2 (h a2 (by simp))) (digit_facts a3 (h a3 (by simp)))
    (digit_facts a4 (h a4 (by simp))) (digit_facts a5 (h a5 (by simp)))
    (digit_facts a6 (h a6 (by simp))) (digit_facts a7 (h a7 (by simp)))
    (digit_facts a8 (h a8 (by simp)))

/-! ## The solvability check -/

theorem getInvCount_nine (d0 d1 d2 d3 d4 d5 d6 d7 d8 : Nat) :
    getInvCount [d0, d1, d2, d3, d4, d5, d6, d7, d8] =
      0 + invPair d0 d1 + invPair d0 d2 + invPair d0 d3 + invPair d0 d4 + invPair d0 d5
        + invPair d0 d6 + invPair d0 d7 + invPair d0 d8
        + invPair d1 d2 + invPair d1 d3 + invPair d1 d4 + invPair d1 d5 + invPair d1 d6
        + invPair d1 d7 + invPair d1 d8
        + invPair d2 d3 + invPair d2 d4 + invPair d2 d5 + invPair d2 d6 + invPair d2 d7
        + invPair d2 d8
        + invPair d3 d4 + invPair d3 d5 + invPair d3 d6 + invPair d3 d7 + invPair d3 d8
        + invPair d4 d5 + invPair d4 d6 + invPair d4 d7 + invPair d4 d8
        + invPair d5 d6 + invPair d5 d7 + invPair d5 d8
        + invPair d6 d7 + invPair d6 d8
        + invPair d7 d8 := by
  have key : ∀ (a b n : Nat),
      (if b ≠ 0 ∧ a ≠ 0 ∧ a > b then n + 1 else n) = n + invPair a b := by
    intro a b n; unfold invPair; split <;> rfl
  simp only [getInvCount, List.range, List.range.loop, List.filter, List.foldl,
    List.getD_cons_zero, List.getD_cons_succ, key]

theorem stateSolvable_nine (a0 a1 a2 a3 a4 a5 a6 a7 a8 : Char)
    (h : ∀ c ∈ [a0, a1, a2, a3, a4, a5, a6, a7, a8], c ∈ GOALSTATE) :
    stateSolvable [a0, a1, a2, a3, a4, a5, a6, a7, a8] =
      decide (getInvCount [digitOf a0, digitOf a1, digitOf a2, digitOf a3, digitOf a4,
        digitOf a5, digitOf a6, digitOf a7, digitOf a8] % 2 = 0) := by
  unfold stateSolvable isSolvable
  rw [stringToInt_digits _ _ _ _ _ _ _ _ _ h]
  rfl

theorem specPair_eq : ∀ a ∈ GOALSTATE, ∀ b ∈ GOALSTATE,
    (if a ≠ 'E' ∧ b ≠ 'E' ∧ label a > label b then 1 else 0) =
      invPair (digitOf a) (digitOf b) := by
  decide

theorem inversionCount_nine (a0 a1 a2 a3 a4 a5 a6 a7 a8 : Char)
    (h : ∀ c ∈ [a0, a1, a2, a3, a4, a5, a6, a7, a8], c ∈ GOALSTATE) :
    inversionCount [a0, a1, a2, a3, a4, a5, a6, a7, a8] =
      getInvCount [digitOf a0, digitOf a1, digitOf a2, digitOf a3, digitOf a4,
        digitOf a5, digitOf a6, digitOf a7, digitOf a8] := by
  have m0 := h a0 (by simp)
  have m1 := h a1 (by simp)
  have m2 := h a2 (by simp)
  have m3 := h a3 (by simp)
  have m4 := h a4 (by simp)
  have m5 := h a5 (by simp)
  have m6 := h a6 (by simp)
  have m7 := h a7 (by simp)
  have m8 := h a8 (by simp)
  rw [getInvCount_nine]
  simp only [← specPair_eq _ m0 _ m1, ← specPair_eq _ m0 _ m2, ← specPair_eq _ m0 _ m3,
    ← specPair_eq _ m0 _ m4, ← specPair_eq _ m0 _ m5, ← specPair_eq _ m0 _ m6,
    ← specPair_eq _ m0 _ m7, ← specPair_eq _ m0 _ m8, ← specPair_eq _ m1 _ m2,
    ← specPair_eq _ m1 _ m3, ← specPair_eq _ m1 _ m4, ← specPair_eq _ m1 _ m5,
    ← specPair_eq _ m1 _ m6, ← specPair_eq _ m1 _ m7, ← specPair_eq _ m1 _ m8,
    ← specPair_eq _ m2 _ m3, ← specPair_eq _ m2 _ m4, ← specPair_eq _ m2 _ m5,
    ← specPair_eq _ m2 _ m6, ← specPair_eq _ m2 _ m7, ← specPair_eq _ m2 _ m8,
    ← specPair_eq _ m3 _ m4, ← specPair_eq _ m3 _ m5, ← specPair_eq _ m3 _ m6,
    ← specPair_eq _ m3 _ m7, ← specPair_eq _ m3 _ m8, ← specPair_eq _ m4 _ m5,
    ← specPair_eq _ m4 _ m6, ← specPair_eq _ m4 _ m7, ← specPair_eq _ m4 _ m8,
    ← specPair_eq _ m5 _ m6, ← specPair_eq _ m5 _ m7, ← specPair_eq _ m5 _ m8,
    ← specPair_eq _ m6 _ m7, ← specPair_eq _ m6 _ m8, ← specPair_eq _ m7 _ m8]
  unfold inversionCount
  rw [← List.countP_eq_length_filter]
  simp only [List.range, List.range.loop, List.product, List.map, List.flatMap, List.flatten,
    List.append, List.cons_append, List.nil_append, List.append_nil,
    List.countP_cons, List.countP_nil, charAt, List.getD_cons_zero, List.getD_cons_succ]
  simp only [Nat.lt_irrefl, Nat.reduceLT, false_and, true_and, decide_False, Bool.false_eq_true,
    if_false, Nat.add_zero, Nat.zero_add, decide_eq_true_eq]
  ac_rfl

/-- C3: for every permutation `s` of `"12345678E"` the solvability check (`stringToInt`,
`populateIntPuzzle`, `isSolvable`) returns true if and only if the number of position
pairs `i < j` whose cells are both non-blank tiles with the label at `i` greater than
the label at `j` is even. -/
theorem solvability_parity_ok (s : List Char) (h : ValidState s) :
    stateSolvable s = true ↔ inversionCount s % 2 = 0 := by
  obtain ⟨a0, a1, a2, a3, a4, a5, a6, a7, a8, rfl⟩ := exists_nine s (by rw [h.length_eq]; rfl)
  have hm : ∀ c ∈ [a0, a1, a2, a3, a4, a5, a6, a7, a8], c ∈ GOALSTATE := fun c hc => h.subset hc
  rw [stateSolvable_nine _ _ _ _ _ _ _ _ _ hm, inversionCount_nine _ _ _ _ _ _ _ _ _ hm]
  simp

theorem solvability_parity_ok_witness :
    ValidState ['2', '1', '3', '4', '5', '6', '7', '8', 'E'] ∧
    (stateSolvable ['2', '1', '3', '4', '5', '6', '7', '8', 'E'] = true ↔
      inversionCount ['2', '1', '3', '4', '5', '6', '7', '8', 'E'] % 2 = 0) :=
  ⟨by decide, solvability_parity_ok _ (by decide)⟩

/-! ## The misplaced tiles heuristic -/

theorem goal_nodup : GOALSTATE.Nodup := by decide

theorem valid_shape (s : List Char) (h : ValidState s) :
    ∃ a0 a1 a2 a3 a4 a5 a6 a7 a8, s = [a0, a1, a2, a3, a4, a5, a6, a7, a8] ∧
      (∀ c ∈ s, c ∈ GOALSTATE) ∧ s.Nodup ∧ 'E' ∈ s := by
  obtain ⟨a0, a1, a2, a3, a4, a5, a6, a7, a8, rfl⟩ :=
    exists_nine s (by rw [List.Perm.length_eq h]; rfl)
  exact ⟨a0, a1, a2, a3, a4, a5, a6, a7, a8, rfl, fun c hc => List.Perm.subset h hc,
    (List.Perm.nodup_iff h).mpr goal_nodup, List.Perm.subset (List.Perm.symm h) (by decide)⟩

theorem misplacedTiles_nine (a0 a1 a2 a3 a4 a5 a6 a7 a8 : Char) :
    misplacedTiles [a0, a1, a2, a3, a4, a5, a6, a7, a8] =
      0 + misplacedAt a0 '1' + misplacedAt a1 '2' + misplacedAt a2 '3' + misplacedAt a3 '4'
        + misplacedAt a4 '5' + misplacedAt a5 '6' + misplacedAt a6 '7'
        + misplacedAt a7 '8' := by
  have h : ([a0, a1, a2, a3, a4, a5, a6, a7, a8].length + 2 ^ 64 - 1) % 2 ^ 64 = 8 := by
    simp only [List.length_cons, List.length_nil]; norm_num
  have key : ∀ (a b : Char) (n : Nat), (if a ≠ b then n + 1 else n) = n + misplacedAt a b := by
    intro a b n; unfold misplacedAt; split <;> rfl
  unfold misplacedTiles
  rw [h]
  simp only [List.range, List.range.loop, List.foldl, charAt, GOALSTATE, List.getD_cons_zero,
    List.getD_cons_succ, key]

theorem misplacedSpec_nine (a0 a1 a2 a3 a4 a5 a6 a7 a8 : Char) :
    misplacedSpec [a0, a1, a2, a3, a4, a5, a6, a7, a8] =
      (if a0 ≠ 'E' ∧ a0 ≠ '1' then 1 else 0) + (if a1 ≠ 'E' ∧ a1 ≠ '2' then 1 else 0)
      + (if a2 ≠ 'E' ∧ a2 ≠ '3' then 1 else 0) + (if a3 ≠ 'E' ∧ a3 ≠ '4' then 1 else 0)
      + (if a4 ≠ 'E' ∧ a4 ≠ '5' then 1 else 0) + (if a5 ≠ 'E' ∧ a5 ≠ '6' then 1 else 0)
      + (if a6 ≠ 'E' ∧ a6 ≠ '7' then 1 else 0) + (if a7 ≠ 'E' ∧ a7 ≠ '8' then 1 else 0)
      + (if a8 ≠ 'E' ∧ a8 ≠ 'E' then 1 else 0) := by
  unfold misplacedSpec
  rw [← List.countP_eq_length_filter]
  simp only [List.range, List.range.loop, List.countP_cons, List.countP_nil, charAt, GOALSTATE,
    List.getD_cons_zero, List.getD_cons_succ, decide_eq_true_eq, Nat.zero_add]
  ac_rfl

/-- C10: for every valid state `misplacedTiles` equals the number of positions in 0..8
holding a non-blank tile whose label differs from the goal's label there, although the
code scans the positions 0..7 only and counts the blank. -/
theorem misplacedTiles_eq_spec (s : List Char) (h : ValidState s) :
    misplacedTiles s = misplacedSpec s := by
  obtain ⟨a0, a1, a2, a3, a4, a5, a6, a7, a8, rfl, -, hn, hE⟩ := valid_shape s h
  rw [misplacedTiles_nine, misplacedSpec_nine]
  simp only [List.nodup_cons, List.mem_cons, List.mem_singleton, not_or, List.not_mem_nil,
    not_false_eq_true, List.nodup_nil, and_true] at hn
  simp only [List.mem_cons, List.mem_singleton, List.not_mem_nil, or_false] at hE
  unfold misplacedAt
  rcases hE with rfl | rfl | rfl | rfl | rfl | rfl | rfl | rfl | rfl <;>
    simp [*, Ne.symm] <;> omega
theorem misplacedTiles_eq_spec_witness :
    ValidState ['E', '1', '2', '3', '4', '5', '6', '7', '8'] ∧
    misplacedTiles ['E', '1', '2', '3', '4', '5', '6', '7', '8'] =
      misplacedSpec ['E', '1', '2', '3', '4', '5', '6', '7', '8'] :=
  ⟨by decide, misplacedTiles_eq_spec _ (by decide)⟩

theorem charAt_swapAt (s : List Char) (p q i : Nat) (hp : p < s.length) (hq : q < s.length) :
    charAt (swapAt s p q) i =
      if i = q then charAt s p else if i = p then charAt s q else charAt s i := by
  unfold swapAt charAt
  simp only [List.getD_eq_getElem?_getD, List.getElem?_set]
  by_cases h1 : i = q
  · subst h1; simp [hq]
  · by_cases h2 : i = p
    · subst h2; simp [hp, h1, Ne.symm h1]
    · simp [h1, h2, Ne.symm h1, Ne.symm h2]

theorem charAt_inj (s : List Char) (hn : s.Nodup) (i j : Nat) (hi : i < s.length)
    (hj : j < s.length) (h : charAt s i = charAt s j) : i = j := by
  unfold charAt at h
  rw [List.getD_eq_getElem _ _ hi, List.getD_eq_getElem _ _ hj] at h
  exact (List.Nodup.getElem_inj_iff hn).mp h

theorem swapAt_differs (s : List Char) (hn : s.Nodup) (p q i : Nat) (hp : p < s.length)
    (hq : q < s.length) (hi : i < s.length) (hpq : p ≠ q) :
    charAt (swapAt s p q) i ≠ charAt s i ↔ (i = p ∨ i = q) := by
  rw [charAt_swapAt s p q i hp hq]
  by_cases h1 : i = q
  · subst h1
    simp only [if_true, or_true, iff_true]
    exact fun h => hpq (charAt_inj s hn _ _ hp hq h)
  · by_cases h2 : i = p
    · subst h2
      simp only [h1, if_false, if_true, true_or, iff_true]
      exact fun h => h1 ((charAt_inj s hn _ _ hq hi h).symm)
    · simp [h1, h2]

theorem adjacent_ne (p q : Nat) (h : adjacent p q) : p ≠ q := by
  unfold adjacent at h; omega

theorem mem_neighbours (p q : Nat) : q ∈ neighbours p ↔ q < 9 ∧ adjacent p q := by
  simp [neighbours]

/-! ## Legal moves and the candidates of the expansion -/

/-- The candidates are the swaps of the working state's cell `k` with the cells of
`moveOrder k`, each computed from the working state. -/
theorem candidates_eq_map (s : List Char) (hlen : s.length = 9) (k : Nat) (hk : k < 9) :
    candidates (k + 1) s = (moveOrder k).map (fun q => swapAt s k q) := by
  obtain ⟨a0, a1, a2, a3, a4, a5, a6, a7, a8, rfl⟩ := exists_nine s hlen
  interval_cases k <;> rfl

theorem moveOrder_perm : ∀ k, k < 9 → (moveOrder k).Perm (neighbours k) := by
  decide

theorem blank_position (s : List Char) (h : ValidState s) :
    ∃ k, k < 9 ∧ charAt s k = 'E' ∧ (∀ i, i < 9 → charAt s i = 'E' → i = k) ∧
      findEmpty s = some (k + 1) := by
  obtain ⟨a0, a1, a2, a3, a4, a5, a6, a7, a8, rfl, -, hn, hE⟩ := valid_shape s h
  simp only [List.nodup_cons, List.mem_cons, List.mem_singleton, not_or, List.not_mem_nil,
    not_false_eq_true, List.nodup_nil, and_true] at hn
  simp only [List.mem_cons, List.mem_singleton, List.not_mem_nil, or_false] at hE
  have huniq : ∀ k, k < 9 → charAt [a0, a1, a2, a3, a4, a5, a6, a7, a8] k = 'E' →
      ∀ i, i < 9 → charAt [a0, a1, a2, a3, a4, a5, a6, a7, a8] i = 'E' → i = k := by
    intro k hk hkE i hi hiE
    exact charAt_inj _ ((List.Perm.nodup_iff h).mpr goal_nodup) i k (by simpa using hi)
      (by simpa using hk) (hiE.trans hkE.symm)
  rcases hE with rfl | rfl | rfl | rfl | rfl | rfl | rfl | rfl | rfl
  · exact ⟨0, by norm_num, rfl, huniq 0 (by norm_num) rfl,
      by simp [findEmpty, charAt, List.range, List.range.loop, hn, Ne.symm]⟩
  · exact ⟨1, by norm_num, rfl, huniq 1 (by norm_num) rfl,
      by simp [findEmpty, charAt, List.range, List.range.loop, hn, Ne.symm]⟩
  · exact ⟨2, by norm_num, rfl, huniq 2 (by norm_num) rfl,
      by simp [findEmpty, charAt, List.range, List.range.loop, hn, Ne.symm]⟩
  · exact ⟨3, by norm_num, rfl, huniq 3 (by norm_num) rfl,
      by simp [findEmpty, charAt, List.range, List.range.loop, hn, Ne.symm]⟩
  · exact ⟨4, by norm_num, rfl, huniq 4 (by norm_num) rfl,
      by simp [findEmpty, charAt, List.range, List.range.loop, hn, Ne.symm]⟩
  · exact ⟨5, by norm_num, rfl, huniq 5 (by norm_num) rfl,
      by simp [findEmpty, charAt, List.range, List.range.loop, hn, Ne.symm]⟩
  · exact ⟨6, by norm_num, rfl, huniq 6 (by norm_num) rfl,
      by simp [findEmpty, charAt, List.range, List.range.loop, hn, Ne.symm]⟩
  · exact ⟨7, by norm_num, rfl, huniq 7 (by norm_num) rfl,
      by simp [findEmpty, charAt, List.range, List.range.loop, hn, Ne.symm]⟩
  · exact ⟨8, by norm_num, rfl, huniq 8 (by norm_num) rfl,
      by simp [findEmpty, charAt, List.range, List.range.loop, hn, Ne.symm]⟩

/-- C5: for every valid state `s` with the blank at row-major position `p` (as `findEmpty`
returns it), the candidate successor states that the expansion derives are exactly the
states obtained from `s` by exchanging the blank with one orthogonally adjacent cell,
one candidate per neighbour of `p`; each is computed from `s` itself and differs from
`s` at precisely those two cells. -/
theorem candidates_are_blank_swaps (s : List Char) (p : Nat) (h : ValidState s)
    (hp : findEmpty s = some p) :
    1 ≤ p ∧ p ≤ 9 ∧ charAt s (p - 1) = 'E' ∧
    (candidates p s).Perm ((neighbours (p - 1)).map (fun q => swapAt s (p - 1) q)) ∧
    (∀ t, t ∈ candidates p s ↔ legalMove s t) ∧
    (∀ q, q ∈ neighbours (p - 1) → ∀ i, i < 9 →
      (charAt (swapAt s (p - 1) q) i ≠ charAt s i ↔ (i = p - 1 ∨ i = q))) := by
  obtain ⟨k, hk, hkE, huniq, hfind⟩ := blank_position s h
  have hlen : s.length = 9 := by rw [List.Perm.length_eq h]; rfl
  have hn : s.Nodup := (List.Perm.nodup_iff h).mpr goal_nodup
  rw [hfind] at hp
  cases hp
  have hperm : (candidates (k + 1) s).Perm
      ((neighbours k).map (fun q => swapAt s k q)) := by
    rw [candidates_eq_map s hlen k hk]
    exact List.Perm.map _ (moveOrder_perm k hk)
  refine ⟨by omega, by omega, hkE, hperm, ?_, ?_⟩
  · intro t
    rw [List.Perm.mem_iff hperm, List.mem_map]
    constructor
    · rintro ⟨q, hq, rfl⟩
      rw [mem_neighbours] at hq
      exact ⟨k, q, hk, hq.1, hq.2, hkE, rfl⟩
    · rintro ⟨p', q, hp', hq, hadj, hE, rfl⟩
      have : p' = k := huniq p' hp' hE
      subst this
      exact ⟨q, (mem_neighbours _ _).mpr ⟨hq, hadj⟩, rfl⟩
  · intro q hq i hi
    rw [mem_neighbours] at hq
    exact swapAt_differs s hn k q i (by omega) (by omega) (by omega) (adjacent_ne _ _ hq.2)

theorem candidates_are_blank_swaps_witness :
    ValidState ['1', '2', '3', '4', 'E', '6', '7', '5', '8'] ∧
    findEmpty ['1', '2', '3', '4', 'E', '6', '7', '5', '8'] = some 5 ∧
    candidates 5 ['1', '2', '3', '4', 'E', '6', '7', '5', '8'] =
      [['1', '2', '3', '4', '6', 'E', '7', '5', '8'],
       ['1', '2', '3', '4', '5', '6', '7', 'E', '8'],
       ['1', '2', '3', 'E', '4', '6', '7', '5', '8'],
       ['1', 'E', '3', '4', '2', '6', '7', '5', '8']] ∧
    (∀ t, t ∈ candidates 5 ['1', '2', '3', '4', 'E', '6', '7', '5', '8'] ↔
      legalMove ['1', '2', '3', '4', 'E', '6', '7', '5', '8'] t) :=
  ⟨by decide, by decide, by decide,
    (candidates_are_blank_swaps _ 5 (by decide) (by decide)).2.2.2.2.1⟩

/-! ## One check of a swap pattern -/

theorem checkMap_iff (t : List Char) (g : Globals) : checkMap t g = true ↔ t ∈ keys g := by
  simp only [checkMap, keys, List.any_eq_true, decide_eq_true_eq, List.mem_map]
  constructor
  · rintro ⟨e, he, rfl⟩; exact ⟨e, he, rfl⟩
  · rintro ⟨e, he, rfl⟩; exact ⟨e, he, rfl⟩

theorem pushList_perm (ds : Nat) (n : Node) (l : List Node) :
    (pushList ds n l).Perm (n :: l) := by
  have hpq : ∀ l : List Node, (pqPush n l).Perm (n :: l) := by
    intro l
    induction l with
    | nil => exact List.Perm.refl _
    | cons m rest ih =>
      unfold pqPush
      split
      · exact List.Perm.refl _
      · exact (List.Perm.cons m ih).trans (List.Perm.swap n m rest)
  unfold pushList
  split
  · exact List.perm_append_singleton n l
  · exact List.Perm.refl _
  · exact hpq l

/-- A check whose swapped state is in the map changes nothing. -/
theorem tryMove_old (sw : Puzzle → Puzzle × List Char) (lbl : String) (ws : List Char)
    (g : Globals) (h : (sw (populatePuzzle ws)).2 ∈ keys g) : tryMove sw lbl ws g = g := by
  unfold tryMove
  simp only [(checkMap_iff _ _).mpr h, if_true]

/-- A check whose swapped state `t` is not in the map increments the counter, inserts
`t` with the new counter into the map and pushes the new node. -/
theorem tryMove_new (ds : Nat) (hds : ds = 1 ∨ ds = 2 ∨ ds = 3 ∨ ds = 4)
    (sw : Puzzle → Puzzle × List Char) (lbl : String) (ws : List Char)
    (g : Globals) (hg : g.dataStructure = ds) (h : (sw (populatePuzzle ws)).2 ∉ keys g) :
    frontier ds (tryMove sw lbl ws g) =
        pushList ds (newNode ds g (sw (populatePuzzle ws)).2 lbl) (frontier ds g) ∧
      (tryMove sw lbl ws g).visited = g.visited ++ [((sw (populatePuzzle ws)).2, g.counter + 1)] ∧
      (tryMove sw lbl ws g).counter = g.counter + 1 ∧
      (tryMove sw lbl ws g).curr = g.curr ∧
      (tryMove sw lbl ws g).dataStructure = ds := by
  have hc : checkMap (sw (populatePuzzle ws)).2 g = false := by
    rw [← Bool.not_eq_true, checkMap_iff]; exact h
  have hany : (g.visited.any fun e => decide (e.1 = (sw (populatePuzzle ws)).2)) = false := by
    rw [← Bool.not_eq_true]
    intro hh
    apply h
    simp only [List.any_eq_true, decide_eq_true_eq] at hh
    obtain ⟨e, he, heq⟩ := hh
    rw [← heq]
    exact List.mem_map_of_mem _ he
  unfold tryMove
  simp only [hc, Bool.false_eq_true, if_false]
  rcases hds with rfl | rfl | rfl | rfl <;>
    simp [insertMap, hany, buildNode, insertDataStructure, hg, frontier, pushList, newNode, Node.clear]

/-! ## The expansion of a state -/

theorem searchPattern_eq (p : Nat) (ws : List Char) (g : Globals) :
    searchPattern p ws g = runChecks (tileChecks p) ws g := by
  unfold searchPattern
  split <;> first | rfl | skip
  rename_i h1 h2 h3 h4 h5 h6 h7 h8 h9
  have : tileChecks p = [] := by
    unfold tileChecks
    split <;> first | rfl | (exfalso; first | exact h1 rfl | exact h2 rfl | exact h3 rfl | exact h4 rfl | exact h5 rfl | exact h6 rfl | exact h7 rfl | exact h8 rfl | exact h9 rfl)
  rw [this]; rfl

theorem keys_tryMove (ds : Nat) (hds : ds = 1 ∨ ds = 2 ∨ ds = 3 ∨ ds = 4)
    (sw : Puzzle → Puzzle × List Char) (lbl : String) (ws : List Char)
    (g : Globals) (hg : g.dataStructure = ds) :
    keys (tryMove sw lbl ws g) =
      if (sw (populatePuzzle ws)).2 ∈ keys g then keys g
      else keys g ++ [(sw (populatePuzzle ws)).2] := by
  split
  · rename_i h; rw [tryMove_old sw lbl ws g h]
  · rename_i h
    obtain ⟨-, hv, -⟩ := tryMove_new ds hds sw lbl ws g hg h
    unfold keys; rw [hv]; simp

theorem dataStructure_tryMove (ds : Nat) (hds : ds = 1 ∨ ds = 2 ∨ ds = 3 ∨ ds = 4)
    (sw : Puzzle → Puzzle × List Char) (lbl : String) (ws : List Char)
    (g : Globals) (hg : g.dataStructure = ds) :
    (tryMove sw lbl ws g).dataStructure = ds ∧ (tryMove sw lbl ws g).curr = g.curr := by
  by_cases h : (sw (populatePuzzle ws)).2 ∈ keys g
  · rw [tryMove_old sw lbl ws g h]; exact ⟨hg, rfl⟩
  · obtain ⟨-, -, -, hc, hd⟩ := tryMove_new ds hds sw lbl ws g hg h
    exact ⟨hd, hc⟩

/-- Checks whose swapped states are pairwise distinct and not in the map generate one
node each. -/
theorem runChecks_fresh (ds : Nat) (hds : ds = 1 ∨ ds = 2 ∨ ds = 3 ∨ ds = 4)
    (ws : List Char) (cs : List ((Puzzle → Puzzle × List Char) × String)) :
    ∀ g : Globals, g.dataStructure = ds →
      (cs.map (fun c => (c.1 (populatePuzzle ws)).2)).Nodup →
      (∀ t ∈ cs.map (fun c => (c.1 (populatePuzzle ws)).2), t ∉ keys g) →
      (runChecks cs ws g).counter = g.counter + cs.length ∧
      (frontier ds (runChecks cs ws g)).length = (frontier ds g).length + cs.length ∧
      (runChecks cs ws g).visited.length = g.visited.length + cs.length := by
  induction cs with
  | nil => intro g _ _ _; exact ⟨rfl, rfl, rfl⟩
  | cons c cs ih =>
    intro g hg hn hfresh
    have hc : (c.1 (populatePuzzle ws)).2 ∉ keys g := hfresh _ (by simp)
    obtain ⟨hf, hv, hcnt, -, hd⟩ := tryMove_new ds hds c.1 c.2 ws g hg hc
    rw [List.map_cons, List.nodup_cons] at hn
    have hk := keys_tryMove ds hds c.1 c.2 ws g hg
    rw [if_neg hc] at hk
    obtain ⟨h1, h2, h3⟩ := ih (tryMove c.1 c.2 ws g) hd hn.2 (by
      intro t ht
      rw [hk, List.mem_append, List.mem_singleton]
      rintro (h | h)
      · exact hfresh t (by simp only [List.map_cons, List.mem_cons]; exact Or.inr ht) h
      · subst h; exact hn.1 ht)
    have hrun : runChecks (c :: cs) ws g = runChecks cs ws (tryMove c.1 c.2 ws g) := rfl
    rw [hrun, h1, h2, h3, hcnt, hf, hv, List.Perm.length_eq (pushList_perm _ _ _)]
    simp only [List.length_cons, List.length_append, List.length_nil]
    omega

theorem swapAt_inj (s : List Char) (hn : s.Nodup) (k q q' : Nat) (hk : k < s.length)
    (hq : q < s.length) (hq' : q' < s.length) (hkq : k ≠ q)
    (h : swapAt s k q = swapAt s k q') : q = q' := by
  by_contra hne
  have h1 := charAt_swapAt s k q q hk hq
  have h2 := charAt_swapAt s k q' q hk hq'
  rw [h] at h1
  rw [h1] at h2
  simp only [if_true, hne, if_false, Ne.symm hkq] at h2
  exact hkq (charAt_inj s hn _ _ hk hq h2)

theorem candidates_nodup (s : List Char) (h : ValidState s) (k : Nat) (hk : k < 9) :
    (candidates (k + 1) s).Nodup := by
  have hlen : s.length = 9 := by rw [List.Perm.length_eq h]; rfl
  have hn : s.Nodup := (List.Perm.nodup_iff h).mpr goal_nodup
  rw [candidates_eq_map s hlen k hk]
  have hmo : (moveOrder k).Nodup := by
    revert k; decide
  have hsub : ∀ q ∈ moveOrder k, q < 9 ∧ k ≠ q := by
    revert k; decide
  apply List.Nodup.map_on _ hmo
  intro q hq q' hq' heq
  exact swapAt_inj s hn k q q' (by omega) (by have := hsub q hq; omega)
    (by have := hsub q' hq'; omega) (hsub q hq).2 heq

theorem tileChecks_length : ∀ p,
    ((p = 1 ∨ p = 3 ∨ p = 7 ∨ p = 9) → (tileChecks p).length = 2) ∧
    ((p = 2 ∨ p = 4 ∨ p = 6 ∨ p = 8) → (tileChecks p).length = 3) ∧
    (p = 5 → (tileChecks p).length = 4) := by
  intro p
  refine ⟨?_, ?_, ?_⟩
  · rintro (rfl | rfl | rfl | rfl) <;> rfl
  · rintro (rfl | rfl | rfl | rfl) <;> rfl
  · rintro rfl; rfl

/-- C6: expanding a valid state while none of its successor states is in the visited map
generates exactly 2 nodes when the blank is at a corner (positions 1, 3, 7, 9), exactly
3 at a non-corner edge (positions 2, 4, 6, 8) and exactly 4 at the centre (position 5). -/
theorem expansion_node_count (s : List Char) (p ds : Nat) (g : Globals)
    (h : ValidState s) (hp : findEmpty s = some p)
    (hds : ds = 1 ∨ ds = 2 ∨ ds = 3 ∨ ds = 4) (hg : g.dataStructure = ds)
    (hfresh : ∀ t ∈ candidates p s, checkMap t g = false) :
    ((p = 1 ∨ p = 3 ∨ p = 7 ∨ p = 9) → Generates ds g (searchPattern p s g) 2) ∧
    ((p = 2 ∨ p = 4 ∨ p = 6 ∨ p = 8) → Generates ds g (searchPattern p s g) 3) ∧
    (p = 5 → Generates ds g (searchPattern p s g) 4) := by
  obtain ⟨k, hk, -, -, hfind⟩ := blank_position s h
  rw [hfind] at hp
  cases hp
  have hrun := runChecks_fresh ds hds s (tileChecks (k + 1)) g hg (candidates_nodup s h k hk)
    (fun t ht hmem => by
      have := hfresh t ht
      rw [(checkMap_iff t g).mpr hmem] at this
      exact Bool.noConfusion this)
  rw [← searchPattern_eq] at hrun
  obtain ⟨l2, l3, l4⟩ := tileChecks_length (k + 1)
  unfold Generates
  refine ⟨fun hc => ?_, fun hc => ?_, fun hc => ?_⟩
  · rw [← l2 hc]; exact hrun
  · rw [← l3 hc]; exact hrun
  · rw [← l4 hc]; exact hrun

theorem expansion_node_count_witness :
    ValidState ['1', '2', '3', '4', 'E', '6', '7', '5', '8'] ∧
    findEmpty ['1', '2', '3', '4', 'E', '6', '7', '5', '8'] = some 5 ∧
    Generates 1 { Globals.initial with dataStructure := 1 }
      (searchPattern 5 ['1', '2', '3', '4', 'E', '6', '7', '5', '8']
        { Globals.initial with dataStructure := 1 }) 4 :=
  ⟨by decide, by decide,
    (expansion_node_count ['1', '2', '3', '4', 'E', '6', '7', '5', '8'] 5 1
      { Globals.initial with dataStructure := 1 } (by decide) (by decide) (Or.inl rfl) rfl
      (by decide)).2.2 rfl⟩

/-! ## Legal moves, case by case -/

theorem adjacent_mem_pairs_aux :
    ∀ p q : Fin 9, adjacent p.val q.val → (p.val, q.val) ∈ adjacentPairs := by
  decide

theorem adjacent_mem_pairs (p q : Nat) (hp : p < 9) (hq : q < 9) (h : adjacent p q) :
    (p, q) ∈ adjacentPairs :=
  adjacent_mem_pairs_aux ⟨p, hp⟩ ⟨q, hq⟩ h

/-- The legal moves of a string of nine characters, case by case: the blank is at a
cell `p` and is exchanged with an orthogonally adjacent cell `q`. -/
theorem legalMove_cases (a0 a1 a2 a3 a4 a5 a6 a7 a8 : Char) (t : List Char)
    (h : legalMove [a0, a1, a2, a3, a4, a5, a6, a7, a8] t) :
    (a0 = 'E' ∧ t = [a1, 'E', a2, a3, a4, a5, a6, a7, a8]) ∨
    (a0 = 'E' ∧ t = [a3, a1, a2, 'E', a4, a5, a6, a7, a8]) ∨
    (a1 = 'E' ∧ t = ['E', a0, a2, a3, a4, a5, a6, a7, a8]) ∨
    (a1 = 'E' ∧ t = [a0, a2, 'E', a3, a4, a5, a6, a7, a8]) ∨
    (a1 = 'E' ∧ t = [a0, a4, a2, a3, 'E', a5, a6, a7, a8]) ∨
    (a2 = 'E' ∧ t = [a0, 'E', a1, a3, a4, a5, a6, a7, a8]) ∨
    (a2 = 'E' ∧ t = [a0, a1, a5, a3, a4, 'E', a6, a7, a8]) ∨
    (a3 = 'E' ∧ t = ['E', a1, a2, a0, a4, a5, a6, a7, a8]) ∨
    (a3 = 'E' ∧ t = [a0, a1, a2, a4, 'E', a5, a6, a7, a8]) ∨
    (a3 = 'E' ∧ t = [a0, a1, a2, a6, a4, a5, 'E', a7, a8]) ∨
    (a4 = 'E' ∧ t = [a0, 'E', a2, a3, a1, a5, a6, a7, a8]) ∨
    (a4 = 'E' ∧ t = [a0, a1, a2, 'E', a3, a5, a6, a7, a8]) ∨
    (a4 = 'E' ∧ t = [a0, a1, a2, a3, a5, 'E', a6, a7, a8]) ∨
    (a4 = 'E' ∧ t = [a0, a1, a2, a3, a7, a5, a6, 'E', a8]) ∨
    (a5 = 'E' ∧ t = [a0, a1, 'E', a3, a4, a2, a6, a7, a8]) ∨
    (a5 = 'E' ∧ t = [a0, a1, a2, a3, 'E', a4, a6, a7, a8]) ∨
    (a5 = 'E' ∧ t = [a0, a1, a2, a3, a4, a8, a6, a7, 'E']) ∨
    (a6 = 'E' ∧ t = [a0, a1, a2, 'E', a4, a5, a3, a7, a8]) ∨
    (a6 = 'E' ∧ t = [a0, a1, a2, a3, a4, a5, a7, 'E', a8]) ∨
    (a7 = 'E' ∧ t = [a0, a1, a2, a3, 'E', a5, a6, a4, a8]) ∨
    (a7 = 'E' ∧ t = [a0, a1, a2, a3, a4, a5, 'E', a6, a8]) ∨
    (a7 = 'E' ∧ t = [a0, a1, a2, a3, a4, a5, a6, a8, 'E']) ∨
    (a8 = 'E' ∧ t = [a0, a1, a2, a3, a4, 'E', a6, a7, a5]) ∨
    (a8 = 'E' ∧ t = [a0, a1, a2, a3, a4, a5, a6, 'E', a7]) := by
  obtain ⟨p, q, hp, hq, hadj, hE, rfl⟩ := h
  have hpq : (p, q) ∈ adjacentPairs := adjacent_mem_pairs p q hp hq hadj
  simp only [adjacentPairs, List.mem_cons, Prod.mk.injEq, List.mem_singleton, List.not_mem_nil, or_false] at hpq
  rcases hpq with ⟨e01, t01⟩ | ⟨e03, t03⟩ | ⟨e10, t10⟩ | ⟨e12, t12⟩ |
    ⟨e14, t14⟩ | ⟨e21, t21⟩ | ⟨e25, t25⟩ | ⟨e30, t30⟩ |
    ⟨e34, t34⟩ | ⟨e36, t36⟩ | ⟨e41, t41⟩ | ⟨e43, t43⟩ |
    ⟨e45, t45⟩ | ⟨e47, t47⟩ | ⟨e52, t52⟩ | ⟨e54, t54⟩ |
    ⟨e58, t58⟩ | ⟨e63, t63⟩ | ⟨e67, t67⟩ | ⟨e74, t74⟩ |
    ⟨e76, t76⟩ | ⟨e78, t78⟩ | ⟨e85, t85⟩ | ⟨e87, t87⟩ <;>
    subst_vars <;>
    simp only [charAt, List.getD_cons_zero, List.getD_cons_succ] at * <;>
    simp [swapAt, charAt]

/-! ## Admissibility of the heuristics -/

theorem misplacedAt_le (a b : Char) : misplacedAt a b ≤ 1 := by
  unfold misplacedAt; split <;> omega

/-- A legal move changes `misplacedTiles` by at most 1. -/
theorem misplacedTiles_step (s t : List Char) (hlen : s.length = 9) (hm : legalMove s t) :
    misplacedTiles s ≤ misplacedTiles t + 1 ∧ misplacedTiles t ≤ misplacedTiles s + 1 := by
  obtain ⟨a0, a1, a2, a3, a4, a5, a6, a7, a8, rfl⟩ := exists_nine s hlen
  rcases legalMove_cases _ _ _ _ _ _ _ _ _ t hm with
    ⟨e01, t01⟩ | ⟨e03, t03⟩ | ⟨e10, t10⟩ | ⟨e12, t12⟩ |
    ⟨e14, t14⟩ | ⟨e21, t21⟩ | ⟨e25, t25⟩ | ⟨e30, t30⟩ |
    ⟨e34, t34⟩ | ⟨e36, t36⟩ | ⟨e41, t41⟩ | ⟨e43, t43⟩ |
    ⟨e45, t45⟩ | ⟨e47, t47⟩ | ⟨e52, t52⟩ | ⟨e54, t54⟩ |
    ⟨e58, t58⟩ | ⟨e63, t63⟩ | ⟨e67, t67⟩ | ⟨e74, t74⟩ |
    ⟨e76, t76⟩ | ⟨e78, t78⟩ | ⟨e85, t85⟩ | ⟨e87, t87⟩
  all_goals subst_vars
  · have b0 := misplacedAt_le a1 '1'
    have c0 : misplacedAt 'E' '1' = 1 := by decide
    have b1 := misplacedAt_le a1 '2'
    have c1 : misplacedAt 'E' '2' = 1 := by decide
    simp only [misplacedTiles_nine]
    omega
  · have b0 := misplacedAt_le a3 '1'
    have c0 : misplacedAt 'E' '1' = 1 := by decide
    have b3 := misplacedAt_le a3 '4'
    have c3 : misplacedAt 'E' '4' = 1 := by decide
    simp only [misplacedTiles_nine]
    omega
  · have b1 := misplacedAt_le a0 '2'
    have c1 : misplacedAt 'E' '2' = 1 := by decide
    have b0 := misplacedAt_le a0 '1'
    have c0 : misplacedAt 'E' '1' = 1 := by decide
    simp only [misplacedTiles_nine]
    omega
  · have b1 := misplacedAt_le a2 '2'
    have c1 : misplacedAt 'E' '2' = 1 := by decide
    have b2 := misplacedAt_le a2 '3'
    have c2 : misplacedAt 'E' '3' = 1 := by decide
    simp only [misplacedTiles_nine]
    omega
  · have b1 := misplacedAt_le a4 '2'
    have c1 : misplacedAt 'E' '2' = 1 := by decide
    have b4 := misplacedAt_le a4 '5'
    have c4 : misplacedAt 'E' '5' = 1 := by decide
    simp only [misplacedTiles_nine]
    omega
  · have b2 := misplacedAt_le a1 '3'
    have c2 : misplacedAt 'E' '3' = 1 := by decide
    have b1 := misplacedAt_le a1 '2'
    have c1 : misplacedAt 'E' '2' = 1 := by decide
    simp only [misplacedTiles_nine]
    omega
  · have b2 := misplacedAt_le a5 '3'
    have c2 : misplacedAt 'E' '3' = 1 := by decide
    have b5 := misplacedAt_le a5 '6'
    have c5 : misplacedAt 'E' '6' = 1 := by decide
    simp only [misplacedTiles_nine]
    omega
  · have b3 := misplacedAt_le a0 '4'
    have c3 : misplacedAt 'E' '4' = 1 := by decide
    have b0 := misplacedAt_le a0 '1'
    have c0 : misplacedAt 'E' '1' = 1 := by decide
    simp only [misplacedTiles_nine]
    omega
  · have b3 := misplacedAt_le a4 '4'
    have c3 : misplacedAt 'E' '4' = 1 := by decide
    have b4 := misplacedAt_le a4 '5'
    have c4 : misplacedAt 'E' '5' = 1 := by decide
    simp only [misplacedTiles_nine]
    omega
  · have b3 := misplacedAt_le a6 '4'
    have c3 : misplacedAt 'E' '4' = 1 := by decide
    have b6 := misplacedAt_le a6 '7'
    have c6 : misplacedAt 'E' '7' = 1 := by decide
    simp only [misplacedTiles_nine]
    omega
  · have b4 := misplacedAt_le a1 '5'
    have c4 : misplacedAt 'E' '5' = 1 := by decide
    have b1 := misplacedAt_le a1 '2'
    have c1 : misplacedAt 'E' '2' = 1 := by decide
    simp only [misplacedTiles_nine]
    omega
  · have b4 := misplacedAt_le a3 '5'
    have c4 : misplacedAt 'E' '5' = 1 := by decide
    have b3 := misplacedAt_le a3 '4'
    have c3 : misplacedAt 'E' '4' = 1 := by decide
    simp only [misplacedTiles_nine]
    omega
  · have b4 := misplacedAt_le a5 '5'
    have c4 : misplacedAt 'E' '5' = 1 := by decide
    have b5 := misplacedAt_le a5 '6'
    have c5 : misplacedAt 'E' '6' = 1 := by decide
    simp only [misplacedTiles_nine]
    omega
  · have b4 := misplacedAt_le a7 '5'
    have c4 : misplacedAt 'E' '5' = 1 := by decide
    have b7 := misplacedAt_le a7 '8'
    have c7 : misplacedAt 'E' '8' = 1 := by decide
    simp only [misplacedTiles_nine]
    omega
  · have b5 := misplacedAt_le a2 '6'
    have c5 : misplacedAt 'E' '6' = 1 := by decide
    have b2 := misplacedAt_le a2 '3'
    have c2 : misplacedAt 'E' '3' = 1 := by decide
    simp only [misplacedTiles_nine]
    omega
  · have b5 := misplacedAt_le a4 '6'
    have c5 : misplacedAt 'E' '6' = 1 := by decide
    have b4 := misplacedAt_le a4 '5'
    have c4 : misplacedAt 'E' '5' = 1 := by decide
    simp only [misplacedTiles_nine]
    omega
  · have b5 := misplacedAt_le a8 '6'
    have c5 : misplacedAt 'E' '6' = 1 := by decide
    simp only [misplacedTiles_nine]
    omega
  · have b6 := misplacedAt_le a3 '7'
    have c6 : misplacedAt 'E' '7' = 1 := by decide
    have b3 := misplacedAt_le a3 '4'
    have c3 : misplacedAt 'E' '4' = 1 := by decide
    simp only [misplacedTiles_nine]
    omega
  · have b6 := misplacedAt_le a7 '7'
    have c6 : misplacedAt 'E' '7' = 1 := by decide
    have b7 := misplacedAt_le a7 '8'
    have c7 : misplacedAt 'E' '8' = 1 := by decide
    simp only [misplacedTiles_nine]
    omega
  · have b7 := misplacedAt_le a4 '8'
    have c7 : misplacedAt 'E' '8' = 1 := by decide
    have b4 := misplacedAt_le a4 '5'
    have c4 : misplacedAt 'E' '5' = 1 := by decide
    simp only [misplacedTiles_nine]
    omega
  · have b7 := misplacedAt_le a6 '8'
    have c7 : misplacedAt 'E' '8' = 1 := by decide
    have b6 := misplacedAt_le a6 '7'
    have c6 : misplacedAt 'E' '7' = 1 := by decide
    simp only [misplacedTiles_nine]
    omega
  · have b7 := misplacedAt_le a8 '8'
    have c7 : misplacedAt 'E' '8' = 1 := by decide
    simp only [misplacedTiles_nine]
    omega
  · have b5 := misplacedAt_le a5 '6'
    have c5 : misplacedAt 'E' '6' = 1 := by decide
    simp only [misplacedTiles_nine]
    omega
  · have b7 := misplacedAt_le a7 '8'
    have c7 : misplacedAt 'E' '8' = 1 := by decide
    simp only [misplacedTiles_nine]
    omega

theorem length_of_legalMove (s t : List Char) (hm : legalMove s t) : t.length = s.length := by
  obtain ⟨p, q, -, -, -, -, rfl⟩ := hm
  simp [swapAt]

/-- A legal move leads from a valid state to a valid state. -/
theorem valid_of_legalMove (s t : List Char) (h : ValidState s) (hm : legalMove s t) :
    ValidState t := by
  obtain ⟨a0, a1, a2, a3, a4, a5, a6, a7, a8, rfl, -, -, -⟩ := valid_shape s h
  unfold ValidState at *
  refine List.Perm.trans ?_ h
  rcases legalMove_cases _ _ _ _ _ _ _ _ _ t hm with
    ⟨e01, t01⟩ | ⟨e03, t03⟩ | ⟨e10, t10⟩ | ⟨e12, t12⟩ |
    ⟨e14, t14⟩ | ⟨e21, t21⟩ | ⟨e25, t25⟩ | ⟨e30, t30⟩ |
    ⟨e34, t34⟩ | ⟨e36, t36⟩ | ⟨e41, t41⟩ | ⟨e43, t43⟩ |
    ⟨e45, t45⟩ | ⟨e47, t47⟩ | ⟨e52, t52⟩ | ⟨e54, t54⟩ |
    ⟨e58, t58⟩ | ⟨e63, t63⟩ | ⟨e67, t67⟩ | ⟨e74, t74⟩ |
    ⟨e76, t76⟩ | ⟨e78, t78⟩ | ⟨e85, t85⟩ | ⟨e87, t87⟩ <;>
    subst_vars <;>
    (rw [List.perm_iff_count]; intro c; simp only [List.count_cons, List.count_nil]; omega)

theorem valid_of_moves {n : Nat} {s t : List Char} (hm : Moves n s t) (h : ValidState s) :
    ValidState t := by
  induction hm with
  | zero s => exact h
  | step hl _ ih => exact ih (valid_of_legalMove _ _ h hl)

theorem misplacedTiles_moves {n : Nat} {s t : List Char} (hm : Moves n s t)
    (hlen : s.length = 9) : misplacedTiles s ≤ misplacedTiles t + n := by
  induction hm with
  | zero s => omega
  | step hl _ ih =>
    have h1 := (misplacedTiles_step _ _ hlen hl).1
    have h2 := ih (by rw [length_of_legalMove _ _ hl]; exact hlen)
    omega

/-- C8: `misplacedTiles` is admissible: if some sequence of `n` legal moves transforms the
valid state `s` into `"12345678E"` then `misplacedTiles s ≤ n`. -/
theorem misplacedTiles_admissible (s : List Char) (n : Nat) (h : ValidState s)
    (hm : Moves n s GOALSTATE) : misplacedTiles s ≤ n := by
  have h1 := misplacedTiles_moves hm (by rw [List.Perm.length_eq h]; rfl)
  have h2 : misplacedTiles GOALSTATE = 0 := by decide
  omega

theorem manhattanDistance_nine (a0 a1 a2 a3 a4 a5 a6 a7 a8 : Char)
    (h : ∀ c ∈ [a0, a1, a2, a3, a4, a5, a6, a7, a8], c ∈ GOALSTATE) :
    manhattanDistance [a0, a1, a2, a3, a4, a5, a6, a7, a8] =
      0 + mdCell 0 0 (digitOf a0) + mdCell 0 1 (digitOf a1) + mdCell 0 2 (digitOf a2)
        + mdCell 1 0 (digitOf a3) + mdCell 1 1 (digitOf a4) + mdCell 1 2 (digitOf a5)
        + mdCell 2 0 (digitOf a6) + mdCell 2 1 (digitOf a7) + mdCell 2 2 (digitOf a8) := by
  have key : ∀ (i j : Fin 3) (value mDis : Nat),
      (if value ≠ 0 then
        mDis + (Int.natAbs ((i.val : Int) - (((value - 1) / 3 : Nat) : Int))
          + Int.natAbs ((j.val : Int) - (((value - 1) % 3 : Nat) : Int)))
      else mDis) = mDis + mdCell i.val j.val value := by
    intro i j value mDis; unfold mdCell; split <;> rfl
  unfold manhattanDistance
  rw [stringToInt_digits _ _ _ _ _ _ _ _ _ h]
  simp only [List.foldl, key]
  rfl

theorem digitOf_ne_zero : ∀ c ∈ GOALSTATE, c ≠ 'E' → digitOf c ≠ 0 := by
  decide

theorem tile_ne_blank (s : List Char) (hn : s.Nodup) (p q : Nat) (hp : p < s.length)
    (hq : q < s.length) (hpq : p ≠ q) (hE : charAt s p = 'E') : charAt s q ≠ 'E' :=
  fun h => hpq (charAt_inj s hn p q hp hq (hE.trans h.symm))

/-- A tile that moves to an orthogonally adjacent cell changes its summand of the
Manhattan distance by exactly 1. -/
theorem mdCell_adjacent (i j i' j' d : Nat) (hd : d ≠ 0)
    (hadj : (i = i' ∧ (j = j' + 1 ∨ j' = j + 1)) ∨ (j = j' ∧ (i = i' + 1 ∨ i' = i + 1))) :
    mdCell i j d = mdCell i' j' d + 1 ∨ mdCell i' j' d = mdCell i j d + 1 := by
  unfold mdCell
  simp only [hd, ne_eq, not_false_eq_true, if_true]
  omega

/-- A legal move from a valid state changes `manhattanDistance` by exactly 1. -/
theorem manhattanDistance_step (s t : List Char) (h : ValidState s) (hm : legalMove s t) :
    manhattanDistance s = manhattanDistance t + 1 ∨
      manhattanDistance t = manhattanDistance s + 1 := by
  have ht := valid_of_legalMove s t h hm
  obtain ⟨a0, a1, a2, a3, a4, a5, a6, a7, a8, rfl, hmem, hn, -⟩ := valid_shape s h
  have hz : ∀ i j, mdCell i j (digitOf 'E') = 0 := fun i j => rfl
  rcases legalMove_cases _ _ _ _ _ _ _ _ _ t hm with
    ⟨e01, t01⟩ | ⟨e03, t03⟩ | ⟨e10, t10⟩ | ⟨e12, t12⟩ |
    ⟨e14, t14⟩ | ⟨e21, t21⟩ | ⟨e25, t25⟩ | ⟨e30, t30⟩ |
    ⟨e34, t34⟩ | ⟨e36, t36⟩ | ⟨e41, t41⟩ | ⟨e43, t43⟩ |
    ⟨e45, t45⟩ | ⟨e47, t47⟩ | ⟨e52, t52⟩ | ⟨e54, t54⟩ |
    ⟨e58, t58⟩ | ⟨e63, t63⟩ | ⟨e67, t67⟩ | ⟨e74, t74⟩ |
    ⟨e76, t76⟩ | ⟨e78, t78⟩ | ⟨e85, t85⟩ | ⟨e87, t87⟩
  all_goals subst_vars
  · have hq := digitOf_ne_zero _ (hmem a1 (by simp))
      (tile_ne_blank _ hn 0 1 (by simp) (by simp) (by decide) rfl)
    have hstep := mdCell_adjacent 0 0 0 1 (digitOf a1) hq (by decide)
    rw [manhattanDistance_nine _ _ _ _ _ _ _ _ _ hmem,
      manhattanDistance_nine _ _ _ _ _ _ _ _ _ (fun c hc => List.Perm.subset ht hc)]
    simp only [hz]
    omega
  · have hq := digitOf_ne_zero _ (hmem a3 (by simp))
      (tile_ne_blank _ hn 0 3 (by simp) (by simp) (by decide) rfl)
    have hstep := mdCell_adjacent 0 0 1 0 (digitOf a3) hq (by decide)
    rw [manhattanDistance_nine _ _ _ _ _ _ _ _ _ hmem,
      manhattanDistance_nine _ _ _ _ _ _ _ _ _ (fun c hc => List.Perm.subset ht hc)]
    simp only [hz]
    omega
  · have hq := digitOf_ne_zero _ (hmem a0 (by simp))
      (tile_ne_blank _ hn 1 0 (by simp) (by simp) (by decide) rfl)
    have hstep := mdCell_adjacent 0 1 0 0 (digitOf a0) hq (by decide)
    rw [manhattanDistance_nine _ _ _ _ _ _ _ _ _ hmem,
      manhattanDistance_nine _ _ _ _ _ _ _ _ _ (fun c hc => List.Perm.subset ht hc)]
    simp only [hz]
    omega
  · have hq := digitOf_ne_zero _ (hmem a2 (by simp))
      (tile_ne_blank _ hn 1 2 (by simp) (by simp) (by decide) rfl)
    have hstep := mdCell_adjacent 0 1 0 2 (digitOf a2) hq (by decide)
    rw [manhattanDistance_nine _ _ _ _ _ _ _ _ _ hmem,
      manhattanDistance_nine _ _ _ _ _ _ _ _ _ (fun c hc => List.Perm.subset ht hc)]
    simp only [hz]
    omega
  · have hq := digitOf_ne_zero _ (hmem a4 (by simp))
      (tile_ne_blank _ hn 1 4 (by simp) (by simp) (by decide) rfl)
    have hstep := mdCell_adjacent 0 1 1 1 (digitOf a4) hq (by decide)
    rw [manhattanDistance_nine _ _ _ _ _ _ _ _ _ hmem,
      manhattanDistance_nine _ _ _ _ _ _ _ _ _ (fun c hc => List.Perm.subset ht hc)]
    simp only [hz]
    omega
  · have hq := digitOf_ne_zero _ (hmem a1 (by simp))
      (tile_ne_blank _ hn 2 1 (by simp) (by simp) (by decide) rfl)
    have hstep := mdCell_adjacent 0 2 0 1 (digitOf a1) hq (by decide)
    rw [manhattanDistance_nine _ _ _ _ _ _ _ _ _ hmem,
      manhattanDistance_nine _ _ _ _ _ _ _ _ _ (fun c hc => List.Perm.subset ht hc)]
    simp only [hz]
    omega
  · have hq := digitOf_ne_zero _ (hmem a5 (by simp))
      (tile_ne_blank _ hn 2 5 (by simp) (by simp) (by decide) rfl)
    have hstep := mdCell_adjacent 0 2 1 2 (digitOf a5) hq (by decide)
    rw [manhattanDistance_nine _ _ _ _ _ _ _ _ _ hmem,
      manhattanDistance_nine _ _ _ _ _ _ _ _ _ (fun c hc => List.Perm.subset ht hc)]
    simp only [hz]
    omega
  · have hq := digitOf_ne_zero _ (hmem a0 (by simp))
      (tile_ne_blank _ hn 3 0 (by simp) (by simp) (by decide) rfl)
    have hstep := mdCell_adjacent 1 0 0 0 (digitOf a0) hq (by decide)
    rw [manhattanDistance_nine _ _ _ _ _ _ _ _ _ hmem,
      manhattanDistance_nine _ _ _ _ _ _ _ _ _ (fun c hc => List.Perm.subset ht hc)]
    simp only [hz]
    omega
  · have hq := digitOf_ne_zero _ (hmem a4 (by simp))
      (tile_ne_blank _ hn 3 4 (by simp) (by simp) (by decide) rfl)
    have hstep := mdCell_adjacent 1 0 1 1 (digitOf a4) hq (by decide)
    rw [manhattanDistance_nine _ _ _ _ _ _ _ _ _ hmem,
      manhattanDistance_nine _ _ _ _ _ _ _ _ _ (fun c hc => List.Perm.subset ht hc)]
    simp only [hz]
    omega
  · have hq := digitOf_ne_zero _ (hmem a6 (by simp))
      (tile_ne_blank _ hn 3 6 (by simp) (by simp) (by decide) rfl)
    have hstep := mdCell_adjacent 1 0 2 0 (digitOf a6) hq (by decide)
    rw [manhattanDistance_nine _ _ _ _ _ _ _ _ _ hmem,
      manhattanDistance_nine _ _ _ _ _ _ _ _ _ (fun c hc => List.Perm.subset ht hc)]
    simp only [hz]
    omega
  · have hq := digitOf_ne_zero _ (hmem a1 (by simp))
      (tile_ne_blank _ hn 4 1 (by simp) (by simp) (by decide) rfl)
    have hstep := mdCell_adjacent 1 1 0 1 (digitOf a1) hq (by decide)
    rw [manhattanDistance_nine _ _ _ _ _ _ _ _ _ hmem,
      manhattanDistance_nine _ _ _ _ _ _ _ _ _ (fun c hc => List.Perm.subset ht hc)]
    simp only [hz]
    omega
  · have hq := digitOf_ne_zero _ (hmem a3 (by simp))
      (tile_ne_blank _ hn 4 3 (by simp) (by simp) (by decide) rfl)
    have hstep := mdCell_adjacent 1 1 1 0 (digitOf a3) hq (by decide)
    rw [manhattanDistance_nine _ _ _ _ _ _ _ _ _ hmem,
      manhattanDistance_nine _ _ _ _ _ _ _ _ _ (fun c hc => List.Perm.subset ht hc)]
    simp only [hz]
    omega
  · have hq := digitOf_ne_zero _ (hmem a5 (by simp))
      (tile_ne_blank _ hn 4 5 (by simp) (by simp) (by decide) rfl)
    have hstep := mdCell_adjacent 1 1 1 2 (digitOf a5) hq (by decide)
    rw [manhattanDistance_nine _ _ _ _ _ _ _ _ _ hmem,
      manhattanDistance_nine _ _ _ _ _ _ _ _ _ (fun c hc => List.Perm.subset ht hc)]
    simp only [hz]
    omega
  · have hq := digitOf_ne_zero _ (hmem a7 (by simp))
      (tile_ne_blank _ hn 4 7 (by simp) (by simp) (by decide) rfl)
    have hstep := mdCell_adjacent 1 1 2 1 (digitOf a7) hq (by decide)
    rw [manhattanDistance_nine _ _ _ _ _ _ _ _ _ hmem,
      manhattanDistance_nine _ _ _ _ _ _ _ _ _ (fun c hc => List.Perm.subset ht hc)]
    simp only [hz]
    omega
  · have hq := digitOf_ne_zero _ (hmem a2 (by simp))
      (tile_ne_blank _ hn 5 2 (by simp) (by simp) (by decide) rfl)
    have hstep := mdCell_adjacent 1 2 0 2 (digitOf a2) hq (by decide)
    rw [manhattanDistance_nine _ _ _ _ _ _ _ _ _ hmem,
      manhattanDistance_nine _ _ _ _ _ _ _ _ _ (fun c hc => List.Perm.subset ht hc)]
    simp only [hz]
    omega
  · have hq := digitOf_ne_zero _ (hmem a4 (by simp))
      (tile_ne_blank _ hn 5 4 (by simp) (by simp) (by decide) rfl)
    have hstep := mdCell_adjacent 1 2 1 1 (digitOf a4) hq (by decide)
    rw [manhattanDistance_nine _ _ _ _ _ _ _ _ _ hmem,
      manhattanDistance_nine _ _ _ _ _ _ _ _ _ (fun c hc => List.Perm.subset ht hc)]
    simp only [hz]
    omega
  · have hq := digitOf_ne_zero _ (hmem a8 (by simp))
      (tile_ne_blank _ hn 5 8 (by simp) (by simp) (by decide) rfl)
    have hstep := mdCell_adjacent 1 2 2 2 (digitOf a8) hq (by decide)
    rw [manhattanDistance_nine _ _ _ _ _ _ _ _ _ hmem,
      manhattanDistance_nine _ _ _ _ _ _ _ _ _ (fun c hc => List.Perm.subset ht hc)]
    simp only [hz]
    omega
  · have hq := digitOf_ne_zero _ (hmem a3 (by simp))
      (tile_ne_blank _ hn 6 3 (by simp) (by simp) (by decide) rfl)
    have hstep := mdCell_adjacent 2 0 1 0 (digitOf a3) hq (by decide)
    rw [manhattanDistance_nine _ _ _ _ _ _ _ _ _ hmem,
      manhattanDistance_nine _ _ _ _ _ _ _ _ _ (fun c hc => List.Perm.subset ht hc)]
    simp only [hz]
    omega
  · have hq := digitOf_ne_zero _ (hmem a7 (by simp))
      (tile_ne_blank _ hn 6 7 (by simp) (by simp) (by decide) rfl)
    have hstep := mdCell_adjacent 2 0 2 1 (digitOf a7) hq (by decide)
    rw [manhattanDistance_nine _ _ _ _ _ _ _ _ _ hmem,
      manhattanDistance_nine _ _ _ _ _ _ _ _ _ (fun c hc => List.Perm.subset ht hc)]
    simp only [hz]
    omega
  · have hq := digitOf_ne_zero _ (hmem a4 (by simp))
      (tile_ne_blank _ hn 7 4 (by simp) (by simp) (by decide) rfl)
    have hstep := mdCell_adjacent 2 1 1 1 (digitOf a4) hq (by decide)
    rw [manhattanDistance_nine _ _ _ _ _ _ _ _ _ hmem,
      manhattanDistance_nine _ _ _ _ _ _ _ _ _ (fun c hc => List.Perm.subset ht hc)]
    simp only [hz]
    omega
  · have hq := digitOf_ne_zero _ (hmem a6 (by simp))
      (tile_ne_blank _ hn 7 6 (by simp) (by simp) (by decide) rfl)
    have hstep := mdCell_adjacent 2 1 2 0 (digitOf a6) hq (by decide)
    rw [manhattanDistance_nine _ _ _ _ _ _ _ _ _ hmem,
      manhattanDistance_nine _ _ _ _ _ _ _ _ _ (fun c hc => List.Perm.subset ht hc)]
    simp only [hz]
    omega
  · have hq := digitOf_ne_zero _ (hmem a8 (by simp))
      (tile_ne_blank _ hn 7 8 (by simp) (by simp) (by decide) rfl)
    have hstep := mdCell_adjacent 2 1 2 2 (digitOf a8) hq (by decide)
    rw [manhattanDistance_nine _ _ _ _ _ _ _ _ _ hmem,
      manhattanDistance_nine _ _ _ _ _ _ _ _ _ (fun c hc => List.Perm.subset ht hc)]
    simp only [hz]
    omega
  · have hq := digitOf_ne_zero _ (hmem a5 (by simp))
      (tile_ne_blank _ hn 8 5 (by simp) (by simp) (by decide) rfl)
    have hstep := mdCell_adjacent 2 2 1 2 (digitOf a5) hq (by decide)
    rw [manhattanDistance_nine _ _ _ _ _ _ _ _ _ hmem,
      manhattanDistance_nine _ _ _ _ _ _ _ _ _ (fun c hc => List.Perm.subset ht hc)]
    simp only [hz]
    omega
  · have hq := digitOf_ne_zero _ (hmem a7 (by simp))
      (tile_ne_blank _ hn 8 7 (by simp) (by simp) (by decide) rfl)
    have hstep := mdCell_adjacent 2 2 2 1 (digitOf a7) hq (by decide)
    rw [manhattanDistance_nine _ _ _ _ _ _ _ _ _ hmem,
      manhattanDistance_nine _ _ _ _ _ _ _ _ _ (fun c hc => List.Perm.subset ht hc)]
    simp only [hz]
    omega

theorem manhattanDistance_moves {n : Nat} {s t : List Char} (hm : Moves n s t)
    (h : ValidState s) : manhattanDistance s ≤ manhattanDistance t + n := by
  induction hm with
  | zero s => omega
  | step hl _ ih =>
    have h1 := manhattanDistance_step _ _ h hl
    have h2 := ih (valid_of_legalMove _ _ h hl)
    omega

/-- C9: `manhattanDistance` is admissible: if some sequence of `n` legal moves transforms
the valid state `s` into `"12345678E"` then `manhattanDistance s ≤ n`. -/
theorem manhattanDistance_admissible (s : List Char) (n : Nat) (h : ValidState s)
    (hm : Moves n s GOALSTATE) : manhattanDistance s ≤ n := by
  have h1 := manhattanDistance_moves hm h
  have h2 : manhattanDistance GOALSTATE = 0 := by decide
  omega


/-- One legal move leads from `"1234567E8"` to the goal. -/
theorem moves_one_example :
    Moves 1 ['1', '2', '3', '4', '5', '6', '7', 'E', '8'] GOALSTATE :=
  Moves.step ⟨7, 8, by decide, by decide, by decide, by decide, by decide⟩ (Moves.zero _)

theorem misplacedTiles_admissible_witness :
    ValidState ['1', '2', '3', '4', '5', '6', '7', 'E', '8'] ∧
    Moves 1 ['1', '2', '3', '4', '5', '6', '7', 'E', '8'] GOALSTATE ∧
    misplacedTiles ['1', '2', '3', '4', '5', '6', '7', 'E', '8'] ≤ 1 :=
  ⟨by decide, moves_one_example,
    misplacedTiles_admissible _ 1 (by decide) moves_one_example⟩

theorem manhattanDistance_admissible_witness :
    ValidState ['1', '2', '3', '4', '5', '6', '7', 'E', '8'] ∧
    Moves 1 ['1', '2', '3', '4', '5', '6', '7', 'E', '8'] GOALSTATE ∧
    manhattanDistance ['1', '2', '3', '4', '5', '6', '7', 'E', '8'] ≤ 1 :=
  ⟨by decide, moves_one_example,
    manhattanDistance_admissible _ 1 (by decide) moves_one_example⟩

/-! ## The inversion parity is invariant under legal moves -/

theorem invPair_swap (a b : Nat) (ha : a ≠ 0) (hb : b ≠ 0) (hab : a ≠ b) :
    invPair a b + invPair b a = 1 := by
  unfold invPair
  split <;> split <;> omega

theorem digitOf_inj : ∀ c ∈ GOALSTATE, ∀ d ∈ GOALSTATE, digitOf c = digitOf d → c = d := by
  decide

theorem cells_ne (s : List Char) (hn : s.Nodup) (i j : Nat) (hi : i < s.length)
    (hj : j < s.length) (hij : i ≠ j) : charAt s i ≠ charAt s j :=
  fun h => hij (charAt_inj s hn i j hi hj h)

/-- The tiles in two different cells of a valid state, both away from the blank, have
different non-zero digits, so exactly one of the two orders is an inversion. -/
theorem invPair_cells (s : List Char) (hmem : ∀ c ∈ s, c ∈ GOALSTATE) (hn : s.Nodup)
    (p i j : Nat) (hp : p < s.length) (hi : i < s.length) (hj : j < s.length)
    (hE : charAt s p = 'E') (hpi : p ≠ i) (hpj : p ≠ j) (hij : i ≠ j) :
    invPair (digitOf (charAt s i)) (digitOf (charAt s j))
      + invPair (digitOf (charAt s j)) (digitOf (charAt s i)) = 1 := by
  have mi : charAt s i ∈ GOALSTATE := hmem _ (by
    unfold charAt; rw [List.getD_eq_getElem _ _ hi]; exact List.getElem_mem _)
  have mj : charAt s j ∈ GOALSTATE := hmem _ (by
    unfold charAt; rw [List.getD_eq_getElem _ _ hj]; exact List.getElem_mem _)
  exact invPair_swap _ _
    (digitOf_ne_zero _ mi (tile_ne_blank s hn p i hp hi hpi hE))
    (digitOf_ne_zero _ mj (tile_ne_blank s hn p j hp hj hpj hE))
    (fun h => cells_ne s hn i j hi hj hij (digitOf_inj _ mi _ mj h))

theorem stateSolvable_iff (a0 a1 a2 a3 a4 a5 a6 a7 a8 : Char)
    (h : ∀ c ∈ [a0, a1, a2, a3, a4, a5, a6, a7, a8], c ∈ GOALSTATE) :
    stateSolvable [a0, a1, a2, a3, a4, a5, a6, a7, a8] = true ↔
      (0 + invPair (digitOf a0) (digitOf a1) + invPair (digitOf a0) (digitOf a2)
        + invPair (digitOf a0) (digitOf a3) + invPair (digitOf a0) (digitOf a4)
        + invPair (digitOf a0) (digitOf a5) + invPair (digitOf a0) (digitOf a6)
        + invPair (digitOf a0) (digitOf a7) + invPair (digitOf a0) (digitOf a8)
        + invPair (digitOf a1) (digitOf a2) + invPair (digitOf a1) (digitOf a3)
        + invPair (digitOf a1) (digitOf a4) + invPair (digitOf a1) (digitOf a5)
        + invPair (digitOf a1) (digitOf a6) + invPair (digitOf a1) (digitOf a7)
        + invPair (digitOf a1) (digitOf a8)
        + invPair (digitOf a2) (digitOf a3) + invPair (digitOf a2) (digitOf a4)
        + invPair (digitOf a2) (digitOf a5) + invPair (digitOf a2) (digitOf a6)
        + invPair (digitOf a2) (digitOf a7) + invPair (digitOf a2) (digitOf a8)
        + invPair (digitOf a3) (digitOf a4) + invPair (digitOf a3) (digitOf a5)
        + invPair (digitOf a3) (digitOf a6) + invPair (digitOf a3) (digitOf a7)
        + invPair (digitOf a3) (digitOf a8)
        + invPair (digitOf a4) (digitOf a5) + invPair (digitOf a4) (digitOf a6)
        + invPair (digitOf a4) (digitOf a7) + invPair (digitOf a4) (digitOf a8)
        + invPair (digitOf a5) (digitOf a6) + invPair (digitOf a5) (digitOf a7)
        + invPair (digitOf a5) (digitOf a8)
        + invPair (digitOf a6) (digitOf a7) + invPair (digitOf a6) (digitOf a8)
        + invPair (digitOf a7) (digitOf a8)) % 2 = 0 := by
  rw [stateSolvable_nine _ _ _ _ _ _ _ _ _ h, getInvCount_nine, decide_eq_true_eq]

set_option maxHeartbeats 1000000 in
/-- A legal move from a valid state keeps the parity of the inversion count that
`isSolvable` computes. -/
theorem stateSolvable_step (s t : List Char) (h : ValidState s) (hm : legalMove s t) :
    stateSolvable t = stateSolvable s := by
  have ht := valid_of_legalMove s t h hm
  obtain ⟨a0, a1, a2, a3, a4, a5, a6, a7, a8, rfl, hmem, hn, -⟩ := valid_shape s h
  have hz1 : ∀ x, invPair (digitOf 'E') x = 0 := fun x => by
    unfold invPair; simp [digitOf]
  have hz2 : ∀ x, invPair x (digitOf 'E') = 0 := fun x => by
    unfold invPair; simp [digitOf]
  rcases legalMove_cases _ _ _ _ _ _ _ _ _ t hm with
    ⟨e01, t01⟩ | ⟨e03, t03⟩ | ⟨e10, t10⟩ | ⟨e12, t12⟩ |
    ⟨e14, t14⟩ | ⟨e21, t21⟩ | ⟨e25, t25⟩ | ⟨e30, t30⟩ |
    ⟨e34, t34⟩ | ⟨e36, t36⟩ | ⟨e41, t41⟩ | ⟨e43, t43⟩ |
    ⟨e45, t45⟩ | ⟨e47, t47⟩ | ⟨e52, t52⟩ | ⟨e54, t54⟩ |
    ⟨e58, t58⟩ | ⟨e63, t63⟩ | ⟨e67, t67⟩ | ⟨e74, t74⟩ |
    ⟨e76, t76⟩ | ⟨e78, t78⟩ | ⟨e85, t85⟩ | ⟨e87, t87⟩
  all_goals subst_vars
  · rw [Bool.eq_iff_iff, stateSolvable_iff _ _ _ _ _ _ _ _ _ hmem,
      stateSolvable_iff _ _ _ _ _ _ _ _ _ (fun c hc => List.Perm.subset ht hc)]
    simp only [hz1, hz2, Nat.add_zero]
  · rw [Bool.eq_iff_iff, stateSolvable_iff _ _ _ _ _ _ _ _ _ hmem,
      stateSolvable_iff _ _ _ _ _ _ _ _ _ (fun c hc => List.Perm.subset ht hc)]
    have c1 := invPair_cells _ hmem hn 0 3 1 (by simp) (by simp) (by simp) rfl
      (by decide) (by decide) (by decide)
    have c2 := invPair_cells _ hmem hn 0 3 2 (by simp) (by simp) (by simp) rfl
      (by decide) (by decide) (by decide)
    simp only [charAt, List.getD_cons_zero, List.getD_cons_succ] at c1 c2
    simp only [hz1, hz2, Nat.add_zero]
    omega
  · rw [Bool.eq_iff_iff, stateSolvable_iff _ _ _ _ _ _ _ _ _ hmem,
      stateSolvable_iff _ _ _ _ _ _ _ _ _ (fun c hc => List.Perm.subset ht hc)]
    simp only [hz1, hz2, Nat.add_zero]
  · rw [Bool.eq_iff_iff, stateSolvable_iff _ _ _ _ _ _ _ _ _ hmem,
      stateSolvable_iff _ _ _ _ _ _ _ _ _ (fun c hc => List.Perm.subset ht hc)]
    simp only [hz1, hz2, Nat.add_zero]
  · rw [Bool.eq_iff_iff, stateSolvable_iff _ _ _ _ _ _ _ _ _ hmem,
      stateSolvable_iff _ _ _ _ _ _ _ _ _ (fun c hc => List.Perm.subset ht hc)]
    have c2 := invPair_cells _ hmem hn 1 4 2 (by simp) (by simp) (by simp) rfl
      (by decide) (by decide) (by decide)
    have c3 := invPair_cells _ hmem hn 1 4 3 (by simp) (by simp) (by simp) rfl
      (by decide) (by decide) (by decide)
    simp only [charAt, List.getD_cons_zero, List.getD_cons_succ] at c2 c3
    simp only [hz1, hz2, Nat.add_zero]
    omega
  · rw [Bool.eq_iff_iff, stateSolvable_iff _ _ _ _ _ _ _ _ _ hmem,
      stateSolvable_iff _ _ _ _ _ _ _ _ _ (fun c hc => List.Perm.subset ht hc)]
    simp only [hz1, hz2, Nat.add_zero]
  · rw [Bool.eq_iff_iff, stateSolvable_iff _ _ _ _ _ _ _ _ _ hmem,
      stateSolvable_iff _ _ _ _ _ _ _ _ _ (fun c hc => List.Perm.subset ht hc)]
    have c3 := invPair_cells _ hmem hn 2 5 3 (by simp) (by simp) (by simp) rfl
      (by decide) (by decide) (by decide)
    have c4 := invPair_cells _ hmem hn 2 5 4 (by simp) (by simp) (by simp) rfl
      (by decide) (by decide) (by decide)
    simp only [charAt, List.getD_cons_zero, List.getD_cons_succ] at c3 c4
    simp only [hz1, hz2, Nat.add_zero]
    omega
  · rw [Bool.eq_iff_iff, stateSolvable_iff _ _ _ _ _ _ _ _ _ hmem,
      stateSolvable_iff _ _ _ _ _ _ _ _ _ (fun c hc => List.Perm.subset ht hc)]
    have c1 := invPair_cells _ hmem hn 3 0 1 (by simp) (by simp) (by simp) rfl
      (by decide) (by decide) (by decide)
    have c2 := invPair_cells _ hmem hn 3 0 2 (by simp) (by simp) (by simp) rfl
      (by decide) (by decide) (by decide)
    simp only [charAt, List.getD_cons_zero, List.getD_cons_succ] at c1 c2
    simp only [hz1, hz2, Nat.add_zero]
    omega
  · rw [Bool.eq_iff_iff, stateSolvable_iff _ _ _ _ _ _ _ _ _ hmem,
      stateSolvable_iff _ _ _ _ _ _ _ _ _ (fun c hc => List.Perm.subset ht hc)]
    simp only [hz1, hz2, Nat.add_zero]
  · rw [Bool.eq_iff_iff, stateSolvable_iff _ _ _ _ _ _ _ _ _ hmem,
      stateSolvable_iff _ _ _ _ _ _ _ _ _ (fun c hc => List.Perm.subset ht hc)]
    have c4 := invPair_cells _ hmem hn 3 6 4 (by simp) (by simp) (by simp) rfl
      (by decide) (by decide) (by decide)
    have c5 := invPair_cells _ hmem hn 3 6 5 (by simp) (by simp) (by simp) rfl
      (by decide) (by decide) (by decide)
    simp only [charAt, List.getD_cons_zero, List.getD_cons_succ] at c4 c5
    simp only [hz1, hz2, Nat.add_zero]
    omega
  · rw [Bool.eq_iff_iff, stateSolvable_iff _ _ _ _ _ _ _ _ _ hmem,
      stateSolvable_iff _ _ _ _ _ _ _ _ _ (fun c hc => List.Perm.subset ht hc)]
    have c2 := invPair_cells _ hmem hn 4 1 2 (by simp) (by simp) (by simp) rfl
      (by decide) (by decide) (by decide)
    have c3 := invPair_cells _ hmem hn 4 1 3 (by simp) (by simp) (by simp) rfl
      (by decide) (by decide) (by decide)
    simp only [charAt, List.getD_cons_zero, List.getD_cons_succ] at c2 c3
    simp only [hz1, hz2, Nat.add_zero]
    omega
  · rw [Bool.eq_iff_iff, stateSolvable_iff _ _ _ _ _ _ _ _ _ hmem,
      stateSolvable_iff _ _ _ _ _ _ _ _ _ (fun c hc => List.Perm.subset ht hc)]
    simp only [hz1, hz2, Nat.add_zero]
  · rw [Bool.eq_iff_iff, stateSolvable_iff _ _ _ _ _ _ _ _ _ hmem,
      stateSolvable_iff _ _ _ _ _ _ _ _ _ (fun c hc => List.Perm.subset ht hc)]
    simp only [hz1, hz2, Nat.add_zero]
  · rw [Bool.eq_iff_iff, stateSolvable_iff _ _ _ _ _ _ _ _ _ hmem,
      stateSolvable_iff _ _ _ _ _ _ _ _ _ (fun c hc => List.Perm.subset ht hc)]
    have c5 := invPair_cells _ hmem hn 4 7 5 (by simp) (by simp) (by simp) rfl
      (by decide) (by decide) (by decide)
    have c6 := invPair_cells _ hmem hn 4 7 6 (by simp) (by simp) (by simp) rfl
      (by decide) (by decide) (by decide)
    simp only [charAt, List.getD_cons_zero, List.getD_cons_succ] at c5 c6
    simp only [hz1, hz2, Nat.add_zero]
    omega
  · rw [Bool.eq_iff_iff, stateSolvable_iff _ _ _ _ _ _ _ _ _ hmem,
      stateSolvable_iff _ _ _ _ _ _ _ _ _ (fun c hc => List.Perm.subset ht hc)]
    have c3 := invPair_cells _ hmem hn 5 2 3 (by simp) (by simp) (by simp) rfl
      (by decide) (by decide) (by decide)
    have c4 := invPair_cells _ hmem hn 5 2 4 (by simp) (by simp) (by simp) rfl
      (by decide) (by decide) (by decide)
    simp only [charAt, List.getD_cons_zero, List.getD_cons_succ] at c3 c4
    simp only [hz1, hz2, Nat.add_zero]
    omega
  · rw [Bool.eq_iff_iff, stateSolvable_iff _ _ _ _ _ _ _ _ _ hmem,
      stateSolvable_iff _ _ _ _ _ _ _ _ _ (fun c hc => List.Perm.subset ht hc)]
    simp only [hz1, hz2, Nat.add_zero]
  · rw [Bool.eq_iff_iff, stateSolvable_iff _ _ _ _ _ _ _ _ _ hmem,
      stateSolvable_iff _ _ _ _ _ _ _ _ _ (fun c hc => List.Perm.subset ht hc)]
    have c6 := invPair_cells _ hmem hn 5 8 6 (by simp) (by simp) (by simp) rfl
      (by decide) (by decide) (by decide)
    have c7 := invPair_cells _ hmem hn 5 8 7 (by simp) (by simp) (by simp) rfl
      (by decide) (by decide) (by decide)
    simp only [charAt, List.getD_cons_zero, List.getD_cons_succ] at c6 c7
    simp only [hz1, hz2, Nat.add_zero]
    omega
  · rw [Bool.eq_iff_iff, stateSolvable_iff _ _ _ _ _ _ _ _ _ hmem,
      stateSolvable_iff _ _ _ _ _ _ _ _ _ (fun c hc => List.Perm.subset ht hc)]
    have c4 := invPair_cells _ hmem hn 6 3 4 (by simp) (by simp) (by simp) rfl
      (by decide) (by decide) (by decide)
    have c5 := invPair_cells _ hmem hn 6 3 5 (by simp) (by simp) (by simp) rfl
      (by decide) (by decide) (by decide)
    simp only [charAt, List.getD_cons_zero, List.getD_cons_succ] at c4 c5
    simp only [hz1, hz2, Nat.add_zero]
    omega
  · rw [Bool.eq_iff_iff, stateSolvable_iff _ _ _ _ _ _ _ _ _ hmem,
      stateSolvable_iff _ _ _ _ _ _ _ _ _ (fun c hc => List.Perm.subset ht hc)]
    simp only [hz1, hz2, Nat.add_zero]
  · rw [Bool.eq_iff_iff, stateSolvable_iff _ _ _ _ _ _ _ _ _ hmem,
      stateSolvable_iff _ _ _ _ _ _ _ _ _ (fun c hc => List.Perm.subset ht hc)]
    have c5 := invPair_cells _ hmem hn 7 4 5 (by simp) (by simp) (by simp) rfl
      (by decide) (by decide) (by decide)
    have c6 := invPair_cells _ hmem hn 7 4 6 (by simp) (by simp) (by simp) rfl
      (by decide) (by decide) (by decide)
    simp only [charAt, List.getD_cons_zero, List.getD_cons_succ] at c5 c6
    simp only [hz1, hz2, Nat.add_zero]
    omega
  · rw [Bool.eq_iff_iff, stateSolvable_iff _ _ _ _ _ _ _ _ _ hmem,
      stateSolvable_iff _ _ _ _ _ _ _ _ _ (fun c hc => List.Perm.subset ht hc)]
    simp only [hz1, hz2, Nat.add_zero]
  · rw [Bool.eq_iff_iff, stateSolvable_iff _ _ _ _ _ _ _ _ _ hmem,
      stateSolvable_iff _ _ _ _ _ _ _ _ _ (fun c hc => List.Perm.subset ht hc)]
    simp only [hz1, hz2, Nat.add_zero]
  · rw [Bool.eq_iff_iff, stateSolvable_iff _ _ _ _ _ _ _ _ _ hmem,
      stateSolvable_iff _ _ _ _ _ _ _ _ _ (fun c hc => List.Perm.subset ht hc)]
    have c6 := invPair_cells _ hmem hn 8 5 6 (by simp) (by simp) (by simp) rfl
      (by decide) (by decide) (by decide)
    have c7 := invPair_cells _ hmem hn 8 5 7 (by simp) (by simp) (by simp) rfl
      (by decide) (by decide) (by decide)
    simp only [charAt, List.getD_cons_zero, List.getD_cons_succ] at c6 c7
    simp only [hz1, hz2, Nat.add_zero]
    omega
  · rw [Bool.eq_iff_iff, stateSolvable_iff _ _ _ _ _ _ _ _ _ hmem,
      stateSolvable_iff _ _ _ _ _ _ _ _ _ (fun c hc => List.Perm.subset ht hc)]
    simp only [hz1, hz2, Nat.add_zero]

theorem stateSolvable_moves {n : Nat} {s t : List Char} (hm : Moves n s t)
    (h : ValidState s) : stateSolvable t = stateSolvable s := by
  induction hm with
  | zero s => rfl
  | step hl _ ih =>
    rw [ih (valid_of_legalMove _ _ h hl), stateSolvable_step _ _ h hl]

/-! ## Sequences of moves -/

theorem moves_snoc {n : Nat} {s w u : List Char} (hm : Moves n s w) (hl : legalMove w u) :
    Moves (n + 1) s u := by
  induction hm with
  | zero s => exact Moves.step hl (Moves.zero _)
  | step h _ ih => exact Moves.step h (ih hl)

theorem moves_last {n : Nat} {s u : List Char} (hm : Moves (n + 1) s u) :
    ∃ w, Moves n s w ∧ legalMove w u := by
  induction n generalizing s with
  | zero =>
    cases hm with
    | step hl hrest =>
      cases hrest
      exact ⟨s, Moves.zero _, hl⟩
  | succ n ih =>
    cases hm with
    | step hl hrest =>
      obtain ⟨w, hw, hlast⟩ := ih hrest
      exact ⟨w, Moves.step hl hw, hlast⟩

theorem moves_zero_eq {s u : List Char} (hm : Moves 0 s u) : u = s := by
  cases hm; rfl

theorem reach_step {s w u : List Char} (hr : Reach s w) (hl : legalMove w u) : Reach s u := by
  obtain ⟨n, hn⟩ := hr
  exact ⟨n + 1, moves_snoc hn hl⟩

theorem valid_of_reach {s t : List Char} (hr : Reach s t) (h : ValidState s) :
    ValidState t := by
  obtain ⟨n, hn⟩ := hr
  exact valid_of_moves hn h

/-! ## The containers -/

theorem frontier_setFrontier (ds : Nat) (hds : ds = 1 ∨ ds = 2 ∨ ds = 3 ∨ ds = 4)
    (l : List Node) (g : Globals) : frontier ds (setFrontier ds l g) = l := by
  rcases hds with rfl | rfl | rfl | rfl <;> rfl

theorem keys_setFrontier (ds : Nat) (l : List Node) (g : Globals) :
    keys (setFrontier ds l g) = keys g := by
  unfold setFrontier; split <;> rfl

theorem dataStructure_setFrontier (ds : Nat) (l : List Node) (g : Globals) :
    (setFrontier ds l g).dataStructure = g.dataStructure := by
  unfold setFrontier; split <;> rfl

theorem curr_setFrontier (ds : Nat) (l : List Node) (g : Globals) :
    (setFrontier ds l g).curr = g.curr := by
  unfold setFrontier; split <;> rfl

theorem mem_pushList (ds : Nat) (n m : Node) (l : List Node) :
    m ∈ pushList ds n l ↔ m = n ∨ m ∈ l := by
  rw [List.Perm.mem_iff (pushList_perm ds n l), List.mem_cons]

theorem newNode_state (ds : Nat) (g : Globals) (t : List Char) (lbl : String) :
    (newNode ds g t lbl).state = t := by
  unfold newNode; split <;> rfl

theorem newNode_depth (ds : Nat) (g : Globals) (t : List Char) (lbl : String) :
    (newNode ds g t lbl).depth = g.curr.depth + 1 := by
  unfold newNode; split <;> rfl

/-! ## The invariant of the search -/

/-- The legal moves from a valid state are the candidates of its expansion. -/
theorem legalMove_iff_candidates (s : List Char) (p : Nat) (h : ValidState s)
    (hp : findEmpty s = some p) (t : List Char) : legalMove s t ↔ t ∈ candidates p s := by
  obtain ⟨k, hk, hkE, huniq, hfind⟩ := blank_position s h
  have hlen : s.length = 9 := by rw [List.Perm.length_eq h]; rfl
  rw [hfind] at hp
  cases hp
  rw [candidates_eq_map s hlen k hk, List.mem_map]
  constructor
  · rintro ⟨p', q, hp', hq, hadj, hE, rfl⟩
    have : p' = k := huniq p' hp' hE
    subst this
    exact ⟨q, (List.Perm.mem_iff (moveOrder_perm p' hk)).mpr
      ((mem_neighbours _ _).mpr ⟨hq, hadj⟩), rfl⟩
  · rintro ⟨q, hq, rfl⟩
    have := (mem_neighbours _ _).mp ((List.Perm.mem_iff (moveOrder_perm k hk)).mp hq)
    exact ⟨k, q, hk, this.1, this.2, hkE, rfl⟩

/-- One check keeps the invariant and takes its candidate off the pending list; the map
and the container grow by the same number of entries. -/
theorem inv_tryMove {ds : Nat} {s0 ws t : List Char} {pending : List (List Char)}
    {g : Globals} (hds : ds = 1 ∨ ds = 2 ∨ ds = 3 ∨ ds = 4)
    (inv : Inv ds s0 ws (t :: pending) g) (hws : Reach s0 ws) (hl : legalMove ws t)
    (sw : Puzzle → Puzzle × List Char) (lbl : String)
    (ht : (sw (populatePuzzle ws)).2 = t) :
    Inv ds s0 ws pending (tryMove sw lbl ws g) ∧
    (tryMove sw lbl ws g).curr = g.curr ∧
    (∀ v, v ∈ keys g → v ∈ keys (tryMove sw lbl ws g)) ∧
    ∃ k, (keys (tryMove sw lbl ws g)).length = (keys g).length + k ∧
      (frontier ds (tryMove sw lbl ws g)).length = (frontier ds g).length + k := by
  by_cases hk : t ∈ keys g
  · rw [tryMove_old sw lbl ws g (ht ▸ hk)]
    refine ⟨⟨inv.ds_ok, inv.start_mem, inv.keys_nodup, inv.keys_reach, inv.front_mem, ?_⟩,
      rfl, fun v hv => hv, 0, rfl, rfl⟩
    intro v hv
    rcases inv.closed v hv with h | ⟨hne, h⟩
    · exact Or.inl h
    · refine Or.inr ⟨hne, fun u hu => ?_⟩
      rcases h u hu with h1 | ⟨h1, h2⟩
      · exact Or.inl h1
      · rcases List.mem_cons.mp h2 with h3 | h3
        · exact Or.inl (h3 ▸ hk)
        · exact Or.inr ⟨h1, h3⟩
  · obtain ⟨hf, -, -, hc, hd⟩ := tryMove_new ds hds sw lbl ws g inv.ds_ok (ht ▸ hk)
    have hkeys := keys_tryMove ds hds sw lbl ws g inv.ds_ok
    rw [ht] at hkeys hf
    rw [if_neg hk] at hkeys
    refine ⟨⟨hd, ?_, ?_, ?_, ?_, ?_⟩, hc, ?_, 1, ?_, ?_⟩
    · rw [hkeys]; exact List.mem_append_left _ inv.start_mem
    · rw [hkeys]
      exact List.Nodup.append inv.keys_nodup (List.nodup_singleton t)
        (by
          intro a ha hb
          rw [List.mem_singleton] at hb
          exact hk (hb ▸ ha))
    · intro v hv
      rw [hkeys, List.mem_append, List.mem_singleton] at hv
      rcases hv with hv | rfl
      · exact inv.keys_reach v hv
      · exact reach_step hws hl
    · intro n hn
      rw [hf, mem_pushList] at hn
      rw [hkeys]
      rcases hn with rfl | hn
      · rw [newNode_state]; exact List.mem_append_right _ (List.mem_singleton.mpr rfl)
      · exact List.mem_append_left _ (inv.front_mem n hn)
    · intro v hv
      rw [hkeys, List.mem_append, List.mem_singleton] at hv
      rcases hv with hv | rfl
      · rcases inv.closed v hv with ⟨n, hn, hnv⟩ | ⟨hne, h⟩
        · exact Or.inl ⟨n, by rw [hf, mem_pushList]; exact Or.inr hn, hnv⟩
        · refine Or.inr ⟨hne, fun u hu => ?_⟩
          rw [hkeys]
          rcases h u hu with h1 | ⟨h1, h2⟩
          · exact Or.inl (List.mem_append_left _ h1)
          · rcases List.mem_cons.mp h2 with h3 | h3
            · exact Or.inl (List.mem_append_right _ (List.mem_singleton.mpr h3))
            · exact Or.inr ⟨h1, h3⟩
      · exact Or.inl ⟨newNode ds g v lbl, by rw [hf, mem_pushList]; exact Or.inl rfl,
          newNode_state _ _ _ _⟩
    · intro v hv; rw [hkeys]; exact List.mem_append_left _ hv
    · rw [hkeys]; simp
    · rw [hf, List.Perm.length_eq (pushList_perm _ _ _)]; simp

theorem runChecks_cons (c : (Puzzle → Puzzle × List Char) × String)
    (cs : List ((Puzzle → Puzzle × List Char) × String)) (ws : List Char) (g : Globals) :
    runChecks (c :: cs) ws g = runChecks cs ws (tryMove c.1 c.2 ws g) := rfl

/-- The checks of a swap pattern keep the invariant and empty the pending list. -/
theorem inv_runChecks {ds : Nat} {s0 ws : List Char}
    (hds : ds = 1 ∨ ds = 2 ∨ ds = 3 ∨ ds = 4) (hws : Reach s0 ws)
    (cs : List ((Puzzle → Puzzle × List Char) × String)) :
    ∀ g : Globals, Inv ds s0 ws (cs.map (fun c => (c.1 (populatePuzzle ws)).2)) g →
      (∀ c ∈ cs, legalMove ws (c.1 (populatePuzzle ws)).2) →
      Inv ds s0 ws [] (runChecks cs ws g) ∧
      (runChecks cs ws g).curr = g.curr ∧
      (∀ v, v ∈ keys g → v ∈ keys (runChecks cs ws g)) ∧
      ∃ k, (keys (runChecks cs ws g)).length = (keys g).length + k ∧
        (frontier ds (runChecks cs ws g)).length
          = (frontier ds g).length + k := by
  induction cs with
  | nil => intro g inv _; exact ⟨inv, rfl, fun v hv => hv, 0, rfl, rfl⟩
  | cons c cs ih =>
    intro g inv hl
    obtain ⟨inv1, hc1, hm1, k1, hk1, hf1⟩ :=
      inv_tryMove hds inv hws (hl c (List.mem_cons_self _ _)) c.1 c.2 rfl
    obtain ⟨inv2, hc2, hm2, k2, hk2, hf2⟩ :=
      ih (tryMove c.1 c.2 ws g) inv1
        (fun c' hc' => hl c' (List.mem_cons_of_mem _ hc'))
    rw [runChecks_cons]
    exact ⟨inv2, hc2.trans hc1, fun v hv => hm2 v (hm1 v hv), k1 + k2,
      by rw [hk2, hk1]; omega, by rw [hf2, hf1]; omega⟩

theorem frontier_setCurr (ds : Nat) (g : Globals) (n : Node) :
    frontier ds { g with curr := n } = frontier ds g := by
  unfold frontier; split <;> rfl

/-- Removing the front (top) node, which is not a goal node, to expand it: its
successors are the pending candidates. -/
theorem inv_pop {ds : Nat} {s0 ws : List Char} {g : Globals}
    (hds : ds = 1 ∨ ds = 2 ∨ ds = 3 ∨ ds = 4) (hv : ValidState s0)
    (inv : Inv ds s0 ws [] g) (top : Node) (rest : List Node)
    (hf : frontier ds g = top :: rest) (hgoal : top.state ≠ GOALSTATE) :
    ∃ k, findEmpty top.state = some (k + 1) ∧ Reach s0 top.state ∧
      (∀ c ∈ tileChecks (k + 1), legalMove top.state (c.1 (populatePuzzle top.state)).2) ∧
      frontier ds (setFrontier ds rest { g with curr := top }) = rest ∧
      keys (setFrontier ds rest { g with curr := top }) = keys g ∧
      (setFrontier ds rest { g with curr := top }).curr = top ∧
      Inv ds s0 top.state (candidates (k + 1) top.state)
        (setFrontier ds rest { g with curr := top }) := by
  have htop : top ∈ frontier ds g := by rw [hf]; exact List.mem_cons_self _ _
  have hreach : Reach s0 top.state := inv.keys_reach _ (inv.front_mem top htop)
  have hvalid : ValidState top.state := valid_of_reach hreach hv
  obtain ⟨k, -, -, -, hfind⟩ := blank_position top.state hvalid
  have hfr : frontier ds (setFrontier ds rest { g with curr := top }) = rest :=
    frontier_setFrontier ds hds rest _
  have hkeys : keys (setFrontier ds rest { g with curr := top }) = keys g := by
    rw [keys_setFrontier]; rfl
  refine ⟨k, hfind, hreach, ?_, hfr, hkeys, curr_setFrontier _ _ _, ?_, ?_, ?_, ?_, ?_, ?_⟩
  · intro c hc
    exact (legalMove_iff_candidates _ _ hvalid hfind _).mpr (List.mem_map_of_mem _ hc)
  · rw [dataStructure_setFrontier]; exact inv.ds_ok
  · rw [hkeys]; exact inv.start_mem
  · rw [hkeys]; exact inv.keys_nodup
  · rw [hkeys]; exact inv.keys_reach
  · rw [hkeys, hfr]
    intro n hn
    exact inv.front_mem n (by rw [hf]; exact List.mem_cons_of_mem _ hn)
  · rw [hkeys, hfr]
    intro v hvk
    rcases inv.closed v hvk with ⟨n, hn, hnv⟩ | ⟨hne, h⟩
    · rw [hf] at hn
      rcases List.mem_cons.mp hn with rfl | hn
      · refine Or.inr ⟨hnv ▸ hgoal, fun u hu => Or.inr ⟨hnv.symm, ?_⟩⟩
        rw [← hnv] at hu
        exact (legalMove_iff_candidates _ _ hvalid hfind u).mp hu
      · exact Or.inl ⟨n, hn, hnv⟩
    · refine Or.inr ⟨hne, fun u hu => ?_⟩
      rcases h u hu with h1 | ⟨-, h2⟩
      · exact Or.inl h1
      · exact absurd h2 (List.not_mem_nil _)

/-- Expanding the front (top) node, which is not a goal node, keeps the invariant. -/
theorem inv_expand {ds : Nat} {s0 ws : List Char} {g : Globals}
    (hds : ds = 1 ∨ ds = 2 ∨ ds = 3 ∨ ds = 4) (hv : ValidState s0)
    (inv : Inv ds s0 ws [] g) (top : Node) (rest : List Node)
    (hf : frontier ds g = top :: rest) (hgoal : top.state ≠ GOALSTATE) :
    ∃ p, findEmpty top.state = some p ∧
      Inv ds s0 top.state []
        (searchPattern p top.state (setFrontier ds rest { g with curr := top })) ∧
      (searchPattern p top.state (setFrontier ds rest { g with curr := top })).curr = top ∧
      (∀ v, v ∈ keys g →
        v ∈ keys (searchPattern p top.state (setFrontier ds rest { g with curr := top }))) ∧
      ∃ k, (keys (searchPattern p top.state
              (setFrontier ds rest { g with curr := top }))).length = (keys g).length + k ∧
        (frontier ds (searchPattern p top.state
              (setFrontier ds rest { g with curr := top }))).length = rest.length + k := by
  obtain ⟨k, hfind, hreach, hlegal, hfr, hkeys, hcurr, inv0⟩ :=
    inv_pop hds hv inv top rest hf hgoal
  obtain ⟨inv1, hc1, hm1, k1, hk1, hf1⟩ :=
    inv_runChecks hds hreach (tileChecks (k + 1)) _ inv0 hlegal
  refine ⟨k + 1, hfind, ?_⟩
  rw [searchPattern_eq]
  refine ⟨inv1, ?_, ?_, k1, ?_, ?_⟩
  · rw [hc1, hcurr]
  · intro v hvk; exact hm1 v (by rw [hkeys]; exact hvk)
  · rw [hk1, hkeys]
  · rw [hf1, hfr]

theorem length_permutations_goal : GOALSTATE.permutations.length = 362880 := by
  rw [List.length_permutations]; rfl

/-- The map never holds more than `9!` keys. -/
theorem inv_keys_length_le {ds : Nat} {s0 ws : List Char} {pending : List (List Char)}
    {g : Globals} (inv : Inv ds s0 ws pending g) (hv : ValidState s0) :
    (keys g).length ≤ 362880 := by
  have hsub : keys g ⊆ GOALSTATE.permutations := by
    intro v hvk
    rw [List.mem_permutations]
    exact valid_of_reach (inv.keys_reach v hvk) hv
  have := List.Subperm.length_le (List.subperm_of_subset inv.keys_nodup hsub)
  rw [length_permutations_goal] at this
  exact this

/-- The induction principle of the search loop: a predicate `P` that every expansion
keeps, while the measure decreases, holds when the loop ends, and with enough fuel the
loop ends, either on a goal node at the front of the container or with the container
empty. -/
theorem searchLoop_induct (ds : Nat) (P : Globals → Prop)
    (hstep : ∀ g top rest, P g → frontier ds g = top :: rest → top.state ≠ GOALSTATE →
      ∃ p, findEmpty top.state = some p ∧
        P (searchPattern p top.state (setFrontier ds rest { g with curr := top })) ∧
        measure ds (searchPattern p top.state (setFrontier ds rest { g with curr := top }))
          < measure ds g) :
    ∀ fuel g, P g → measure ds g < fuel →
      ∃ g', P g' ∧
        ((frontier ds g' = [] ∧ searchLoop ds fuel g = some (Result.exhausted g')) ∨
         (∃ top rest, frontier ds g' = top :: rest ∧ top.state = GOALSTATE ∧
            searchLoop ds fuel g = some (Result.found { g' with curr := top } GOALSTATE))) := by
  intro fuel
  induction fuel with
  | zero => intro g _ h; omega
  | succ fuel ih =>
    intro g hP hμ
    cases hf : frontier ds g with
    | nil =>
      refine ⟨g, hP, Or.inl ⟨hf, ?_⟩⟩
      simp only [searchLoop, hf]
    | cons top rest =>
      by_cases hgoal : top.state = GOALSTATE
      · refine ⟨g, hP, Or.inr ⟨top, rest, hf, hgoal, ?_⟩⟩
        simp only [searchLoop, hf, checkGoal, hgoal, if_true]
      · obtain ⟨p, hp, hP', hμ'⟩ := hstep g top rest hP hf hgoal
        obtain ⟨g', hg', hres⟩ := ih _ hP' (by omega)
        refine ⟨g', hg', ?_⟩
        have hloop : searchLoop ds (fuel + 1) g =
            searchLoop ds fuel
              (searchPattern p top.state (setFrontier ds rest { g with curr := top })) := by
          simp only [searchLoop, hf, checkGoal, hgoal, if_false, hp, Bool.false_eq_true]
        rw [hloop]
        exact hres

/-! ## Termination and completeness of the four searches -/

theorem measure_expand {ds : Nat} {g g1 : Globals} {top : Node} {rest : List Node} {k : Nat}
    (hf : frontier ds g = top :: rest) (hle : (keys g1).length ≤ 362880)
    (hk : (keys g1).length = (keys g).length + k)
    (hfr : (frontier ds g1).length = rest.length + k) :
    measure ds g1 < measure ds g := by
  unfold measure
  rw [hfr, hf, List.length_cons]
  omega

/-- Every expansion keeps the invariant and decreases the measure. -/
theorem inv_step {ds : Nat} {s0 : List Char}
    (hds : ds = 1 ∨ ds = 2 ∨ ds = 3 ∨ ds = 4) (hv : ValidState s0) :
    ∀ g top rest, (∃ ws, Inv ds s0 ws [] g) → frontier ds g = top :: rest →
      top.state ≠ GOALSTATE →
      ∃ p, findEmpty top.state = some p ∧
        (∃ ws, Inv ds s0 ws []
          (searchPattern p top.state (setFrontier ds rest { g with curr := top }))) ∧
        measure ds (searchPattern p top.state (setFrontier ds rest { g with curr := top }))
          < measure ds g := by
  rintro g top rest ⟨ws, inv⟩ hf hgoal
  obtain ⟨p, hp, inv1, -, -, k, hk, hfr⟩ := inv_expand hds hv inv top rest hf hgoal
  exact ⟨p, hp, ⟨top.state, inv1⟩, measure_expand hf (inv_keys_length_le inv1 hv) hk hfr⟩

/-- With the container empty every state that can be reached from the start is in the
map. -/
theorem inv_reach_mem {ds : Nat} {s0 ws : List Char} {g : Globals}
    (inv : Inv ds s0 ws [] g) (hempty : frontier ds g = []) :
    ∀ n u, Moves n s0 u → u ∈ keys g := by
  intro n
  induction n with
  | zero => intro u hm; rw [moves_zero_eq hm]; exact inv.start_mem
  | succ n ih =>
    intro u hm
    obtain ⟨w, hw, hl⟩ := moves_last hm
    rcases inv.closed w (ih w hw) with ⟨x, hx, -⟩ | ⟨-, h⟩
    · rw [hempty] at hx; exact absurd hx (List.not_mem_nil _)
    · rcases h u hl with h1 | ⟨-, h2⟩
      · exact h1
      · exact absurd h2 (List.not_mem_nil _)

/-- The goal state, once in the map, stays in the container. -/
theorem inv_goal_in_frontier {ds : Nat} {s0 ws : List Char} {pending : List (List Char)}
    {g : Globals} (inv : Inv ds s0 ws pending g) (hg : GOALSTATE ∈ keys g) :
    ∃ n ∈ frontier ds g, n.state = GOALSTATE := by
  rcases inv.closed GOALSTATE hg with h | ⟨hne, -⟩
  · exact h
  · exact absurd rfl hne

theorem searchLoop_succ (ds : Nat) : ∀ fuel g r, searchLoop ds fuel g = some r →
    searchLoop ds (fuel + 1) g = some r := by
  intro fuel
  induction fuel with
  | zero => intro g r h; simp [searchLoop] at h
  | succ fuel ih =>
    intro g r h
    rw [searchLoop] at h ⊢
    cases hf : frontier ds g with
    | nil => rw [hf] at h; exact h
    | cons top rest =>
      rw [hf] at h
      simp only at h ⊢
      by_cases hgoal : checkGoal top.state = true
      · simp only [hgoal, if_true] at h ⊢; exact h
      · simp only [hgoal, if_false, Bool.false_eq_true] at h ⊢
        cases hp : findEmpty top.state with
        | none => rw [hp] at h; exact h
        | some p =>
          rw [hp] at h
          simp only at h ⊢
          exact ih _ _ h

/-- More fuel does not change the result of the loop. -/
theorem searchLoop_mono (ds : Nat) (fuel fuel' : Nat) (g : Globals) (r : Result)
    (h : searchLoop ds fuel g = some r) (hle : fuel ≤ fuel') :
    searchLoop ds fuel' g = some r := by
  obtain ⟨k, rfl⟩ := Nat.exists_eq_add_of_le hle
  induction k with
  | zero => exact h
  | succ k ih => exact searchLoop_succ ds _ g r (ih (Nat.le_add_right _ _))

/-- The state before the loop of a search started from a reset state. -/
theorem searchInit_spec {ds : Nat} {s0 : List Char} {g : Globals}
    (hds : ds = 1 ∨ ds = 2 ∨ ds = 3 ∨ ds = 4) (hv : ValidState s0) (hreset : Reset g) :
    ∃ g0 p, searchInit ds s0 g = some g0 ∧ findEmpty s0 = some p ∧ keys g0 = [s0] ∧
      frontier ds g0 = [{ point := p, state := s0, depth := 0, count := 1,
                          path := ["Start, "], cheapest := 0 }] ∧
      g0.dataStructure = ds ∧ g0.counter = 1 ∧ g0.visited = [(s0, 1)] := by
  obtain ⟨k, -, -, -, hfind⟩ := blank_position s0 hv
  obtain ⟨hc, hvis, hq, hs, ha, hm⟩ := hreset
  have hinit : searchInit ds s0 g = some (pushFrontier ds
      ⟨k + 1, s0, 0, ["Start, "],
        (insertMap s0 g.counter { g with dataStructure := ds }).counter, 0⟩
      (insertMap s0 g.counter { g with dataStructure := ds })) := by
    simp only [searchInit, hfind]
  refine ⟨_, k + 1, hinit, hfind, ?_⟩
  rcases hds with rfl | rfl | rfl | rfl <;>
    simp [keys, frontier, pushFrontier, insertMap, hvis, hc, hq, hs, ha, hm, pqPush]

/-- The invariant holds before the loop. -/
theorem inv_init {ds : Nat} {s0 : List Char} {g0 : Globals} {e : Node}
    (hk : keys g0 = [s0]) (hf : frontier ds g0 = [e]) (he : e.state = s0)
    (hd : g0.dataStructure = ds) : Inv ds s0 s0 [] g0 := by
  refine ⟨hd, ?_, ?_, ?_, ?_, ?_⟩
  · rw [hk]; exact List.mem_singleton.mpr rfl
  · rw [hk]; exact List.nodup_singleton _
  · intro v hvk
    rw [hk, List.mem_singleton] at hvk
    exact ⟨0, hvk ▸ Moves.zero _⟩
  · intro n hn
    rw [hf, List.mem_singleton] at hn
    rw [hk, hn, he]; exact List.mem_singleton.mpr rfl
  · intro v hvk
    rw [hk, List.mem_singleton] at hvk
    exact Or.inl ⟨e, by rw [hf]; exact List.mem_singleton.mpr rfl, he.trans hvk.symm⟩

/-- The fuel that is enough for every search from a reset state. -/
theorem measure_init {ds : Nat} {s0 : List Char} {g0 : Globals} {e : Node}
    (hk : keys g0 = [s0]) (hf : frontier ds g0 = [e]) : measure ds g0 < 725760 := by
  unfold measure
  rw [hk, hf, List.length_singleton, List.length_singleton]
  norm_num

/-- Every search from a reset state ends: with fuel 725760 or more the loop stops either
with the container empty or on a goal node at its front, and the invariant holds
there. -/
theorem search_ends {ds : Nat} {s0 : List Char} {g : Globals}
    (hds : ds = 1 ∨ ds = 2 ∨ ds = 3 ∨ ds = 4) (hv : ValidState s0)
    (hne : s0 ≠ GOALSTATE) (hreset : Reset g) (fuel : Nat) (hfuel : 725760 ≤ fuel) :
    ∃ g', (∃ ws, Inv ds s0 ws [] g') ∧
      ((frontier ds g' = [] ∧ search ds fuel s0 g = some (Result.exhausted g')) ∨
       (∃ top rest, frontier ds g' = top :: rest ∧ top.state = GOALSTATE ∧
          search ds fuel s0 g = some (Result.found { g' with curr := top } GOALSTATE))) := by
  obtain ⟨g0, p, hinit, -, hk, hf, hd, -, -⟩ := @searchInit_spec ds s0 g hds hv hreset
  have hsearch : search ds fuel s0 g = searchLoop ds fuel g0 := by
    simp only [search, hne, if_false, hinit]
  rw [hsearch]
  exact searchLoop_induct ds (fun g => ∃ ws, Inv ds s0 ws [] g) (inv_step hds hv) fuel g0
    ⟨s0, inv_init hk hf rfl hd⟩ (lt_of_lt_of_le (measure_init hk hf) hfuel)

/-- Graph-search completeness: a search from a reset state whose start can reach the
goal ends on a goal node. -/
theorem search_finds {ds : Nat} {s0 : List Char} {g : Globals}
    (hds : ds = 1 ∨ ds = 2 ∨ ds = 3 ∨ ds = 4) (hv : ValidState s0)
    (hne : s0 ≠ GOALSTATE) (hreset : Reset g) (hreach : Reach s0 GOALSTATE)
    (fuel : Nat) (hfuel : 725760 ≤ fuel) :
    ∃ g', search ds fuel s0 g = some (Result.found g' GOALSTATE) ∧
      g'.curr.state = GOALSTATE := by
  obtain ⟨g', ⟨ws, inv⟩, h | ⟨top, rest, hf, hgoal, hres⟩⟩ :=
    search_ends hds hv hne hreset fuel hfuel
  · exfalso
    obtain ⟨n, hn⟩ := hreach
    obtain ⟨x, hx, -⟩ := inv_goal_in_frontier inv (inv_reach_mem inv h.1 n _ hn)
    rw [h.1] at hx
    exact List.not_mem_nil _ hx
  · exact ⟨_, hres, hgoal⟩

/-- A search from a reset state whose start cannot reach the goal ends with the
container empty, and no amount of fuel makes it return a state. -/
theorem search_exhausts {ds : Nat} {s0 : List Char} {g : Globals}
    (hds : ds = 1 ∨ ds = 2 ∨ ds = 3 ∨ ds = 4) (hv : ValidState s0)
    (hreset : Reset g) (hreach : ¬ Reach s0 GOALSTATE) :
    (∀ fuel, 725760 ≤ fuel →
      ∃ g', search ds fuel s0 g = some (Result.exhausted g') ∧ frontier ds g' = []) ∧
    (∀ fuel g' w, search ds fuel s0 g ≠ some (Result.found g' w)) := by
  have hne : s0 ≠ GOALSTATE := fun h => hreach ⟨0, h ▸ Moves.zero _⟩
  have hex : ∀ fuel, 725760 ≤ fuel →
      ∃ g', search ds fuel s0 g = some (Result.exhausted g') ∧ frontier ds g' = [] := by
    intro fuel hfuel
    obtain ⟨g', ⟨ws, inv⟩, h | ⟨top, rest, hf, hgoal, -⟩⟩ :=
      search_ends hds hv hne hreset fuel hfuel
    · exact ⟨g', h.2, h.1⟩
    · exfalso
      apply hreach
      have := inv.keys_reach _ (inv.front_mem top (by rw [hf]; exact List.mem_cons_self _ _))
      rw [hgoal] at this
      exact this
  refine ⟨hex, ?_⟩
  intro fuel g' w hfound
  obtain ⟨g0, p, hinit, -⟩ := @searchInit_spec ds s0 g hds hv hreset
  have hs : ∀ f, search ds f s0 g = searchLoop ds f g0 := by
    intro f; simp only [search, hne, if_false, hinit]
  obtain ⟨g'', hex', -⟩ := hex (max fuel 725760) (le_max_right _ _)
  rw [hs] at hfound hex'
  have := searchLoop_mono ds fuel (max fuel 725760) g0 _ hfound (le_max_left _ _)
  rw [hex'] at this
  cases this

/-! ## Breadth-first search finds a shortest solution -/

/-- One check of `bfs` keeps the invariant of the level of the node being expanded. -/
theorem bfsInv_tryMove {s0 ws t : List Char} {pending : List (List Char)} {g : Globals}
    (b : BfsInv s0 ws (t :: pending) g.curr.depth g) (hws : Moves g.curr.depth s0 ws)
    (hl : legalMove ws t) (sw : Puzzle → Puzzle × List Char) (lbl : String)
    (ht : (sw (populatePuzzle ws)).2 = t) :
    BfsInv s0 ws pending g.curr.depth (tryMove sw lbl ws g) ∧
      (tryMove sw lbl ws g).curr = g.curr := by
  have hds : (1 : Nat) = 1 ∨ (1 : Nat) = 2 ∨ (1 : Nat) = 3 ∨ (1 : Nat) = 4 := Or.inl rfl
  obtain ⟨inv1, hcurr, hmono, -⟩ := inv_tryMove hds b.inv ⟨_, hws⟩ hl sw lbl ht
  refine ⟨?_, hcurr⟩
  by_cases hk : t ∈ keys g
  · have hold := tryMove_old sw lbl ws g (ht ▸ hk)
    refine ⟨inv1, ?_, ?_, ?_, ?_⟩
    · rw [hold]; exact b.depth_ok
    · rw [hold]; exact b.sorted
    · rw [hold]; exact b.bounds
    · rw [hold]; exact b.level
  · obtain ⟨hf, -, -, -, -⟩ := tryMove_new 1 hds sw lbl ws g b.inv.ds_ok (ht ▸ hk)
    rw [ht] at hf
    have hq : (tryMove sw lbl ws g).bfsQueue
        = g.bfsQueue ++ [newNode 1 g t lbl] := hf
    refine ⟨inv1, ?_, ?_, ?_, ?_⟩
    · intro n hn
      rw [hq, List.mem_append, List.mem_singleton] at hn
      rcases hn with hn | rfl
      · exact b.depth_ok n hn
      · rw [newNode_state, newNode_depth]
        refine ⟨moves_snoc hws hl, fun m hm => ?_⟩
        by_contra hlt
        exact hk (b.level m t hm (by omega))
    · rw [hq, List.map_append, List.pairwise_append]
      refine ⟨b.sorted, List.pairwise_singleton _ _, ?_⟩
      intro x hx y hy
      rw [List.map_singleton, List.mem_singleton, newNode_depth] at hy
      obtain ⟨n, hn, rfl⟩ := List.mem_map.mp hx
      rw [hy]
      exact (b.bounds n hn).2
    · intro n hn
      rw [hq, List.mem_append, List.mem_singleton] at hn
      rcases hn with hn | rfl
      · exact b.bounds n hn
      · rw [newNode_depth]; omega
    · intro m u hm hle
      exact hmono u (b.level m u hm hle)

/-- The checks of a swap pattern keep the invariant of `bfs`. -/
theorem bfsInv_runChecks {s0 ws : List Char}
    (cs : List ((Puzzle → Puzzle × List Char) × String)) :
    ∀ g : Globals,
      BfsInv s0 ws (cs.map (fun c => (c.1 (populatePuzzle ws)).2)) g.curr.depth g →
      Moves g.curr.depth s0 ws →
      (∀ c ∈ cs, legalMove ws (c.1 (populatePuzzle ws)).2) →
      BfsInv s0 ws [] g.curr.depth (runChecks cs ws g) ∧
        (runChecks cs ws g).curr = g.curr := by
  induction cs with
  | nil => intro g b _ _; exact ⟨b, rfl⟩
  | cons c cs ih =>
    intro g b hws hl
    obtain ⟨b1, hc1⟩ := bfsInv_tryMove b hws (hl c (List.mem_cons_self _ _)) c.1 c.2 rfl
    rw [← hc1] at b1 hws
    obtain ⟨b2, hc2⟩ := ih (tryMove c.1 c.2 ws g) b1 hws
      (fun c' hc' => hl c' (List.mem_cons_of_mem _ hc'))
    rw [runChecks_cons]
    rw [hc1] at b2
    exact ⟨b2, hc2.trans hc1⟩

/-- At the head of the loop every state that can be reached in no more moves than the
depth of each node of the queue is in the map. -/
theorem bfsInv_level_up {s0 ws : List Char} {d : Nat} {g : Globals}
    (b : BfsInv s0 ws [] d g) :
    ∀ m u, Moves m s0 u → (∀ n ∈ g.bfsQueue, m ≤ n.depth) → u ∈ keys g := by
  intro m
  induction m with
  | zero => intro u hm _; rw [moves_zero_eq hm]; exact b.inv.start_mem
  | succ m ih =>
    intro u hm hle
    obtain ⟨w, hw, hl⟩ := moves_last hm
    have hwk : w ∈ keys g := ih w hw (fun n hn => by have := hle n hn; omega)
    rcases b.inv.closed w hwk with ⟨x, hx, hxw⟩ | ⟨-, h⟩
    · exfalso
      have hx' : x ∈ g.bfsQueue := hx
      have h1 := (b.depth_ok x hx').2 m (hxw ▸ hw)
      have h2 := hle x hx'
      omega
    · rcases h u hl with h1 | ⟨-, h2⟩
      · exact h1
      · exact absurd h2 (List.not_mem_nil _)

/-- Every expansion of `bfs` keeps the invariant and decreases the measure. -/
theorem bfsInv_step {s0 : List Char} (hv : ValidState s0) :
    ∀ g top rest, (∃ ws d, BfsInv s0 ws [] d g) → frontier 1 g = top :: rest →
      top.state ≠ GOALSTATE →
      ∃ p, findEmpty top.state = some p ∧
        (∃ ws d, BfsInv s0 ws [] d
          (searchPattern p top.state (setFrontier 1 rest { g with curr := top }))) ∧
        measure 1 (searchPattern p top.state (setFrontier 1 rest { g with curr := top }))
          < measure 1 g := by
  rintro g top rest ⟨ws, d, b⟩ hf hgoal
  have hds : (1 : Nat) = 1 ∨ (1 : Nat) = 2 ∨ (1 : Nat) = 3 ∨ (1 : Nat) = 4 := Or.inl rfl
  obtain ⟨p, hp, hinv, hμ⟩ := inv_step hds hv g top rest ⟨ws, b.inv⟩ hf hgoal
  refine ⟨p, hp, ?_, hμ⟩
  obtain ⟨k, hfind, -, hlegal, hfr, hkeys, hcurr, inv0⟩ :=
    inv_pop hds hv b.inv top rest hf hgoal
  rw [hfind] at hp
  cases hp
  have hq : g.bfsQueue = top :: rest := hf
  have hsorted := b.sorted
  rw [hq, List.map_cons, List.pairwise_cons] at hsorted
  have htop : top ∈ g.bfsQueue := by rw [hq]; exact List.mem_cons_self _ _
  have hmin : ∀ n ∈ g.bfsQueue, top.depth ≤ n.depth := by
    intro n hn
    rw [hq] at hn
    rcases List.mem_cons.mp hn with rfl | hn
    · exact le_refl _
    · exact hsorted.1 _ (List.mem_map_of_mem _ hn)
  have hrest : (setFrontier 1 rest { g with curr := top }).bfsQueue = rest := hfr
  have b0 : BfsInv s0 top.state (candidates (k + 1) top.state)
      (setFrontier 1 rest { g with curr := top }).curr.depth
      (setFrontier 1 rest { g with curr := top }) := by
    rw [hcurr]
    refine ⟨inv0, ?_, ?_, ?_, ?_⟩
    · rw [hrest]
      intro n hn
      exact b.depth_ok n (by rw [hq]; exact List.mem_cons_of_mem _ hn)
    · rw [hrest]; exact hsorted.2
    · rw [hrest]
      intro n hn
      have hn' : n ∈ g.bfsQueue := by rw [hq]; exact List.mem_cons_of_mem _ hn
      have h1 := b.bounds n hn'
      have h2 := b.bounds top htop
      have h3 := hmin n hn'
      omega
    · intro m u hm hle
      rw [hkeys]
      exact bfsInv_level_up b m u hm (fun n hn => le_trans hle (hmin n hn))
  have hws : Moves (setFrontier 1 rest { g with curr := top }).curr.depth s0 top.state := by
    rw [hcurr]; exact (b.depth_ok top htop).1
  obtain ⟨b1, -⟩ := bfsInv_runChecks (tileChecks (k + 1)) _ b0 hws hlegal
  rw [searchPattern_eq]
  exact ⟨top.state, _, b1⟩

/-- The invariant of `bfs` holds before the loop. -/
theorem bfsInv_init {s0 : List Char} {g0 : Globals} {e : Node}
    (hk : keys g0 = [s0]) (hf : frontier 1 g0 = [e]) (he : e.state = s0)
    (hdepth : e.depth = 0) (hd : g0.dataStructure = 1) : BfsInv s0 s0 [] 0 g0 := by
  have hq : g0.bfsQueue = [e] := hf
  refine ⟨inv_init hk hf he hd, ?_, ?_, ?_, ?_⟩
  · intro n hn
    rw [hq, List.mem_singleton] at hn
    subst hn
    rw [hdepth, he]
    exact ⟨Moves.zero _, fun m _ => Nat.zero_le _⟩
  · rw [hq]; exact List.pairwise_singleton _ _
  · intro n hn
    rw [hq, List.mem_singleton] at hn
    subst hn
    rw [hdepth]; omega
  · intro m u hm hle
    have : m = 0 := by omega
    subst this
    rw [moves_zero_eq hm, hk]
    exact List.mem_singleton.mpr rfl

/-- C1: for every start state that is a permutation of `"12345678E"`, differs from the
goal and from which the goal is reachable by legal moves, `bfs` run from a reset state
stops on a goal node whose depth is the minimal number of legal moves that transform the
start into `"12345678E"`: that many moves do it and no shorter sequence exists. -/
theorem bfs_optimal (s0 : List Char) (g : Globals) (hv : ValidState s0)
    (hne : s0 ≠ GOALSTATE) (hreach : Reach s0 GOALSTATE) (hreset : Reset g)
    (fuel : Nat) (hfuel : 725760 ≤ fuel) :
    ∃ g', bfs fuel s0 g = some (Result.found g' GOALSTATE) ∧
      g'.curr.state = GOALSTATE ∧
      Moves g'.curr.depth s0 GOALSTATE ∧
      ∀ m, Moves m s0 GOALSTATE → g'.curr.depth ≤ m := by
  have hds : (1 : Nat) = 1 ∨ (1 : Nat) = 2 ∨ (1 : Nat) = 3 ∨ (1 : Nat) = 4 := Or.inl rfl
  obtain ⟨g0, p, hinit, -, hk, hf, hd, -, -⟩ := @searchInit_spec 1 s0 g hds hv hreset
  have hsearch : bfs fuel s0 g = searchLoop 1 fuel g0 := by
    simp only [bfs, search, hne, if_false, hinit]
  rw [hsearch]
  obtain ⟨g', ⟨ws, d, b⟩, h | ⟨top, rest, hfr, hgoal, hres⟩⟩ :=
    searchLoop_induct 1 (fun g => ∃ ws d, BfsInv s0 ws [] d g) (bfsInv_step hv) fuel g0
      ⟨s0, 0, bfsInv_init hk hf rfl rfl hd⟩ (lt_of_lt_of_le (measure_init hk hf) hfuel)
  · exfalso
    obtain ⟨n, hn⟩ := hreach
    obtain ⟨x, hx, -⟩ := inv_goal_in_frontier b.inv (inv_reach_mem b.inv h.1 n _ hn)
    rw [h.1] at hx
    exact List.not_mem_nil _ hx
  · have htop : top ∈ g'.bfsQueue := by
      have : g'.bfsQueue = top :: rest := hfr
      rw [this]; exact List.mem_cons_self _ _
    have hok := b.depth_ok top htop
    rw [hgoal] at hok
    exact ⟨_, hres, hgoal, hok.1, hok.2⟩

theorem bfs_optimal_witness :
    ValidState ['1', '2', '3', '4', '5', '6', '7', 'E', '8'] ∧
    ['1', '2', '3', '4', '5', '6', '7', 'E', '8'] ≠ GOALSTATE ∧
    Reach ['1', '2', '3', '4', '5', '6', '7', 'E', '8'] GOALSTATE ∧
    Reset Globals.initial ∧
    ∃ g', bfs 725760 ['1', '2', '3', '4', '5', '6', '7', 'E', '8'] Globals.initial
        = some (Result.found g' GOALSTATE) ∧
      g'.curr.state = GOALSTATE ∧
      Moves g'.curr.depth ['1', '2', '3', '4', '5', '6', '7', 'E', '8'] GOALSTATE ∧
      ∀ m, Moves m ['1', '2', '3', '4', '5', '6', '7', 'E', '8'] GOALSTATE →
        g'.curr.depth ≤ m :=
  ⟨by decide, by decide, ⟨1, moves_one_example⟩, by decide,
    bfs_optimal _ _ (by decide) (by decide) ⟨1, moves_one_example⟩ (by decide) 725760
      (le_refl _)⟩

/-! ## Unsolvable start states -/

theorem goal_solvable : stateSolvable GOALSTATE = true := by decide

/-- The goal cannot be reached from a valid state that the solvability check rejects. -/
theorem not_reach_of_unsolvable {s0 : List Char} (hv : ValidState s0)
    (hs : stateSolvable s0 = false) : ¬ Reach s0 GOALSTATE := by
  rintro ⟨n, hn⟩
  have := stateSolvable_moves hn hv
  rw [goal_solvable, hs] at this
  exact Bool.noConfusion this

/-- C4: for every permutation of `"12345678E"` for which the solvability check returns
false, none of the four searches ever examines a goal node: the run ends with the
frontier empty and never returns a state. -/
theorem unsolvable_exhausts (s0 : List Char) (g : Globals) (hv : ValidState s0)
    (hs : stateSolvable s0 = false) (hreset : Reset g) :
    Exhausts bfs 1 s0 g ∧ Exhausts dfs 2 s0 g ∧ Exhausts oopl 3 s0 g ∧
      Exhausts mhttn 4 s0 g := by
  have hr := not_reach_of_unsolvable hv hs
  exact ⟨search_exhausts (Or.inl rfl) hv hreset hr,
    search_exhausts (Or.inr (Or.inl rfl)) hv hreset hr,
    search_exhausts (Or.inr (Or.inr (Or.inl rfl))) hv hreset hr,
    search_exhausts (Or.inr (Or.inr (Or.inr rfl))) hv hreset hr⟩

theorem unsolvable_exhausts_witness :
    ValidState ['1', '2', '3', '4', '5', '6', '8', '7', 'E'] ∧
    stateSolvable ['1', '2', '3', '4', '5', '6', '8', '7', 'E'] = false ∧
    Reset Globals.initial ∧
    Exhausts bfs 1 ['1', '2', '3', '4', '5', '6', '8', '7', 'E'] Globals.initial ∧
    Exhausts dfs 2 ['1', '2', '3', '4', '5', '6', '8', '7', 'E'] Globals.initial ∧
    Exhausts oopl 3 ['1', '2', '3', '4', '5', '6', '8', '7', 'E'] Globals.initial ∧
    Exhausts mhttn 4 ['1', '2', '3', '4', '5', '6', '8', '7', 'E'] Globals.initial :=
  ⟨by decide, by decide, by decide,
    unsolvable_exhausts _ _ (by decide) (by decide) (by decide)⟩

/-! ## The concrete scenario of the specification -/

/-- C7, as stated, fails: started from `"21345678E"` (one inversion), `bfs` from the
reset state of program start returns the goal state with no amount of fuel. -/
theorem bfs_scenario_not_found :
    ¬ ∃ fuel g', bfs fuel ['2', '1', '3', '4', '5', '6', '7', '8', 'E'] Globals.initial
        = some (Result.found g' GOALSTATE) := by
  rintro ⟨fuel, g', h⟩
  exact (@search_exhausts 1 _ _ (Or.inl rfl) (by decide) (by decide)
    (not_reach_of_unsolvable (by decide) (by decide))).2 fuel g' GOALSTATE h

/-- C7, amended: the solvability check rejects `"21345678E"`, and `bfs` started from it
in a reset state never examines a goal node: with enough fuel the loop ends with the
queue empty, and no state is ever returned. -/
theorem bfs_scenario_exhausts (g : Globals) (hreset : Reset g) :
    stateSolvable ['2', '1', '3', '4', '5', '6', '7', '8', 'E'] = false ∧
    Exhausts bfs 1 ['2', '1', '3', '4', '5', '6', '7', '8', 'E'] g :=
  ⟨by decide, @search_exhausts 1 _ _ (Or.inl rfl) (by decide) hreset
    (not_reach_of_unsolvable (by decide) (by decide))⟩

theorem bfs_scenario_exhausts_witness :
    Reset Globals.initial ∧
    stateSolvable ['2', '1', '3', '4', '5', '6', '7', '8', 'E'] = false ∧
    Exhausts bfs 1 ['2', '1', '3', '4', '5', '6', '7', '8', 'E'] Globals.initial :=
  ⟨by decide, bfs_scenario_exhausts Globals.initial (by decide)⟩

/-! ## Every state that the solvability check accepts can be solved -/

theorem moves_append {n m : Nat} {s t u : List Char} (h1 : Moves n s t) (h2 : Moves m t u) :
    Moves (n + m) s u := by
  induction h1 with
  | zero s => rw [Nat.zero_add]; exact h2
  | step hl _ ih =>
    have := Moves.step hl (ih h2)
    rw [Nat.add_right_comm]
    exact this

theorem reach_trans {s t u : List Char} (h1 : Reach s t) (h2 : Reach t u) : Reach s u := by
  obtain ⟨n, hn⟩ := h1
  obtain ⟨m, hm⟩ := h2
  exact ⟨n + m, moves_append hn hm⟩

theorem length_swapAt (s : List Char) (p q : Nat) : (swapAt s p q).length = s.length := by
  simp [swapAt]

/-- A path of adjacent cells that starts at the blank is a sequence of legal moves. -/
theorem moves_applyPath (path : List Nat) :
    ∀ (p : Nat) (s : List Char), s.length = 9 → charAt s p = 'E' → pathOk path p = true →
      Moves path.length s (applyPath path p s) := by
  induction path with
  | nil => intro p s _ _ _; exact Moves.zero _
  | cons q rest ih =>
    intro p s hlen hE hok
    simp only [pathOk, Bool.and_eq_true, decide_eq_true_eq] at hok
    obtain ⟨⟨hp, hq, hadj⟩, hrest⟩ := hok
    have hE' : charAt (swapAt s p q) q = 'E' := by
      rw [charAt_swapAt s p q q (by omega) (by omega), if_pos rfl]; exact hE
    exact Moves.step ⟨p, q, hp, hq, hadj, hE, rfl⟩
      (ih q (swapAt s p q) (by rw [length_swapAt]; exact hlen) hE' hrest)

theorem reach_applyPath (path : List Nat) (p : Nat) (s : List Char) (hlen : s.length = 9)
    (hE : charAt s p = 'E') (hok : pathOk path p = true) : Reach s (applyPath path p s) :=
  ⟨path.length, moves_applyPath path p s hlen hE hok⟩

/-- The blank of a valid state can be moved to the last cell. -/
theorem reach_blank_last (s : List Char) (hv : ValidState s) :
    ∃ b0 b1 b2 b3 b4 b5 b6 b7, Reach s [b0, b1, b2, b3, b4, b5, b6, b7, 'E'] := by
  obtain ⟨a0, a1, a2, a3, a4, a5, a6, a7, a8, rfl, -, -, hE⟩ := valid_shape s hv
  simp only [List.mem_cons, List.mem_singleton, List.not_mem_nil, or_false] at hE
  rcases hE with rfl | rfl | rfl | rfl | rfl | rfl | rfl | rfl | rfl
  · have h := reach_applyPath [1, 2, 5, 8] 0 ['E', a1, a2, a3, a4, a5, a6, a7, a8] rfl rfl (by decide)
    simp only [applyPath, swapAt, charAt, List.set_cons_zero, List.set_cons_succ,
      List.getD_cons_zero, List.getD_cons_succ] at h
    exact ⟨_, _, _, _, _, _, _, _, h⟩
  · have h := reach_applyPath [2, 5, 8] 1 [a0, 'E', a2, a3, a4, a5, a6, a7, a8] rfl rfl (by decide)
    simp only [applyPath, swapAt, charAt, List.set_cons_zero, List.set_cons_succ,
      List.getD_cons_zero, List.getD_cons_succ] at h
    exact ⟨_, _, _, _, _, _, _, _, h⟩
  · have h := reach_applyPath [5, 8] 2 [a0, a1, 'E', a3, a4, a5, a6, a7, a8] rfl rfl (by decide)
    simp only [applyPath, swapAt, charAt, List.set_cons_zero, List.set_cons_succ,
      List.getD_cons_zero, List.getD_cons_succ] at h
    exact ⟨_, _, _, _, _, _, _, _, h⟩
  · have h := reach_applyPath [4, 5, 8] 3 [a0, a1, a2, 'E', a4, a5, a6, a7, a8] rfl rfl (by decide)
    simp only [applyPath, swapAt, charAt, List.set_cons_zero, List.set_cons_succ,
      List.getD_cons_zero, List.getD_cons_succ] at h
    exact ⟨_, _, _, _, _, _, _, _, h⟩
  · have h := reach_applyPath [5, 8] 4 [a0, a1, a2, a3, 'E', a5, a6, a7, a8] rfl rfl (by decide)
    simp only [applyPath, swapAt, charAt, List.set_cons_zero, List.set_cons_succ,
      List.getD_cons_zero, List.getD_cons_succ] at h
    exact ⟨_, _, _, _, _, _, _, _, h⟩
  · have h := reach_applyPath [8] 5 [a0, a1, a2, a3, a4, 'E', a6, a7, a8] rfl rfl (by decide)
    simp only [applyPath, swapAt, charAt, List.set_cons_zero, List.set_cons_succ,
      List.getD_cons_zero, List.getD_cons_succ] at h
    exact ⟨_, _, _, _, _, _, _, _, h⟩
  · have h := reach_applyPath [7, 8] 6 [a0, a1, a2, a3, a4, a5, 'E', a7, a8] rfl rfl (by decide)
    simp only [applyPath, swapAt, charAt, List.set_cons_zero, List.set_cons_succ,
      List.getD_cons_zero, List.getD_cons_succ] at h
    exact ⟨_, _, _, _, _, _, _, _, h⟩
  · have h := reach_applyPath [8] 7 [a0, a1, a2, a3, a4, a5, a6, 'E', a8] rfl rfl (by decide)
    simp only [applyPath, swapAt, charAt, List.set_cons_zero, List.set_cons_succ,
      List.getD_cons_zero, List.getD_cons_succ] at h
    exact ⟨_, _, _, _, _, _, _, _, h⟩
  · have h := reach_applyPath [] 8 [a0, a1, a2, a3, a4, a5, a6, a7, 'E'] rfl rfl (by decide)
    simp only [applyPath, swapAt, charAt, List.set_cons_zero, List.set_cons_succ,
      List.getD_cons_zero, List.getD_cons_succ] at h
    exact ⟨_, _, _, _, _, _, _, _, h⟩

/-- From a valid state with the blank last and the tiles 1..0 in place, a state with the
tiles 1..1 in place can be reached. -/
theorem reach_stage0 (a0 a1 a2 a3 a4 a5 a6 a7 : Char)
    (hv : ValidState [a0, a1, a2, a3, a4, a5, a6, a7, 'E']) :
    ∃ b1 b2 b3 b4 b5 b6 b7, Reach [a0, a1, a2, a3, a4, a5, a6, a7, 'E']
      ['1', b1, b2, b3, b4, b5, b6, b7, 'E'] := by
  have hmem : '1' ∈ [a0, a1, a2, a3, a4, a5, a6, a7, 'E'] :=
    List.Perm.subset (List.Perm.symm hv) (by decide)
  simp only [List.mem_cons, List.mem_singleton, List.not_mem_nil, or_false] at hmem
  rcases hmem with rfl | rfl | rfl | rfl | rfl | rfl | rfl | rfl | h
  · exact ⟨_, _, _, _, _, _, _, 0, Moves.zero _⟩
  · have h := reach_applyPath [5, 4, 3, 0, 1, 2, 5, 8] 8
      [a0, '1', a2, a3, a4, a5, a6, a7, 'E'] rfl rfl (by decide)
    simp only [applyPath, swapAt, charAt, List.set_cons_zero, List.set_cons_succ,
      List.getD_cons_zero, List.getD_cons_succ] at h
    exact ⟨_, _, _, _, _, _, _, h⟩
  · have h := reach_applyPath [5, 4, 1, 2, 5, 4, 3, 0, 1, 2, 5, 8] 8
      [a0, a1, '1', a3, a4, a5, a6, a7, 'E'] rfl rfl (by decide)
    simp only [applyPath, swapAt, charAt, List.set_cons_zero, List.set_cons_succ,
      List.getD_cons_zero, List.getD_cons_succ] at h
    exact ⟨_, _, _, _, _, _, _, h⟩
  · have h := reach_applyPath [5, 2, 1, 0, 3, 4, 5, 8] 8
      [a0, a1, a2, '1', a4, a5, a6, a7, 'E'] rfl rfl (by decide)
    simp only [applyPath, swapAt, charAt, List.set_cons_zero, List.set_cons_succ,
      List.getD_cons_zero, List.getD_cons_succ] at h
    exact ⟨_, _, _, _, _, _, _, h⟩
  · have h := reach_applyPath [5, 2, 1, 4, 3, 0, 1, 2, 5, 8] 8
      [a0, a1, a2, a3, '1', a5, a6, a7, 'E'] rfl rfl (by decide)
    simp only [applyPath, swapAt, charAt, List.set_cons_zero, List.set_cons_succ,
      List.getD_cons_zero, List.getD_cons_succ] at h
    exact ⟨_, _, _, _, _, _, _, h⟩
  · have h := reach_applyPath [7, 4, 5, 2, 1, 4, 3, 0, 1, 2, 5, 8] 8
      [a0, a1, a2, a3, a4, '1', a6, a7, 'E'] rfl rfl (by decide)
    simp only [applyPath, swapAt, charAt, List.set_cons_zero, List.set_cons_succ,
      List.getD_cons_zero, List.getD_cons_succ] at h
    exact ⟨_, _, _, _, _, _, _, h⟩
  · have h := reach_applyPath [5, 4, 3, 6, 7, 4, 1, 0, 3, 4, 5, 8] 8
      [a0, a1, a2, a3, a4, a5, '1', a7, 'E'] rfl rfl (by decide)
    simp only [applyPath, swapAt, charAt, List.set_cons_zero, List.set_cons_succ,
      List.getD_cons_zero, List.getD_cons_succ] at h
    exact ⟨_, _, _, _, _, _, _, h⟩
  · have h := reach_applyPath [5, 4, 7, 6, 3, 4, 1, 0, 3, 4, 5, 8] 8
      [a0, a1, a2, a3, a4, a5, a6, '1', 'E'] rfl rfl (by decide)
    simp only [applyPath, swapAt, charAt, List.set_cons_zero, List.set_cons_succ,
      List.getD_cons_zero, List.getD_cons_succ] at h
    exact ⟨_, _, _, _, _, _, _, h⟩
  · exact absurd h (by decide)

/-- From a valid state with the blank last and the tiles 1..1 in place, a state with the
tiles 1..2 in place can be reached. -/
theorem reach_stage1 (a1 a2 a3 a4 a5 a6 a7 : Char)
    (hv : ValidState ['1', a1, a2, a3, a4, a5, a6, a7, 'E']) :
    ∃ b2 b3 b4 b5 b6 b7, Reach ['1', a1, a2, a3, a4, a5, a6, a7, 'E']
      ['1', '2', b2, b3, b4, b5, b6, b7, 'E'] := by
  have hmem : '2' ∈ ['1', a1, a2, a3, a4, a5, a6, a7, 'E'] :=
    List.Perm.subset (List.Perm.symm hv) (by decide)
  simp only [List.mem_cons, List.mem_singleton, List.not_mem_nil, or_false] at hmem
  rcases hmem with h | rfl | rfl | rfl | rfl | rfl | rfl | rfl | h
  · exact absurd h (by decide)
  · exact ⟨_, _, _, _, _, _, 0, Moves.zero _⟩
  · have h := reach_applyPath [5, 4, 1, 2, 5, 8] 8
      ['1', a1, '2', a3, a4, a5, a6, a7, 'E'] rfl rfl (by decide)
    simp only [applyPath, swapAt, charAt, List.set_cons_zero, List.set_cons_succ,
      List.getD_cons_zero, List.getD_cons_succ] at h
    exact ⟨_, _, _, _, _, _, h⟩
  · have h := reach_applyPath [5, 4, 3, 6, 7, 8, 5, 2, 1, 4, 5, 8] 8
      ['1', a1, a2, '2', a4, a5, a6, a7, 'E'] rfl rfl (by decide)
    simp only [applyPath, swapAt, charAt, List.set_cons_zero, List.set_cons_succ,
      List.getD_cons_zero, List.getD_cons_succ] at h
    exact ⟨_, _, _, _, _, _, h⟩
  · have h := reach_applyPath [5, 2, 1, 4, 5, 8] 8
      ['1', a1, a2, a3, '2', a5, a6, a7, 'E'] rfl rfl (by decide)
    simp only [applyPath, swapAt, charAt, List.set_cons_zero, List.set_cons_succ,
      List.getD_cons_zero, List.getD_cons_succ] at h
    exact ⟨_, _, _, _, _, _, h⟩
  · have h := reach_applyPath [7, 4, 5, 2, 1, 4, 5, 8] 8
      ['1', a1, a2, a3, a4, '2', a6, a7, 'E'] rfl rfl (by decide)
    simp only [applyPath, swapAt, charAt, List.set_cons_zero, List.set_cons_succ,
      List.getD_cons_zero, List.getD_cons_succ] at h
    exact ⟨_, _, _, _, _, _, h⟩
  · have h := reach_applyPath [7, 6, 3, 4, 7, 8, 5, 2, 1, 4, 5, 8] 8
      ['1', a1, a2, a3, a4, a5, '2', a7, 'E'] rfl rfl (by decide)
    simp only [applyPath, swapAt, charAt, List.set_cons_zero, List.set_cons_succ,
      List.getD_cons_zero, List.getD_cons_succ] at h
    exact ⟨_, _, _, _, _, _, h⟩
  · have h := reach_applyPath [5, 4, 7, 8, 5, 2, 1, 4, 5, 8] 8
      ['1', a1, a2, a3, a4, a5, a6, '2', 'E'] rfl rfl (by decide)
    simp only [applyPath, swapAt, charAt, List.set_cons_zero, List.set_cons_succ,
      List.getD_cons_zero, List.getD_cons_succ] at h
    exact ⟨_, _, _, _, _, _, h⟩
  · exact absurd h (by decide)

/-- From a valid state with the blank last and the tiles 1..2 in place, a state with the
tiles 1..3 in place can be reached. -/
theorem reach_stage2 (a2 a3 a4 a5 a6 a7 : Char)
    (hv : ValidState ['1', '2', a2, a3, a4, a5, a6, a7, 'E']) :
    ∃ b3 b4 b5 b6 b7, Reach ['1', '2', a2, a3, a4, a5, a6, a7, 'E']
      ['1', '2', '3', b3, b4, b5, b6, b7, 'E'] := by
  have hmem : '3' ∈ ['1', '2', a2, a3, a4, a5, a6, a7, 'E'] :=
    List.Perm.subset (List.Perm.symm hv) (by decide)
  simp only [List.mem_cons, List.mem_singleton, List.not_mem_nil, or_false] at hmem
  rcases hmem with h | h | rfl | rfl | rfl | rfl | rfl | rfl | h
  · exact absurd h (by decide)
  · exact absurd h (by decide)
  · exact ⟨_, _, _, _, _, 0, Moves.zero _⟩
  · have h := reach_applyPath [5, 2, 1, 4, 3, 6, 7, 8, 5, 4, 1, 2, 5, 8] 8
      ['1', '2', a2, '3', a4, a5, a6, a7, 'E'] rfl rfl (by decide)
    simp only [applyPath, swapAt, charAt, List.set_cons_zero, List.set_cons_succ,
      List.getD_cons_zero, List.getD_cons_succ] at h
    exact ⟨_, _, _, _, _, h⟩
  · have h := reach_applyPath [5, 4, 3, 0, 1, 2, 5, 4, 1, 0, 3, 4, 5, 8] 8
      ['1', '2', a2, a3, '3', a5, a6, a7, 'E'] rfl rfl (by decide)
    simp only [applyPath, swapAt, charAt, List.set_cons_zero, List.set_cons_succ,
      List.getD_cons_zero, List.getD_cons_succ] at h
    exact ⟨_, _, _, _, _, h⟩
  · have h := reach_applyPath [5, 2, 1, 4, 5, 8, 7, 4, 1, 2, 5, 8] 8
      ['1', '2', a2, a3, a4, '3', a6, a7, 'E'] rfl rfl (by decide)
    simp only [applyPath, swapAt, charAt, List.set_cons_zero, List.set_cons_succ,
      List.getD_cons_zero, List.getD_cons_succ] at h
    exact ⟨_, _, _, _, _, h⟩
  · have h := reach_applyPath [5, 2, 1, 4, 7, 6, 3, 4, 7, 8, 5, 4, 1, 2, 5, 8] 8
      ['1', '2', a2, a3, a4, a5, '3', a7, 'E'] rfl rfl (by decide)
    simp only [applyPath, swapAt, charAt, List.set_cons_zero, List.set_cons_succ,
      List.getD_cons_zero, List.getD_cons_succ] at h
    exact ⟨_, _, _, _, _, h⟩
  · have h := reach_applyPath [5, 2, 1, 4, 7, 8, 5, 4, 1, 2, 5, 8] 8
      ['1', '2', a2, a3, a4, a5, a6, '3', 'E'] rfl rfl (by decide)
    simp only [applyPath, swapAt, charAt, List.set_cons_zero, List.set_cons_succ,
      List.getD_cons_zero, List.getD_cons_succ] at h
    exact ⟨_, _, _, _, _, h⟩
  · exact absurd h (by decide)

/-- From a valid state with the blank last and the tiles 1..3 in place, a state with the
tiles 1..4 in place can be reached. -/
theorem reach_stage3 (a3 a4 a5 a6 a7 : Char)
    (hv : ValidState ['1', '2', '3', a3, a4, a5, a6, a7, 'E']) :
    ∃ b4 b5 b6 b7, Reach ['1', '2', '3', a3, a4, a5, a6, a7, 'E']
      ['1', '2', '3', '4', b4, b5, b6, b7, 'E'] := by
  have hmem : '4' ∈ ['1', '2', '3', a3, a4, a5, a6, a7, 'E'] :=
    List.Perm.subset (List.Perm.symm hv) (by decide)
  simp only [List.mem_cons, List.mem_singleton, List.not_mem_nil, or_false] at hmem
  rcases hmem with h | h | h | rfl | rfl | rfl | rfl | rfl | h
  · exact absurd h (by decide)
  · exact absurd h (by decide)
  · exact absurd h (by decide)
  · exact ⟨_, _, _, _, 0, Moves.zero _⟩
  · have h := reach_applyPath [7, 6, 3, 4, 5, 8] 8
      ['1', '2', '3', a3, '4', a5, a6, a7, 'E'] rfl rfl (by decide)
    simp only [applyPath, swapAt, charAt, List.set_cons_zero, List.set_cons_succ,
      List.getD_cons_zero, List.getD_cons_succ] at h
    exact ⟨_, _, _, _, h⟩
  · have h := reach_applyPath [7, 4, 5, 8, 7, 6, 3, 4, 5, 8] 8
      ['1', '2', '3', a3, a4, '4', a6, a7, 'E'] rfl rfl (by decide)
    simp only [applyPath, swapAt, charAt, List.set_cons_zero, List.set_cons_succ,
      List.getD_cons_zero, List.getD_cons_succ] at h
    exact ⟨_, _, _, _, h⟩
  · have h := reach_applyPath [5, 4, 3, 6, 7, 8] 8
      ['1', '2', '3', a3, a4, a5, '4', a7, 'E'] rfl rfl (by decide)
    simp only [applyPath, swapAt, charAt, List.set_cons_zero, List.set_cons_succ,
      List.getD_cons_zero, List.getD_cons_succ] at h
    exact ⟨_, _, _, _, h⟩
  · have h := reach_applyPath [5, 4, 7, 6, 3, 4, 5, 8] 8
      ['1', '2', '3', a3, a4, a5, a6, '4', 'E'] rfl rfl (by decide)
    simp only [applyPath, swapAt, charAt, List.set_cons_zero, List.set_cons_succ,
      List.getD_cons_zero, List.getD_cons_succ] at h
    exact ⟨_, _, _, _, h⟩
  · exact absurd h (by decide)

/-- From a valid state with the blank last and the tiles 1..4 in place, a state with the
tiles 1..5 in place can be reached. -/
theorem reach_stage4 (a4 a5 a6 a7 : Char)
    (hv : ValidState ['1', '2', '3', '4', a4, a5, a6, a7, 'E']) :
    ∃ b5 b6 b7, Reach ['1', '2', '3', '4', a4, a5, a6, a7, 'E']
      ['1', '2', '3', '4', '5', b5, b6, b7, 'E'] := by
  have hmem : '5' ∈ ['1', '2', '3', '4', a4, a5, a6, a7, 'E'] :=
    List.Perm.subset (List.Perm.symm hv) (by decide)
  simp only [List.mem_cons, List.mem_singleton, List.not_mem_nil, or_false] at hmem
  rcases hmem with h | h | h | h | rfl | rfl | rfl | rfl | h
  · exact absurd h (by decide)
  · exact absurd h (by decide)
  · exact absurd h (by decide)
  · exact absurd h (by decide)
  · exact ⟨_, _, _, 0, Moves.zero _⟩
  · have h := reach_applyPath [7, 4, 5, 8] 8
      ['1', '2', '3', '4', a4, '5', a6, a7, 'E'] rfl rfl (by decide)
    simp only [applyPath, swapAt, charAt, List.set_cons_zero, List.set_cons_succ,
      List.getD_cons_zero, List.getD_cons_succ] at h
    exact ⟨_, _, _, h⟩
  · have h := reach_applyPath [5, 2, 1, 0, 3, 6, 7, 4, 3, 0, 1, 2, 5, 8] 8
      ['1', '2', '3', '4', a4, a5, '5', a7, 'E'] rfl rfl (by decide)
    simp only [applyPath, swapAt, charAt, List.set_cons_zero, List.set_cons_succ,
      List.getD_cons_zero, List.getD_cons_succ] at h
    exact ⟨_, _, _, h⟩
  · have h := reach_applyPath [5, 4, 7, 8] 8
      ['1', '2', '3', '4', a4, a5, a6, '5', 'E'] rfl rfl (by decide)
    simp only [applyPath, swapAt, charAt, List.set_cons_zero, List.set_cons_succ,
      List.getD_cons_zero, List.getD_cons_succ] at h
    exact ⟨_, _, _, h⟩
  · exact absurd h (by decide)

/-- From a valid state with the blank last and the tiles 1..5 in place, a state with the
tiles 1..6 in place can be reached. -/
theorem reach_stage5 (a5 a6 a7 : Char)
    (hv : ValidState ['1', '2', '3', '4', '5', a5, a6, a7, 'E']) :
    ∃ b6 b7, Reach ['1', '2', '3', '4', '5', a5, a6, a7, 'E']
      ['1', '2', '3', '4', '5', '6', b6, b7, 'E'] := by
  have hmem : '6' ∈ ['1', '2', '3', '4', '5', a5, a6, a7, 'E'] :=
    List.Perm.subset (List.Perm.symm hv) (by decide)
  simp only [List.mem_cons, List.mem_singleton, List.not_mem_nil, or_false] at hmem
  rcases hmem with h | h | h | h | h | rfl | rfl | rfl | h
  · exact absurd h (by decide)
  · exact absurd h (by decide)
  · exact absurd h (by decide)
  · exact absurd h (by decide)
  · exact absurd h (by decide)
  · exact ⟨_, _, 0, Moves.zero _⟩
  · have h := reach_applyPath [7, 6, 3, 4, 7, 8, 5, 4, 3, 6, 7, 8] 8
      ['1', '2', '3', '4', '5', a5, '6', a7, 'E'] rfl rfl (by decide)
    simp only [applyPath, swapAt, charAt, List.set_cons_zero, List.set_cons_succ,
      List.getD_cons_zero, List.getD_cons_succ] at h
    exact ⟨_, _, h⟩
  · have h := reach_applyPath [7, 6, 3, 4, 5, 8, 7, 4, 3, 6, 7, 8] 8
      ['1', '2', '3', '4', '5', a5, a6, '6', 'E'] rfl rfl (by decide)
    simp only [applyPath, swapAt, charAt, List.set_cons_zero, List.set_cons_succ,
      List.getD_cons_zero, List.getD_cons_succ] at h
    exact ⟨_, _, h⟩
  · exact absurd h (by decide)

/-- Every valid state for which the solvability check returns true can be transformed
into the goal by legal moves. -/
theorem reach_goal_of_solvable (s : List Char) (hv : ValidState s)
    (hs : stateSolvable s = true) : Reach s GOALSTATE := by
  obtain ⟨a0, a1, a2, a3, a4, a5, a6, a7, r⟩ := reach_blank_last s hv
  obtain ⟨b1, b2, b3, b4, b5, b6, b7, r0⟩ := reach_stage0 _ _ _ _ _ _ _ _ (valid_of_reach r hv)
  have r := reach_trans r r0
  obtain ⟨c2, c3, c4, c5, c6, c7, r1⟩ := reach_stage1 _ _ _ _ _ _ _ (valid_of_reach r hv)
  have r := reach_trans r r1
  obtain ⟨d3, d4, d5, d6, d7, r2⟩ := reach_stage2 _ _ _ _ _ _ (valid_of_reach r hv)
  have r := reach_trans r r2
  obtain ⟨e4, e5, e6, e7, r3⟩ := reach_stage3 _ _ _ _ _ (valid_of_reach r hv)
  have r := reach_trans r r3
  obtain ⟨f5, f6, f7, r4⟩ := reach_stage4 _ _ _ _ (valid_of_reach r hv)
  have r := reach_trans r r4
  obtain ⟨x6, x7, r5⟩ := reach_stage5 _ _ _ (valid_of_reach r hv)
  have r := reach_trans r r5
  have hv' := valid_of_reach r hv
  obtain ⟨n, hn⟩ := r
  have hs' := stateSolvable_moves hn hv
  rw [hs] at hs'
  have h7 : '7' ∈ ['1', '2', '3', '4', '5', '6', x6, x7, 'E'] :=
    List.Perm.subset (List.Perm.symm hv') (by decide)
  have h8 : '8' ∈ ['1', '2', '3', '4', '5', '6', x6, x7, 'E'] :=
    List.Perm.subset (List.Perm.symm hv') (by decide)
  simp only [List.mem_cons, List.mem_singleton, List.not_mem_nil, or_false] at h7 h8
  rcases h7 with h | h | h | h | h | h | rfl | rfl | h <;>
    first
    | exact absurd h (by decide)
    | (rcases h8 with h | h | h | h | h | h | h | h | h <;>
        first
        | exact absurd h (by decide)
        | (subst h; first | exact ⟨n, hn⟩ | exact absurd hs' (by decide)))

/-- A search from a reset state whose start can reach the goal returns the goal state
with enough fuel and never ends with its container empty. -/
theorem search_finds_always {ds : Nat} {s0 : List Char} {g : Globals}
    (hds : ds = 1 ∨ ds = 2 ∨ ds = 3 ∨ ds = 4) (hv : ValidState s0)
    (hne : s0 ≠ GOALSTATE) (hreset : Reset g) (hreach : Reach s0 GOALSTATE) :
    Finds (search ds) s0 g := by
  refine ⟨fun fuel hfuel => search_finds hds hv hne hreset hreach fuel hfuel, ?_⟩
  intro fuel g' hex
  obtain ⟨g0, p, hinit, -⟩ := @searchInit_spec ds s0 g hds hv hreset
  have hs : ∀ f, search ds f s0 g = searchLoop ds f g0 := by
    intro f; simp only [search, hne, if_false, hinit]
  obtain ⟨g'', hfound, -⟩ :=
    search_finds hds hv hne hreset hreach (max fuel 725760) (le_max_right _ _)
  rw [hs] at hfound hex
  have := searchLoop_mono ds fuel (max fuel 725760) g0 _ hex (le_max_left _ _)
  rw [hfound] at this
  cases this

/-- C2: for every permutation of `"12345678E"` that differs from the goal and for which
the solvability check returns true, each of the four searches run from a reset state
returns the goal state `"12345678E"`; the frontier never becomes empty before a goal
node is examined. -/
theorem solvable_finds (s0 : List Char) (g : Globals) (hv : ValidState s0)
    (hne : s0 ≠ GOALSTATE) (hs : stateSolvable s0 = true) (hreset : Reset g) :
    Finds bfs s0 g ∧ Finds dfs s0 g ∧ Finds oopl s0 g ∧ Finds mhttn s0 g := by
  have hr := reach_goal_of_solvable s0 hv hs
  exact ⟨search_finds_always (Or.inl rfl) hv hne hreset hr,
    search_finds_always (Or.inr (Or.inl rfl)) hv hne hreset hr,
    search_finds_always (Or.inr (Or.inr (Or.inl rfl))) hv hne hreset hr,
    search_finds_always (Or.inr (Or.inr (Or.inr rfl))) hv hne hreset hr⟩

theorem solvable_finds_witness :
    ValidState ['1', '2', '3', '4', 'E', '6', '7', '5', '8'] ∧
    ['1', '2', '3', '4', 'E', '6', '7', '5', '8'] ≠ GOALSTATE ∧
    stateSolvable ['1', '2', '3', '4', 'E', '6', '7', '5', '8'] = true ∧
    Reset Globals.initial ∧
    Finds bfs ['1', '2', '3', '4', 'E', '6', '7', '5', '8'] Globals.initial ∧
    Finds dfs ['1', '2', '3', '4', 'E', '6', '7', '5', '8'] Globals.initial ∧
    Finds oopl ['1', '2', '3', '4', 'E', '6', '7', '5', '8'] Globals.initial ∧
    Finds mhttn ['1', '2', '3', '4', 'E', '6', '7', '5', '8'] Globals.initial :=
  ⟨by decide, by decide, by decide, by decide,
    solvable_finds _ _ (by decide) (by decide) (by decide) (by decide)⟩

/-! ## The Manhattan distance in the words of the specification -/

theorem tileDistance_eq (i : Nat) (c : Char) (hc : c ∈ GOALSTATE) :
    tileDistance i c = mdCell (i / 3) (i % 3) (digitOf c) := by
  by_cases h : c = 'E'
  · subst h
    simp [tileDistance, mdCell, digitOf]
  · have hd : digitOf c = label c := by simp [digitOf, label, h]
    have hz := digitOf_ne_zero c hc h
    rw [hd] at hz
    simp only [tileDistance, mdCell, hd, ne_eq, h, not_false_eq_true, if_true, hz]

theorem manhattanSpec_nine (a0 a1 a2 a3 a4 a5 a6 a7 a8 : Char) :
    manhattanSpec [a0, a1, a2, a3, a4, a5, a6, a7, a8] =
      tileDistance 0 a0 + (tileDistance 1 a1 + (tileDistance 2 a2 + (tileDistance 3 a3 +
        (tileDistance 4 a4 + (tileDistance 5 a5 + (tileDistance 6 a6 +
          (tileDistance 7 a7 + (tileDistance 8 a8 + 0)))))))) := rfl

/-- C11: for every valid state, the function `manhattanDistance` returns the sum, over
the eight non-blank tiles, of `|row - (L - 1) / 3| + |col - (L - 1) % 3|` for the tile's
label `L` and its current cell; the blank contributes nothing, wherever it stands. -/
theorem manhattanDistance_eq_spec (s : List Char) (h : ValidState s) :
    manhattanDistance s = manhattanSpec s := by
  obtain ⟨a0, a1, a2, a3, a4, a5, a6, a7, a8, rfl, hmem, -, -⟩ := valid_shape s h
  rw [manhattanDistance_nine _ _ _ _ _ _ _ _ _ hmem, manhattanSpec_nine,
    tileDistance_eq 0 a0 (hmem _ (by simp)), tileDistance_eq 1 a1 (hmem _ (by simp)),
    tileDistance_eq 2 a2 (hmem _ (by simp)), tileDistance_eq 3 a3 (hmem _ (by simp)),
    tileDistance_eq 4 a4 (hmem _ (by simp)), tileDistance_eq 5 a5 (hmem _ (by simp)),
    tileDistance_eq 6 a6 (hmem _ (by simp)), tileDistance_eq 7 a7 (hmem _ (by simp)),
    tileDistance_eq 8 a8 (hmem _ (by simp))]
  simp only [Nat.reduceDiv, Nat.reduceMod]
  omega

theorem manhattanDistance_eq_spec_witness :
    ValidState ['E', '1', '2', '3', '4', '5', '6', '7', '8'] ∧
    manhattanDistance ['E', '1', '2', '3', '4', '5', '6', '7', '8'] =
      manhattanSpec ['E', '1', '2', '3', '4', '5', '6', '7', '8'] :=
  ⟨by decide, manhattanDistance_eq_spec _ (by decide)⟩

/-! ## A search started from the goal state -/

/-- C12: each of the four searches, started from the goal state `"12345678E"`, returns
the error at once, whatever the fuel, and leaves the globals as they were: the counter,
the map and the four containers are unchanged and no node is generated. -/
theorem goal_start_is_error (fuel : Nat) (g : Globals) :
    bfs fuel GOALSTATE g = some (Result.error g) ∧
    dfs fuel GOALSTATE g = some (Result.error g) ∧
    oopl fuel GOALSTATE g = some (Result.error g) ∧
    mhttn fuel GOALSTATE g = some (Result.error g) := by
  simp [bfs, dfs, oopl, mhttn, search]

/-! ## The nodes that an expansion generates -/

theorem newNode_count (ds : Nat) (g : Globals) (t : List Char) (lbl : String) :
    (newNode ds g t lbl).count = g.counter + 1 := by
  unfold newNode; split <;> rfl

theorem newNode_path (ds : Nat) (hds : ds = 1 ∨ ds = 3 ∨ ds = 4) (g : Globals)
    (t : List Char) (lbl : String) :
    (newNode ds g t lbl).path = g.curr.path ++ [lbl] := by
  rcases hds with rfl | rfl | rfl <;> rfl

theorem newNode_cheapest_three (g : Globals) (t : List Char) (lbl : String) :
    (newNode 3 g t lbl).cheapest = (newNode 3 g t lbl).depth + misplacedTiles (newNode 3 g t lbl).state :=
  rfl

theorem newNode_cheapest_four (g : Globals) (t : List Char) (lbl : String) :
    (newNode 4 g t lbl).cheapest = (newNode 4 g t lbl).depth + manhattanDistance (newNode 4 g t lbl).state :=
  rfl

theorem pushAll_cons (ds : Nat) (n : Node) (new l : List Node) :
    pushAll ds (n :: new) l = pushAll ds new (pushList ds n l) := rfl

theorem mem_pushAll (ds : Nat) (m : Node) : ∀ (new l : List Node),
    m ∈ pushAll ds new l ↔ m ∈ new ∨ m ∈ l := by
  intro new
  induction new with
  | nil => intro l; simp [pushAll]
  | cons n new ih =>
    intro l
    rw [pushAll_cons, ih, mem_pushList, List.mem_cons]
    tauto

theorem pushAll_perm (ds : Nat) : ∀ (new l : List Node),
    (pushAll ds new l).Perm (new ++ l) := by
  intro new
  induction new with
  | nil => intro l; exact List.Perm.refl _
  | cons n new ih =>
    intro l
    rw [pushAll_cons]
    refine (ih _).trans ?_
    refine (List.Perm.append_left new (pushList_perm ds n l)).trans ?_
    exact List.perm_middle

theorem checkNodes_old (ds : Nat) (c : (Puzzle → Puzzle × List Char) × String)
    (cs : List ((Puzzle → Puzzle × List Char) × String)) (ws : List Char) (g : Globals)
    (h : (c.1 (populatePuzzle ws)).2 ∈ keys g) :
    checkNodes ds (c :: cs) ws g = checkNodes ds cs ws g := by
  have hc : checkMap (c.1 (populatePuzzle ws)).2 g = true := (checkMap_iff _ _).mpr h
  simp only [checkNodes, hc, if_true, List.nil_append, tryMove_old c.1 c.2 ws g h]

theorem checkNodes_new (ds : Nat) (c : (Puzzle → Puzzle × List Char) × String)
    (cs : List ((Puzzle → Puzzle × List Char) × String)) (ws : List Char) (g : Globals)
    (h : (c.1 (populatePuzzle ws)).2 ∉ keys g) :
    checkNodes ds (c :: cs) ws g =
      newNode ds g (c.1 (populatePuzzle ws)).2 c.2 ::
        checkNodes ds cs ws (tryMove c.1 c.2 ws g) := by
  have hc : checkMap (c.1 (populatePuzzle ws)).2 g = false := by
    rw [← Bool.not_eq_true, checkMap_iff]; exact h
  simp only [checkNodes, hc, Bool.false_eq_true, if_false, List.singleton_append]

/-- The checks of a swap pattern push exactly the nodes of `checkNodes`, insert their
states with their counts into the map and add their number to the counter; the node
`curr` stays. -/
theorem runChecks_nodes (ds : Nat) (hds : ds = 1 ∨ ds = 2 ∨ ds = 3 ∨ ds = 4)
    (ws : List Char) (cs : List ((Puzzle → Puzzle × List Char) × String)) :
    ∀ g : Globals, g.dataStructure = ds →
      frontier ds (runChecks cs ws g) = pushAll ds (checkNodes ds cs ws g) (frontier ds g) ∧
      (runChecks cs ws g).visited =
        g.visited ++ (checkNodes ds cs ws g).map (fun n => (n.state, n.count)) ∧
      (runChecks cs ws g).counter = g.counter + (checkNodes ds cs ws g).length ∧
      (runChecks cs ws g).curr = g.curr ∧
      (runChecks cs ws g).dataStructure = ds := by
  induction cs with
  | nil => intro g hg; exact ⟨rfl, by simp [runChecks, checkNodes], rfl, rfl, hg⟩
  | cons c cs ih =>
    intro g hg
    rw [runChecks_cons]
    by_cases h : (c.1 (populatePuzzle ws)).2 ∈ keys g
    · rw [checkNodes_old ds c cs ws g h, tryMove_old c.1 c.2 ws g h]
      exact ih g hg
    · obtain ⟨hf, hv, hc, hcu, hd⟩ := tryMove_new ds hds c.1 c.2 ws g hg h
      obtain ⟨h1, h2, h3, h4, h5⟩ := ih (tryMove c.1 c.2 ws g) hd
      rw [checkNodes_new ds c cs ws g h]
      refine ⟨?_, ?_, ?_, ?_, h5⟩
      · rw [h1, hf, pushAll_cons]
      · rw [h2, hv, List.map_cons, newNode_state, newNode_count, List.append_assoc,
          List.singleton_append]
      · rw [h3, hc, List.length_cons]; omega
      · rw [h4, hcu]

theorem keys_runChecks (ds : Nat) (hds : ds = 1 ∨ ds = 2 ∨ ds = 3 ∨ ds = 4)
    (ws : List Char) (cs : List ((Puzzle → Puzzle × List Char) × String))
    (g : Globals) (hg : g.dataStructure = ds) :
    keys (runChecks cs ws g) = keys g ++ (checkNodes ds cs ws g).map Node.state := by
  unfold keys
  rw [(runChecks_nodes ds hds ws cs g hg).2.1, List.map_append, List.map_map]
  rfl

/-- Every node that the checks generate is the node `newNode` of one of the checks, built
in globals with the node `curr` of the start of the checks, and its state was not in the
map. -/
theorem mem_checkNodes (ds : Nat) (hds : ds = 1 ∨ ds = 2 ∨ ds = 3 ∨ ds = 4)
    (ws : List Char) (nd : Node) (cs : List ((Puzzle → Puzzle × List Char) × String)) :
    ∀ g : Globals, g.dataStructure = ds → nd ∈ checkNodes ds cs ws g →
      ∃ c ∈ cs, ∃ g1 : Globals, g1.curr = g.curr ∧ g1.dataStructure = ds ∧
        (∀ v ∈ keys g, v ∈ keys g1) ∧ (c.1 (populatePuzzle ws)).2 ∉ keys g1 ∧
        nd = newNode ds g1 (c.1 (populatePuzzle ws)).2 c.2 := by
  induction cs with
  | nil => intro g _ h; simp [checkNodes] at h
  | cons c cs ih =>
    intro g hg h
    by_cases hk : (c.1 (populatePuzzle ws)).2 ∈ keys g
    · rw [checkNodes_old ds c cs ws g hk] at h
      obtain ⟨c', hc', g1, r1, r2, r3, r4, r5⟩ := ih g hg h
      exact ⟨c', List.mem_cons_of_mem _ hc', g1, r1, r2, r3, r4, r5⟩
    · rw [checkNodes_new ds c cs ws g hk, List.mem_cons] at h
      rcases h with h | h
      · exact ⟨c, List.mem_cons_self _ _, g, rfl, hg, fun v hv => hv, hk, h⟩
      · obtain ⟨-, -, -, hcu, hd⟩ := tryMove_new ds hds c.1 c.2 ws g hg hk
        obtain ⟨c', hc', g1, r1, r2, r3, r4, r5⟩ := ih _ hd h
        refine ⟨c', List.mem_cons_of_mem _ hc', g1, r1.trans hcu, r2, ?_, r4, r5⟩
        intro v hv
        apply r3
        rw [keys_tryMove ds hds c.1 c.2 ws g hg, if_neg hk]
        exact List.mem_append_left _ hv

/-- The counts of the nodes that the checks generate are the values of the counter
after each increment: `counter + 1`, `counter + 2`, and so on. -/
theorem checkNodes_counts (ds : Nat) (hds : ds = 1 ∨ ds = 2 ∨ ds = 3 ∨ ds = 4)
    (ws : List Char) (cs : List ((Puzzle → Puzzle × List Char) × String)) :
    ∀ g : Globals, g.dataStructure = ds →
      (checkNodes ds cs ws g).map Node.count =
        List.range' (g.counter + 1) (checkNodes ds cs ws g).length := by
  induction cs with
  | nil => intro g _; rfl
  | cons c cs ih =>
    intro g hg
    by_cases hk : (c.1 (populatePuzzle ws)).2 ∈ keys g
    · rw [checkNodes_old ds c cs ws g hk]
      exact ih g hg
    · obtain ⟨-, -, hc, -, hd⟩ := tryMove_new ds hds c.1 c.2 ws g hg hk
      rw [checkNodes_new ds c cs ws g hk, List.map_cons, List.length_cons, List.range'_succ,
        newNode_count, ih _ hd, hc]

theorem keys_nodup_runChecks (ds : Nat) (hds : ds = 1 ∨ ds = 2 ∨ ds = 3 ∨ ds = 4)
    (ws : List Char) (cs : List ((Puzzle → Puzzle × List Char) × String)) :
    ∀ g : Globals, g.dataStructure = ds → (keys g).Nodup → (keys (runChecks cs ws g)).Nodup := by
  induction cs with
  | nil => intro g _ h; exact h
  | cons c cs ih =>
    intro g hg hn
    rw [runChecks_cons]
    apply ih _ (dataStructure_tryMove ds hds c.1 c.2 ws g hg).1
    rw [keys_tryMove ds hds c.1 c.2 ws g hg]
    split
    · exact hn
    · rename_i hk
      rw [List.nodup_append]
      refine ⟨hn, List.nodup_singleton _, ?_⟩
      intro a ha hb
      rw [List.mem_singleton] at hb
      exact hk (hb ▸ ha)

/-! ## The nodes that the loop generates -/

theorem loopNodes_nil (ds fuel : Nat) (g : Globals) (h : frontier ds g = []) :
    loopNodes ds fuel g = [] := by
  cases fuel with
  | zero => rfl
  | succ fuel => simp only [loopNodes, h]

theorem loopNodes_goal (ds fuel : Nat) (g : Globals) (top : Node) (rest : List Node)
    (h : frontier ds g = top :: rest) (hgoal : checkGoal top.state = true) :
    loopNodes ds fuel g = [] := by
  cases fuel with
  | zero => rfl
  | succ fuel => simp only [loopNodes, h, hgoal, if_true]

theorem loopNodes_none (ds fuel : Nat) (g : Globals) (top : Node) (rest : List Node)
    (h : frontier ds g = top :: rest) (hp : findEmpty top.state = none) :
    loopNodes ds fuel g = [] := by
  cases fuel with
  | zero => rfl
  | succ fuel =>
    simp only [loopNodes, h, hp]
    split <;> rfl

theorem loopNodes_step (ds fuel : Nat) (g : Globals) (top : Node) (rest : List Node) (p : Nat)
    (h : frontier ds g = top :: rest) (hgoal : checkGoal top.state = false)
    (hp : findEmpty top.state = some p) :
    loopNodes ds (fuel + 1) g =
      expansionNodes ds p top.state (setFrontier ds rest { g with curr := top })
        ++ loopNodes ds fuel
          (searchPattern p top.state (setFrontier ds rest { g with curr := top })) := by
  simp only [loopNodes, h, hgoal, hp, Bool.false_eq_true, if_false]

theorem searchLoop_step (ds fuel : Nat) (g : Globals) (top : Node) (rest : List Node) (p : Nat)
    (h : frontier ds g = top :: rest) (hgoal : checkGoal top.state = false)
    (hp : findEmpty top.state = some p) :
    searchLoop ds (fuel + 1) g =
      searchLoop ds fuel
        (searchPattern p top.state (setFrontier ds rest { g with curr := top })) := by
  simp only [searchLoop, h, hgoal, hp, Bool.false_eq_true, if_false]

theorem searchLoop_goal (ds fuel : Nat) (g : Globals) (top : Node) (rest : List Node)
    (h : frontier ds g = top :: rest) (hgoal : checkGoal top.state = true) :
    searchLoop ds (fuel + 1) g = some (Result.found { g with curr := top } top.state) := by
  simp only [searchLoop, h, hgoal, if_true]

theorem searchLoop_nil (ds fuel : Nat) (g : Globals) (h : frontier ds g = []) :
    searchLoop ds (fuel + 1) g = some (Result.exhausted g) := by
  simp only [searchLoop, h]

theorem searchLoop_none (ds fuel : Nat) (g : Globals) (top : Node) (rest : List Node)
    (h : frontier ds g = top :: rest) (hgoal : checkGoal top.state = false)
    (hp : findEmpty top.state = none) :
    searchLoop ds (fuel + 1) g = some Result.undefined := by
  simp only [searchLoop, h, hgoal, hp, Bool.false_eq_true, if_false]

theorem loopHead_step (ds k : Nat) (g : Globals) (top : Node) (rest : List Node) (p : Nat)
    (h : frontier ds g = top :: rest) (hgoal : checkGoal top.state = false)
    (hp : findEmpty top.state = some p) :
    loopHead ds (k + 1) g =
      loopHead ds k
        (searchPattern p top.state (setFrontier ds rest { g with curr := top })) := by
  simp only [loopHead, h, hgoal, hp, Bool.false_eq_true, if_false]

/-- A later head of the loop exists only after an iteration that pops a node which is
not the goal and expands it. -/
theorem loopHead_succ_some (ds k : Nat) (g g1 : Globals) (h : loopHead ds (k + 1) g = some g1) :
    ∃ top rest p, frontier ds g = top :: rest ∧ checkGoal top.state = false ∧
      findEmpty top.state = some p := by
  cases hf : frontier ds g with
  | nil => simp only [loopHead, hf] at h; cases h
  | cons top rest =>
    cases hgoal : checkGoal top.state with
    | true => simp only [loopHead, hf, hgoal, if_true] at h; cases h
    | false =>
      cases hp : findEmpty top.state with
      | none => simp only [loopHead, hf, hgoal, hp, Bool.false_eq_true, if_false] at h; cases h
      | some p => exact ⟨top, rest, p, rfl, hgoal, hp⟩

theorem visited_setFrontier (ds : Nat) (l : List Node) (g : Globals) :
    (setFrontier ds l g).visited = g.visited := by
  unfold setFrontier; split <;> rfl

theorem counter_setFrontier (ds : Nat) (l : List Node) (g : Globals) :
    (setFrontier ds l g).counter = g.counter := by
  unfold setFrontier; split <;> rfl

/-- One iteration of the loop on a node that is not the goal: the popped node is `curr`
during the expansion, the container becomes the rest with the generated nodes pushed,
the map gains their states and the counter their number. -/
theorem expand_nodes (ds : Nat) (hds : ds = 1 ∨ ds = 2 ∨ ds = 3 ∨ ds = 4)
    (g : Globals) (top : Node) (rest : List Node) (p : Nat) (hg : g.dataStructure = ds) :
    (setFrontier ds rest { g with curr := top }).dataStructure = ds ∧
    (setFrontier ds rest { g with curr := top }).curr = top ∧
    (setFrontier ds rest { g with curr := top }).counter = g.counter ∧
    keys (setFrontier ds rest { g with curr := top }) = keys g ∧
    frontier ds (searchPattern p top.state (setFrontier ds rest { g with curr := top })) =
      pushAll ds (expansionNodes ds p top.state (setFrontier ds rest { g with curr := top }))
        rest ∧
    keys (searchPattern p top.state (setFrontier ds rest { g with curr := top })) =
      keys g ++ (expansionNodes ds p top.state
        (setFrontier ds rest { g with curr := top })).map Node.state ∧
    (searchPattern p top.state (setFrontier ds rest { g with curr := top })).counter =
      g.counter + (expansionNodes ds p top.state
        (setFrontier ds rest { g with curr := top })).length ∧
    (searchPattern p top.state (setFrontier ds rest { g with curr := top })).curr = top ∧
    (searchPattern p top.state (setFrontier ds rest { g with curr := top })).dataStructure
      = ds := by
  have h1 : (setFrontier ds rest { g with curr := top }).dataStructure = ds := by
    rw [dataStructure_setFrontier]; exact hg
  have h2 : (setFrontier ds rest { g with curr := top }).curr = top := by
    rw [curr_setFrontier]
  have h3 : (setFrontier ds rest { g with curr := top }).counter = g.counter := by
    rw [counter_setFrontier]
  have h4 : keys (setFrontier ds rest { g with curr := top }) = keys g := by
    rw [keys_setFrontier]; rfl
  obtain ⟨r1, -, r3, r4, r5⟩ := runChecks_nodes ds hds top.state (tileChecks p) _ h1
  have r2 := keys_runChecks ds hds top.state (tileChecks p) _ h1
  rw [searchPattern_eq]
  refine ⟨h1, h2, h3, h4, ?_, ?_, ?_, ?_, r5⟩
  · rw [r1, frontier_setFrontier ds hds]; rfl
  · rw [r2, h4]; rfl
  · rw [r3, h3]; rfl
  · rw [r4, h2]

/-- The loop, as far as it runs, generates nodes whose counts continue the counter. -/
theorem loopNodes_counts (ds : Nat) (hds : ds = 1 ∨ ds = 2 ∨ ds = 3 ∨ ds = 4) :
    ∀ (fuel : Nat) (g : Globals), g.dataStructure = ds →
      (loopNodes ds fuel g).map Node.count =
        List.range' (g.counter + 1) (loopNodes ds fuel g).length := by
  intro fuel
  induction fuel with
  | zero => intro g _; rfl
  | succ fuel ih =>
    intro g hg
    cases hf : frontier ds g with
    | nil => rw [loopNodes_nil ds _ g hf]; rfl
    | cons top rest =>
      cases hgoal : checkGoal top.state with
      | true => rw [loopNodes_goal ds _ g top rest hf hgoal]; rfl
      | false =>
        cases hp : findEmpty top.state with
        | none => rw [loopNodes_none ds _ g top rest hf hp]; rfl
        | some p =>
          obtain ⟨h1, -, h3, -, -, -, h7, -, h9⟩ := expand_nodes ds hds g top rest p hg
          have e1 := checkNodes_counts ds hds top.state (tileChecks p) _ h1
          have e2 := ih _ h9
          rw [h3] at e1
          rw [h7] at e2
          rw [loopNodes_step ds fuel g top rest p hf hgoal hp, List.map_append,
            List.length_append, e2]
          unfold expansionNodes
          rw [e1, Nat.add_comm _ (loopNodes _ _ _).length, ← List.range'_append_1,
            Nat.add_right_comm]

/-- The states that the loop generates are new: with the keys of the map they stay
pairwise distinct. -/
theorem loopNodes_states_nodup (ds : Nat) (hds : ds = 1 ∨ ds = 2 ∨ ds = 3 ∨ ds = 4) :
    ∀ (fuel : Nat) (g : Globals), g.dataStructure = ds → (keys g).Nodup →
      (keys g ++ (loopNodes ds fuel g).map Node.state).Nodup := by
  intro fuel
  induction fuel with
  | zero => intro g _ hn; simpa [loopNodes] using hn
  | succ fuel ih =>
    intro g hg hn
    cases hf : frontier ds g with
    | nil => rw [loopNodes_nil ds _ g hf]; simpa using hn
    | cons top rest =>
      cases hgoal : checkGoal top.state with
      | true => rw [loopNodes_goal ds _ g top rest hf hgoal]; simpa using hn
      | false =>
        cases hp : findEmpty top.state with
        | none => rw [loopNodes_none ds _ g top rest hf hp]; simpa using hn
        | some p =>
          obtain ⟨h1, -, -, h4, -, h6, -, -, h9⟩ := expand_nodes ds hds g top rest p hg
          have hn2 : (keys (searchPattern p top.state
              (setFrontier ds rest { g with curr := top }))).Nodup := by
            rw [searchPattern_eq]
            exact keys_nodup_runChecks ds hds top.state (tileChecks p) _ h1 (h4 ▸ hn)
          have := ih _ h9 hn2
          rw [h6, List.append_assoc] at this
          rw [loopNodes_step ds fuel g top rest p hf hgoal hp, List.map_append]
          exact this

/-- The node on which the loop ends with success entered the container before the loop
or was generated by it; the counter then is the initial counter plus the number of
generated nodes. -/
theorem searchLoop_found (ds : Nat) (hds : ds = 1 ∨ ds = 2 ∨ ds = 3 ∨ ds = 4) :
    ∀ (fuel : Nat) (g g' : Globals) (w : List Char), g.dataStructure = ds →
      searchLoop ds fuel g = some (Result.found g' w) →
      g'.curr ∈ frontier ds g ++ loopNodes ds fuel g ∧
      g'.counter = g.counter + (loopNodes ds fuel g).length ∧
      g'.curr.state = w ∧ checkGoal w = true := by
  intro fuel
  induction fuel with
  | zero => intro g g' w _ h; simp [searchLoop] at h
  | succ fuel ih =>
    intro g g' w hg h
    cases hf : frontier ds g with
    | nil => rw [searchLoop_nil ds _ g hf] at h; cases h
    | cons top rest =>
      cases hgoal : checkGoal top.state with
      | true =>
        rw [searchLoop_goal ds _ g top rest hf hgoal] at h
        rw [loopNodes_goal ds _ g top rest hf hgoal]
        simp only [Option.some.injEq, Result.found.injEq] at h
        obtain ⟨h1, h2⟩ := h
        subst h1 h2
        exact ⟨by simp, rfl, rfl, hgoal⟩
      | false =>
        cases hp : findEmpty top.state with
        | none => rw [searchLoop_none ds _ g top rest hf hgoal hp] at h; cases h
        | some p =>
          obtain ⟨-, -, -, -, h5, -, h7, -, h9⟩ := expand_nodes ds hds g top rest p hg
          rw [searchLoop_step ds fuel g top rest p hf hgoal hp] at h
          obtain ⟨r1, r2, r3, r4⟩ := ih _ g' w h9 h
          rw [loopNodes_step ds fuel g top rest p hf hgoal hp]
          refine ⟨?_, ?_, r3, r4⟩
          · rw [h5, List.mem_append, mem_pushAll] at r1
            simp only [List.mem_append, List.mem_cons]
            tauto
          · rw [r2, h7, List.length_append]; omega

/-- A property of nodes that passes from the node being expanded to the nodes that the
expansion generates holds for every node that the loop generates, when it holds for the
nodes in the container at the start. -/
theorem loopNodes_forall (ds : Nat) (hds : ds = 1 ∨ ds = 2 ∨ ds = 3 ∨ ds = 4)
    (P : Node → Prop)
    (hstep : ∀ (g : Globals) (p : Nat) (ws : List Char), g.dataStructure = ds → P g.curr →
      ∀ nd ∈ expansionNodes ds p ws g, P nd) :
    ∀ (fuel : Nat) (g : Globals), g.dataStructure = ds → (∀ n ∈ frontier ds g, P n) →
      ∀ n ∈ loopNodes ds fuel g, P n := by
  intro fuel
  induction fuel with
  | zero => intro g _ _ n hn; simp [loopNodes] at hn
  | succ fuel ih =>
    intro g hg hfr n hn
    cases hf : frontier ds g with
    | nil => rw [loopNodes_nil ds _ g hf] at hn; cases hn
    | cons top rest =>
      cases hgoal : checkGoal top.state with
      | true => rw [loopNodes_goal ds _ g top rest hf hgoal] at hn; cases hn
      | false =>
        cases hp : findEmpty top.state with
        | none => rw [loopNodes_none ds _ g top rest hf hp] at hn; cases hn
        | some p =>
          obtain ⟨h1, h2, -, -, h5, -, -, -, h9⟩ := expand_nodes ds hds g top rest p hg
          have htop : P top := hfr top (by rw [hf]; exact List.mem_cons_self _ _)
          have hnew := hstep _ p top.state h1 (h2.symm ▸ htop)
          rw [loopNodes_step ds fuel g top rest p hf hgoal hp, List.mem_append] at hn
          rcases hn with hn | hn
          · exact hnew n hn
          · refine ih _ h9 ?_ n hn
            intro m hm
            rw [h5, mem_pushAll] at hm
            rcases hm with hm | hm
            · exact hnew m hm
            · exact hfr m (by rw [hf]; exact List.mem_cons_of_mem _ hm)

/-- The heads of the loop are the globals that `searchLoop` passes: from a head that is
`k` iterations on, the loop goes on as from the start with `k` units of fuel less. -/
theorem searchLoop_loopHead (ds : Nat) : ∀ (k fuel : Nat) (g g1 : Globals),
    loopHead ds k g = some g1 → searchLoop ds (k + fuel) g = searchLoop ds fuel g1 := by
  intro k
  induction k with
  | zero =>
    intro fuel g g1 h
    simp only [loopHead, Option.some.injEq] at h
    rw [h, Nat.zero_add]
  | succ k ih =>
    intro fuel g g1 h
    obtain ⟨top, rest, p, hf, hgoal, hp⟩ := loopHead_succ_some ds k g g1 h
    rw [loopHead_step ds k g top rest p hf hgoal hp] at h
    rw [Nat.add_right_comm, searchLoop_step ds _ g top rest p hf hgoal hp]
    exact ih fuel _ g1 h

/-- A property of the globals that every iteration keeps holds at every head of the
loop. -/
theorem loopHead_induct (ds : Nat) (hds : ds = 1 ∨ ds = 2 ∨ ds = 3 ∨ ds = 4)
    (I : Globals → Prop)
    (hstep : ∀ (g : Globals) (top : Node) (rest : List Node) (p : Nat), g.dataStructure = ds →
      I g → frontier ds g = top :: rest →
      I (searchPattern p top.state (setFrontier ds rest { g with curr := top }))) :
    ∀ (k : Nat) (g g1 : Globals), g.dataStructure = ds → I g → loopHead ds k g = some g1 →
      I g1 ∧ g1.dataStructure = ds := by
  intro k
  induction k with
  | zero =>
    intro g g1 hg hi h
    simp only [loopHead, Option.some.injEq] at h
    subst h
    exact ⟨hi, hg⟩
  | succ k ih =>
    intro g g1 hg hi h
    obtain ⟨top, rest, p, hf, hgoal, hp⟩ := loopHead_succ_some ds k g g1 h
    rw [loopHead_step ds k g top rest p hf hgoal hp] at h
    exact ih _ g1 (expand_nodes ds hds g top rest p hg).2.2.2.2.2.2.2.2
      (hstep g top rest p hg hi hf) h

/-! ## The run of a search from a reset state -/

/-- What `searchInit` leaves, from a reset state: the map holds the start state with
count 1, and the container holds the root node only. -/
theorem searchInit_reset {ds : Nat} {s0 : List Char} {g g0 : Globals}
    (hds : ds = 1 ∨ ds = 2 ∨ ds = 3 ∨ ds = 4) (hreset : Reset g)
    (h : searchInit ds s0 g = some g0) :
    ∃ p, findEmpty s0 = some p ∧ g0.visited = [(s0, 1)] ∧
      frontier ds g0 = [{ point := p, state := s0, depth := 0, count := 1,
                          path := ["Start, "], cheapest := 0 }] ∧
      g0.dataStructure = ds ∧ g0.counter = 1 := by
  obtain ⟨hc, hvis, hq, hs, ha, hm⟩ := hreset
  cases hfind : findEmpty s0 with
  | none => simp only [searchInit, hfind] at h; cases h
  | some p =>
    simp only [searchInit, hfind, Option.some.injEq] at h
    subst h
    refine ⟨p, rfl, ?_⟩
    rcases hds with rfl | rfl | rfl | rfl <;>
      simp [frontier, pushFrontier, insertMap, hvis, hc, hq, hs, ha, hm, pqPush]

theorem insertMap_frame (ds : Nat) (s : List Char) (c : Nat) (g : Globals) :
    frontier ds (insertMap s c g) = frontier ds g ∧
      (insertMap s c g).dataStructure = g.dataStructure := by
  unfold insertMap
  split
  · exact ⟨rfl, rfl⟩
  · exact ⟨by unfold frontier; rfl, rfl⟩

theorem frontier_pushFrontier (ds : Nat) (hds : ds = 1 ∨ ds = 2 ∨ ds = 3 ∨ ds = 4)
    (e : Node) (g : Globals) :
    frontier ds (pushFrontier ds e g) = pushList ds e (frontier ds g) ∧
      (pushFrontier ds e g).dataStructure = g.dataStructure := by
  rcases hds with rfl | rfl | rfl | rfl <;> exact ⟨rfl, rfl⟩

/-- What `searchInit` does to the container, from any globals: one node is pushed. -/
theorem searchInit_push {ds : Nat} {s0 : List Char} {g g0 : Globals}
    (hds : ds = 1 ∨ ds = 2 ∨ ds = 3 ∨ ds = 4) (h : searchInit ds s0 g = some g0) :
    (∃ e, frontier ds g0 = pushList ds e (frontier ds g)) ∧ g0.dataStructure = ds := by
  cases hfind : findEmpty s0 with
  | none => simp only [searchInit, hfind] at h; cases h
  | some p =>
    simp only [searchInit, hfind, Option.some.injEq] at h
    subst h
    refine ⟨⟨⟨p, s0, 0, ["Start, "],
      (insertMap s0 g.counter { g with dataStructure := ds }).counter, 0⟩, ?_⟩, ?_⟩
    · rw [(frontier_pushFrontier ds hds _ _).1, (insertMap_frame ds _ _ _).1]
      rfl
    · rw [(frontier_pushFrontier ds hds _ _).2, (insertMap_frame ds _ _ _).2]

/-- A search that returns a state has entered its loop. -/
theorem search_found_init {ds fuel : Nat} {s0 w : List Char} {g g' : Globals}
    (h : search ds fuel s0 g = some (Result.found g' w)) :
    s0 ≠ GOALSTATE ∧ ∃ g0, searchInit ds s0 g = some g0 ∧
      searchLoop ds fuel g0 = some (Result.found g' w) := by
  unfold search at h
  by_cases hs : s0 = GOALSTATE
  · rw [if_pos hs] at h; cases h
  · rw [if_neg hs] at h
    refine ⟨hs, ?_⟩
    cases hi : searchInit ds s0 g with
    | none => rw [hi] at h; cases h
    | some g0 => rw [hi] at h; exact ⟨g0, rfl, h⟩

theorem searchNodes_eq {ds fuel : Nat} {s0 : List Char} {g g0 : Globals}
    (hs : s0 ≠ GOALSTATE) (hi : searchInit ds s0 g = some g0) :
    searchNodes ds fuel s0 g = frontier ds g0 ++ loopNodes ds fuel g0 := by
  simp only [searchNodes, if_neg hs, hi]

/-- From a reset state the counts of the nodes of a run, root first, are 1, 2, 3, and so
on. -/
theorem searchNodes_counts (ds : Nat) (hds : ds = 1 ∨ ds = 2 ∨ ds = 3 ∨ ds = 4)
    (s0 : List Char) (g : Globals) (hreset : Reset g) (fuel : Nat) :
    (searchNodes ds fuel s0 g).map Node.count =
      List.range' 1 (searchNodes ds fuel s0 g).length := by
  by_cases hs : s0 = GOALSTATE
  · simp [searchNodes, hs]
  cases hi : searchInit ds s0 g with
  | none => simp [searchNodes, hs, hi]
  | some g0 =>
    obtain ⟨p, -, -, hf, hd, hc⟩ := searchInit_reset hds hreset hi
    have h := loopNodes_counts ds hds fuel g0 hd
    rw [searchNodes_eq hs hi, hf, List.map_append, h, hc]
    rfl

/-- From a reset state the states of the nodes of a run are pairwise distinct. -/
theorem searchNodes_states_nodup (ds : Nat) (hds : ds = 1 ∨ ds = 2 ∨ ds = 3 ∨ ds = 4)
    (s0 : List Char) (g : Globals) (hreset : Reset g) (fuel : Nat) :
    ((searchNodes ds fuel s0 g).map Node.state).Nodup := by
  by_cases hs : s0 = GOALSTATE
  · simp [searchNodes, hs]
  cases hi : searchInit ds s0 g with
  | none => simp [searchNodes, hs, hi]
  | some g0 =>
    obtain ⟨p, -, hv, hf, hd, -⟩ := searchInit_reset hds hreset hi
    have hk : keys g0 = [s0] := by simp [keys, hv]
    have h := loopNodes_states_nodup ds hds fuel g0 hd (by rw [hk]; exact List.nodup_singleton _)
    rw [searchNodes_eq hs hi, hf, List.map_append]
    rw [hk] at h
    exact h

/-! ## No state is generated twice -/

/-- C13: during one run of a search from a reset state no state is generated twice: the
states of all nodes that enter the container, the root and the generated nodes, are
pairwise distinct, and a check whose swapped state is in the map pushes nothing and
changes nothing, whatever the depth at which the state is reached. -/
theorem no_state_generated_twice (ds : Nat) (hds : ds = 1 ∨ ds = 2 ∨ ds = 3 ∨ ds = 4)
    (s0 : List Char) (g : Globals) (hreset : Reset g) (fuel : Nat) :
    ((searchNodes ds fuel s0 g).map Node.state).Nodup ∧
    ∀ (g1 : Globals) (sw : Puzzle → Puzzle × List Char) (lbl : String) (ws : List Char),
      (sw (populatePuzzle ws)).2 ∈ keys g1 → tryMove sw lbl ws g1 = g1 :=
  ⟨searchNodes_states_nodup ds hds s0 g hreset fuel,
    fun g1 sw lbl ws h => tryMove_old sw lbl ws g1 h⟩

theorem no_state_generated_twice_witness :
    Reset Globals.initial ∧
    ((searchNodes 1 4 ['1', '2', '3', '4', '5', '6', 'E', '7', '8']
        Globals.initial).map Node.state).Nodup ∧
    ∀ (g1 : Globals) (sw : Puzzle → Puzzle × List Char) (lbl : String) (ws : List Char),
      (sw (populatePuzzle ws)).2 ∈ keys g1 → tryMove sw lbl ws g1 = g1 :=
  ⟨by decide, no_state_generated_twice 1 (Or.inl rfl) _ Globals.initial (by decide) 4⟩

/-! ## The paths of the generated nodes -/

/-- Under `bfs`, `oopl` and `mhttn` every node that an expansion generates carries the
path of the node being expanded followed by the entry of its move. -/
theorem expansion_paths (ds : Nat) (hds : ds = 1 ∨ ds = 3 ∨ ds = 4) (g : Globals)
    (hg : g.dataStructure = ds) (p : Nat) (ws : List Char) :
    ∀ nd ∈ expansionNodes ds p ws g, ∃ c ∈ tileChecks p,
      nd.state = (c.1 (populatePuzzle ws)).2 ∧ nd.path = g.curr.path ++ [c.2] ∧
      nd.depth = g.curr.depth + 1 := by
  have hds4 : ds = 1 ∨ ds = 2 ∨ ds = 3 ∨ ds = 4 := by
    rcases hds with h | h | h <;> simp [h]
  intro nd hnd
  obtain ⟨c, hc, g1, hcurr, -, -, -, rfl⟩ := mem_checkNodes ds hds4 ws nd (tileChecks p) g hg hnd
  exact ⟨c, hc, newNode_state _ _ _ _, by rw [newNode_path ds hds, hcurr],
    by rw [newNode_depth, hcurr]⟩

/-- C14, at the failing input: `dfs` from `"1234567E8"` in the state of program start
expands the root, whose path is `["Start, "]`, and the three nodes it pushes on the stack
carry the empty path, not the path of the root followed by the entry of a move. -/
theorem dfs_generated_paths_empty :
    ∃ g0 g1, searchInit 2 ['1', '2', '3', '4', '5', '6', '7', 'E', '8'] Globals.initial = some g0 ∧
      loopHead 2 1 g0 = some g1 ∧ g1.curr.path = ["Start, "] ∧
      g1.dfsStack.map Node.state =
        [['1', '2', '3', '4', 'E', '6', '7', '5', '8'],
         ['1', '2', '3', '4', '5', '6', 'E', '7', '8'],
         ['1', '2', '3', '4', '5', '6', '7', '8', 'E']] ∧
      g1.dfsStack.map Node.path = [[], [], []] :=
  ⟨_, _, rfl, rfl, rfl, rfl, rfl⟩

/-- C15, as stated, fails: `bfs` from `"1234567E8"` in the state of program start returns
the goal on a node of depth 1 whose path has the two entries `"Start, "` and
`"8 to 9,"`. -/
theorem bfs_path_longer_than_depth :
    ∃ g', bfs 2 ['1', '2', '3', '4', '5', '6', '7', 'E', '8'] Globals.initial
        = some (Result.found g' GOALSTATE) ∧
      g'.curr.depth = 1 ∧ g'.curr.path = ["Start, ", "8 to 9,"] ∧
      g'.curr.path.length ≠ g'.curr.depth :=
  ⟨_, rfl, rfl, rfl, by decide⟩

/-- C15, amended: under `bfs`, `oopl` and `mhttn`, run from a reset state, the path of
every node that enters the container, root included, has one entry more than its depth
(the first entry is `"Start, "`); so has the node on which the search succeeds. -/
theorem path_length_is_depth_succ (ds : Nat) (hds : ds = 1 ∨ ds = 3 ∨ ds = 4)
    (s0 : List Char) (g : Globals) (hreset : Reset g) (fuel : Nat) :
    (∀ n ∈ searchNodes ds fuel s0 g, n.path.length = n.depth + 1) ∧
    (∀ g' w, search ds fuel s0 g = some (Result.found g' w) →
      g'.curr.path.length = g'.curr.depth + 1) := by
  have hds4 : ds = 1 ∨ ds = 2 ∨ ds = 3 ∨ ds = 4 := by
    rcases hds with h | h | h <;> simp [h]
  have hstep : ∀ (g : Globals) (p : Nat) (ws : List Char), g.dataStructure = ds →
      g.curr.path.length = g.curr.depth + 1 →
      ∀ nd ∈ expansionNodes ds p ws g, nd.path.length = nd.depth + 1 := by
    intro g1 p ws hg1 hcur nd hnd
    obtain ⟨c, -, -, hp, hd⟩ := expansion_paths ds hds g1 hg1 p ws nd hnd
    rw [hp, hd, List.length_append, hcur]
    rfl
  have hall : ∀ n ∈ searchNodes ds fuel s0 g, n.path.length = n.depth + 1 := by
    intro n hn
    by_cases hs : s0 = GOALSTATE
    · simp [searchNodes, hs] at hn
    cases hi : searchInit ds s0 g with
    | none => simp [searchNodes, hs, hi] at hn
    | some g0 =>
      obtain ⟨p, -, -, hf, hd, -⟩ := searchInit_reset hds4 hreset hi
      have hroot : ∀ m ∈ frontier ds g0, m.path.length = m.depth + 1 := by
        intro m hm
        rw [hf, List.mem_singleton] at hm
        rw [hm]; rfl
      rw [searchNodes_eq hs hi, List.mem_append] at hn
      rcases hn with hn | hn
      · exact hroot n hn
      · exact loopNodes_forall ds hds4 _ hstep fuel g0 hd hroot n hn
  refine ⟨hall, ?_⟩
  intro g' w h
  obtain ⟨hs, g0, hi, hl⟩ := search_found_init h
  obtain ⟨-, -, -, -, hd, -⟩ := searchInit_reset hds4 hreset hi
  apply hall
  rw [searchNodes_eq hs hi]
  exact (searchLoop_found ds hds4 fuel g0 g' w hd hl).1

theorem path_length_is_depth_succ_witness :
    Reset Globals.initial ∧
    (∀ n ∈ searchNodes 1 2 ['1', '2', '3', '4', '5', '6', '7', 'E', '8'] Globals.initial,
      n.path.length = n.depth + 1) ∧
    (∀ g' w, search 1 2 ['1', '2', '3', '4', '5', '6', '7', 'E', '8'] Globals.initial
        = some (Result.found g' w) → g'.curr.path.length = g'.curr.depth + 1) :=
  ⟨by decide, path_length_is_depth_succ 1 (Or.inl rfl) _ Globals.initial (by decide) 2⟩

/-! ## The node count that is reported -/

/-- C16, as stated, fails: `bfs` from `"1234567E8"` in the state of program start returns
the goal on a node of count 2 while the counter has reached 4. -/
theorem bfs_count_below_counter :
    ∃ g', bfs 2 ['1', '2', '3', '4', '5', '6', '7', 'E', '8'] Globals.initial
        = some (Result.found g' GOALSTATE) ∧
      g'.curr.count = 2 ∧ g'.counter = 4 :=
  ⟨_, rfl, rfl, rfl⟩

/-- C16, amended: when a search from a reset state succeeds, the count of the goal node
left in `curr` is the position of that node in the order of generation, the root being
the first; it is at most the final value of the counter, which is the number of all
nodes generated. -/
theorem reported_count_is_generation_index (ds : Nat)
    (hds : ds = 1 ∨ ds = 2 ∨ ds = 3 ∨ ds = 4) (s0 : List Char) (g : Globals)
    (hreset : Reset g) (fuel : Nat) (g' : Globals) (w : List Char)
    (h : search ds fuel s0 g = some (Result.found g' w)) :
    (searchNodes ds fuel s0 g).length = g'.counter ∧
    (searchNodes ds fuel s0 g)[g'.curr.count - 1]? = some g'.curr ∧
    1 ≤ g'.curr.count ∧ g'.curr.count ≤ g'.counter := by
  obtain ⟨hs, g0, hi, hl⟩ := search_found_init h
  obtain ⟨p, -, -, hf, hd, hc⟩ := searchInit_reset hds hreset hi
  obtain ⟨hmem, hcnt, -, -⟩ := searchLoop_found ds hds fuel g0 g' w hd hl
  have hcounts := searchNodes_counts ds hds s0 g hreset fuel
  have hlen : (searchNodes ds fuel s0 g).length = g'.counter := by
    rw [searchNodes_eq hs hi, hf, List.length_append, hcnt, hc]
    simp only [List.length_singleton]
  rw [← searchNodes_eq hs hi] at hmem
  obtain ⟨i, hi1, hi2⟩ := List.getElem_of_mem hmem
  have hci : g'.curr.count = 1 + i := by
    have h1 : ((searchNodes ds fuel s0 g).map Node.count)[i]? = some g'.curr.count := by
      rw [List.getElem?_map, List.getElem?_eq_getElem hi1, hi2]
      rfl
    rw [hcounts, List.getElem?_range' _ _ hi1] at h1
    simp only [Option.some.injEq] at h1
    omega
  refine ⟨hlen, ?_, by omega, by omega⟩
  rw [hci, Nat.add_sub_cancel_left, List.getElem?_eq_getElem hi1, hi2]

theorem reported_count_is_generation_index_witness :
    Reset Globals.initial ∧
    ∃ g', search 1 2 ['1', '2', '3', '4', '5', '6', '7', 'E', '8'] Globals.initial
        = some (Result.found g' GOALSTATE) ∧
      (searchNodes 1 2 ['1', '2', '3', '4', '5', '6', '7', 'E', '8'] Globals.initial).length
        = g'.counter ∧
      (searchNodes 1 2 ['1', '2', '3', '4', '5', '6', '7', 'E', '8']
        Globals.initial)[g'.curr.count - 1]? = some g'.curr ∧
      1 ≤ g'.curr.count ∧ g'.curr.count ≤ g'.counter :=
  ⟨by decide, _, rfl,
    reported_count_is_generation_index 1 (Or.inl rfl) _ Globals.initial (by decide) 2 _ _
      rfl⟩

/-! ## Depth, count and score of the generated nodes -/

/-- The expansion of a state pushes exactly the nodes of `expansionNodes`. -/
theorem expansion_pushes (ds : Nat) (hds : ds = 1 ∨ ds = 2 ∨ ds = 3 ∨ ds = 4) (g : Globals)
    (hg : g.dataStructure = ds) (p : Nat) (ws : List Char) :
    frontier ds (searchPattern p ws g) = pushAll ds (expansionNodes ds p ws g) (frontier ds g) ∧
    (searchPattern p ws g).counter = g.counter + (expansionNodes ds p ws g).length := by
  rw [searchPattern_eq]
  obtain ⟨h1, -, h3, -, -⟩ := runChecks_nodes ds hds ws (tileChecks p) g hg
  exact ⟨h1, h3⟩

/-- C17: under each of the four strategies, an expansion pushes nodes whose depth is the
depth of the node being expanded (`curr`) plus 1 and whose counts are the values of the
counter after each increment, the value before plus 1; from a reset state the counts of
the nodes of a run, in the order of generation, are 1 for the root, then 2, 3 and so on,
hence strictly increasing and pairwise distinct. -/
theorem generated_depth_and_count (ds : Nat) (hds : ds = 1 ∨ ds = 2 ∨ ds = 3 ∨ ds = 4)
    (g : Globals) (hg : g.dataStructure = ds) (p : Nat) (ws : List Char)
    (s0 : List Char) (gr : Globals) (hreset : Reset gr) (fuel : Nat) :
    (frontier ds (searchPattern p ws g) =
        pushAll ds (expansionNodes ds p ws g) (frontier ds g) ∧
      (∀ nd ∈ expansionNodes ds p ws g, nd.depth = g.curr.depth + 1) ∧
      (expansionNodes ds p ws g).map Node.count =
        List.range' (g.counter + 1) (expansionNodes ds p ws g).length ∧
      (searchPattern p ws g).counter = g.counter + (expansionNodes ds p ws g).length) ∧
    ((searchNodes ds fuel s0 gr).map Node.count =
        List.range' 1 (searchNodes ds fuel s0 gr).length ∧
      ((searchNodes ds fuel s0 gr).map Node.count).Pairwise (fun a b => a < b)) := by
  obtain ⟨h1, h2⟩ := expansion_pushes ds hds g hg p ws
  have hc := searchNodes_counts ds hds s0 gr hreset fuel
  refine ⟨⟨h1, ?_, checkNodes_counts ds hds ws (tileChecks p) g hg, h2⟩, hc, ?_⟩
  · intro nd hnd
    obtain ⟨c, -, g1, hcurr, -, -, -, rfl⟩ := mem_checkNodes ds hds ws nd (tileChecks p) g hg hnd
    rw [newNode_depth, hcurr]
  · rw [hc]
    exact List.pairwise_lt_range' _ _

theorem generated_depth_and_count_witness :
    ({ Globals.initial with dataStructure := 2 } : Globals).dataStructure = 2 ∧
    Reset Globals.initial ∧
    (frontier 2 (searchPattern 8 ['1', '2', '3', '4', '5', '6', '7', 'E', '8']
          { Globals.initial with dataStructure := 2 }) =
        pushAll 2 (expansionNodes 2 8 ['1', '2', '3', '4', '5', '6', '7', 'E', '8']
          { Globals.initial with dataStructure := 2 })
          (frontier 2 { Globals.initial with dataStructure := 2 }) ∧
      (∀ nd ∈ expansionNodes 2 8 ['1', '2', '3', '4', '5', '6', '7', 'E', '8']
          { Globals.initial with dataStructure := 2 },
        nd.depth = ({ Globals.initial with dataStructure := 2 } : Globals).curr.depth + 1) ∧
      (expansionNodes 2 8 ['1', '2', '3', '4', '5', '6', '7', 'E', '8']
          { Globals.initial with dataStructure := 2 }).map Node.count =
        List.range' (({ Globals.initial with dataStructure := 2 } : Globals).counter + 1)
          (expansionNodes 2 8 ['1', '2', '3', '4', '5', '6', '7', 'E', '8']
            { Globals.initial with dataStructure := 2 }).length ∧
      (searchPattern 8 ['1', '2', '3', '4', '5', '6', '7', 'E', '8']
          { Globals.initial with dataStructure := 2 }).counter =
        ({ Globals.initial with dataStructure := 2 } : Globals).counter +
          (expansionNodes 2 8 ['1', '2', '3', '4', '5', '6', '7', 'E', '8']
            { Globals.initial with dataStructure := 2 }).length) ∧
    ((searchNodes 2 3 ['1', '2', '3', '4', '5', '6', '7', 'E', '8'] Globals.initial).map
          Node.count =
        List.range' 1
          (searchNodes 2 3 ['1', '2', '3', '4', '5', '6', '7', 'E', '8']
            Globals.initial).length ∧
      ((searchNodes 2 3 ['1', '2', '3', '4', '5', '6', '7', 'E', '8'] Globals.initial).map
          Node.count).Pairwise (fun a b => a < b)) :=
  ⟨rfl, by decide,
    generated_depth_and_count 2 (Or.inr (Or.inl rfl)) _ rfl 8 _ _ Globals.initial (by decide) 3⟩

/-- C18: under `oopl` an expansion pushes nodes whose `cheapest` is their depth plus
`misplacedTiles` of their state, and under `mhttn` nodes whose `cheapest` is their depth
plus `manhattanDistance` of their state. -/
theorem generated_score (g3 g4 : Globals) (h3 : g3.dataStructure = 3)
    (h4 : g4.dataStructure = 4) (p : Nat) (ws : List Char) :
    (frontier 3 (searchPattern p ws g3) =
        pushAll 3 (expansionNodes 3 p ws g3) (frontier 3 g3) ∧
      ∀ nd ∈ expansionNodes 3 p ws g3, nd.cheapest = nd.depth + misplacedTiles nd.state) ∧
    (frontier 4 (searchPattern p ws g4) =
        pushAll 4 (expansionNodes 4 p ws g4) (frontier 4 g4) ∧
      ∀ nd ∈ expansionNodes 4 p ws g4, nd.cheapest = nd.depth + manhattanDistance nd.state) := by
  refine ⟨⟨(expansion_pushes 3 (by simp) g3 h3 p ws).1, ?_⟩,
    ⟨(expansion_pushes 4 (by simp) g4 h4 p ws).1, ?_⟩⟩
  · intro nd hnd
    obtain ⟨c, -, g1, -, -, -, -, rfl⟩ :=
      mem_checkNodes 3 (by simp) ws nd (tileChecks p) g3 h3 hnd
    exact newNode_cheapest_three _ _ _
  · intro nd hnd
    obtain ⟨c, -, g1, -, -, -, -, rfl⟩ :=
      mem_checkNodes 4 (by simp) ws nd (tileChecks p) g4 h4 hnd
    exact newNode_cheapest_four _ _ _

theorem generated_score_witness :
    ({ Globals.initial with dataStructure := 3 } : Globals).dataStructure = 3 ∧
    ({ Globals.initial with dataStructure := 4 } : Globals).dataStructure = 4 ∧
    (frontier 3 (searchPattern 1 ['E', '1', '2', '3', '4', '5', '6', '7', '8']
          { Globals.initial with dataStructure := 3 }) =
        pushAll 3 (expansionNodes 3 1 ['E', '1', '2', '3', '4', '5', '6', '7', '8']
          { Globals.initial with dataStructure := 3 })
          (frontier 3 { Globals.initial with dataStructure := 3 }) ∧
      ∀ nd ∈ expansionNodes 3 1 ['E', '1', '2', '3', '4', '5', '6', '7', '8']
          { Globals.initial with dataStructure := 3 },
        nd.cheapest = nd.depth + misplacedTiles nd.state) ∧
    (frontier 4 (searchPattern 1 ['E', '1', '2', '3', '4', '5', '6', '7', '8']
          { Globals.initial with dataStructure := 4 }) =
        pushAll 4 (expansionNodes 4 1 ['E', '1', '2', '3', '4', '5', '6', '7', '8']
          { Globals.initial with dataStructure := 4 })
          (frontier 4 { Globals.initial with dataStructure := 4 }) ∧
      ∀ nd ∈ expansionNodes 4 1 ['E', '1', '2', '3', '4', '5', '6', '7', '8']
          { Globals.initial with dataStructure := 4 },
        nd.cheapest = nd.depth + manhattanDistance nd.state) :=
  ⟨rfl, rfl, generated_score _ _ rfl rfl 1 _⟩

/-! ## The priority queues -/

theorem mem_pqPush (n m : Node) (l : List Node) : m ∈ pqPush n l ↔ m = n ∨ m ∈ l :=
  mem_pushList 3 n m l

/-- A push keeps the queue ordered by `cheapest`. -/
theorem pqPush_sorted (n : Node) : ∀ l : List Node,
    l.Pairwise (fun a b => a.cheapest ≤ b.cheapest) →
    (pqPush n l).Pairwise (fun a b => a.cheapest ≤ b.cheapest) := by
  intro l
  induction l with
  | nil => intro _; exact List.pairwise_singleton _ _
  | cons m rest ih =>
    intro h
    rw [List.pairwise_cons] at h
    unfold pqPush
    by_cases hc : compare m n = true
    · rw [if_pos hc]
      have hlt : n.cheapest < m.cheapest := by
        simpa [compare] using hc
      rw [List.pairwise_cons]
      refine ⟨?_, List.pairwise_cons.mpr h⟩
      intro a ha
      rcases List.mem_cons.mp ha with ha | ha
      · rw [ha]; exact Nat.le_of_lt hlt
      · exact Nat.le_trans (Nat.le_of_lt hlt) (h.1 a ha)
    · rw [if_neg hc]
      have hle : m.cheapest ≤ n.cheapest := by
        simpa [compare] using hc
      rw [List.pairwise_cons]
      refine ⟨?_, ih h.2⟩
      intro a ha
      rcases (mem_pqPush n a rest).mp ha with ha | ha
      · rw [ha]; exact hle
      · exact h.1 a ha

theorem pushAll_sorted (ds : Nat) (hds : ds = 3 ∨ ds = 4) : ∀ (new l : List Node),
    l.Pairwise (fun a b => a.cheapest ≤ b.cheapest) →
    (pushAll ds new l).Pairwise (fun a b => a.cheapest ≤ b.cheapest) := by
  intro new
  induction new with
  | nil => intro l h; exact h
  | cons n new ih =>
    intro l h
    rw [pushAll_cons]
    apply ih
    rcases hds with rfl | rfl <;> exact pqPush_sorted n l h

/-- C19: under `oopl` and `mhttn`, started with an ordered queue (an empty one, from a
reset state), the node on top of the queue at the head of every iteration of the loop,
which is the node that the iteration examines, has a `cheapest` that is at most the
`cheapest` of every other node in the queue. -/
theorem priority_top_is_minimal (ds : Nat) (hds : ds = 3 ∨ ds = 4) (s0 : List Char)
    (hne : s0 ≠ GOALSTATE) (g g0 g1 : Globals)
    (hq : (frontier ds g).Pairwise (fun a b => a.cheapest ≤ b.cheapest))
    (hi : searchInit ds s0 g = some g0) (k : Nat) (hk : loopHead ds k g0 = some g1)
    (top : Node) (rest : List Node) (hf : frontier ds g1 = top :: rest) :
    (∀ fuel, search ds (k + fuel) s0 g = searchLoop ds fuel g1) ∧
    ∀ n ∈ rest, top.cheapest ≤ n.cheapest := by
  have hds4 : ds = 1 ∨ ds = 2 ∨ ds = 3 ∨ ds = 4 := by
    rcases hds with h | h <;> simp [h]
  constructor
  · intro fuel
    unfold search
    rw [if_neg hne, hi]
    exact searchLoop_loopHead ds k fuel g0 g1 hk
  · obtain ⟨⟨e, he⟩, hd⟩ := searchInit_push hds4 hi
    have h0 : (frontier ds g0).Pairwise (fun a b => a.cheapest ≤ b.cheapest) := by
      rw [he]
      rcases hds with rfl | rfl <;> exact pqPush_sorted e _ hq
    have hs := (loopHead_induct ds hds4
      (fun x => (frontier ds x).Pairwise (fun a b => a.cheapest ≤ b.cheapest))
      (by
        intro x t r p hx hsx hfx
        rw [(expand_nodes ds hds4 x t r p hx).2.2.2.2.1]
        apply pushAll_sorted ds hds
        rw [hfx] at hsx
        exact (List.pairwise_cons.mp hsx).2)
      k g0 g1 hd h0 hk).1
    rw [hf] at hs
    exact (List.pairwise_cons.mp hs).1

theorem priority_top_is_minimal_witness :
    ['1', '2', '3', '4', '5', '6', '7', 'E', '8'] ≠ GOALSTATE ∧
    (frontier 3 Globals.initial).Pairwise (fun a b => a.cheapest ≤ b.cheapest) ∧
    ∃ g0 g1 top rest,
      searchInit 3 ['1', '2', '3', '4', '5', '6', '7', 'E', '8'] Globals.initial = some g0 ∧
      loopHead 3 1 g0 = some g1 ∧ frontier 3 g1 = top :: rest ∧ top.state = GOALSTATE ∧
      (∀ fuel, search 3 (1 + fuel) ['1', '2', '3', '4', '5', '6', '7', 'E', '8']
        Globals.initial = searchLoop 3 fuel g1) ∧
      ∀ n ∈ rest, top.cheapest ≤ n.cheapest :=
  ⟨by decide, List.Pairwise.nil, _, _, _, _, rfl, rfl, rfl, rfl,
    priority_top_is_minimal 3 (Or.inl rfl) ['1', '2', '3', '4', '5', '6', '7', 'E', '8']
      (by decide) Globals.initial _ _ List.Pairwise.nil rfl 1 rfl _ _ rfl⟩

/-! ## The state before the first iteration -/

/-- C20: for every valid start state other than the goal and each of the four
strategies, run from a reset state, the search enters its loop with the start state as
the only key of the map and with one node in the container: its state is the start, its
depth 0, its count 1 and, under `oopl` and `mhttn`, its `cheapest` 0. -/
theorem seeded_before_loop (ds : Nat) (hds : ds = 1 ∨ ds = 2 ∨ ds = 3 ∨ ds = 4)
    (s0 : List Char) (hv : ValidState s0) (hne : s0 ≠ GOALSTATE) (g : Globals)
    (hreset : Reset g) :
    ∃ g0 e, searchInit ds s0 g = some g0 ∧
      (∀ fuel, search ds fuel s0 g = searchLoop ds fuel g0) ∧
      g0.visited = [(s0, 1)] ∧ frontier ds g0 = [e] ∧
      e.state = s0 ∧ e.depth = 0 ∧ e.count = 1 ∧ (ds = 3 ∨ ds = 4 → e.cheapest = 0) := by
  obtain ⟨g0, p, hi, -, -, hf, -, -, hvis⟩ := @searchInit_spec ds s0 g hds hv hreset
  refine ⟨g0, _, hi, ?_, hvis, hf, rfl, rfl, rfl, fun _ => rfl⟩
  intro fuel
  unfold search
  rw [if_neg hne, hi]

theorem seeded_before_loop_witness :
    ValidState ['1', '2', '3', '4', '5', '6', '7', 'E', '8'] ∧
    ['1', '2', '3', '4', '5', '6', '7', 'E', '8'] ≠ GOALSTATE ∧
    Reset Globals.initial ∧
    ∃ g0 e, searchInit 4 ['1', '2', '3', '4', '5', '6', '7', 'E', '8'] Globals.initial
        = some g0 ∧
      (∀ fuel, search 4 fuel ['1', '2', '3', '4', '5', '6', '7', 'E', '8'] Globals.initial
        = searchLoop 4 fuel g0) ∧
      g0.visited = [(['1', '2', '3', '4', '5', '6', '7', 'E', '8'], 1)] ∧
      frontier 4 g0 = [e] ∧
      e.state = ['1', '2', '3', '4', '5', '6', '7', 'E', '8'] ∧ e.depth = 0 ∧ e.count = 1 ∧
      (4 = 3 ∨ 4 = 4 → e.cheapest = 0) :=
  ⟨by decide, by decide, by decide,
    seeded_before_loop 4 (Or.inr (Or.inr (Or.inr rfl))) _ (by decide) (by decide)
      Globals.initial (by decide)⟩

/-! ## The heads of the loop and the result of the search -/

theorem checkGoal_iff (s : List Char) : checkGoal s = true ↔ s = GOALSTATE := by
  unfold checkGoal
  split <;> simp_all

theorem checkGoal_false_iff (s : List Char) : checkGoal s = false ↔ s ≠ GOALSTATE := by
  rw [← Bool.not_eq_true, checkGoal_iff]

/-- A search that returns a state does so at a head of the loop whose top node is the
goal; the node is left in `curr`. -/
theorem searchLoop_found_head (ds : Nat) : ∀ (fuel : Nat) (g g' : Globals) (w : List Char),
    searchLoop ds fuel g = some (Result.found g' w) →
    ∃ k g1 top rest, k < fuel ∧ loopHead ds k g = some g1 ∧ frontier ds g1 = top :: rest ∧
      checkGoal top.state = true ∧ g' = { g1 with curr := top } ∧ w = top.state := by
  intro fuel
  induction fuel with
  | zero => intro g g' w h; simp [searchLoop] at h
  | succ fuel ih =>
    intro g g' w h
    cases hf : frontier ds g with
    | nil => rw [searchLoop_nil ds _ g hf] at h; cases h
    | cons top rest =>
      cases hgoal : checkGoal top.state with
      | true =>
        rw [searchLoop_goal ds _ g top rest hf hgoal] at h
        simp only [Option.some.injEq, Result.found.injEq] at h
        exact ⟨0, g, top, rest, Nat.succ_pos _, rfl, hf, hgoal, h.1.symm, h.2.symm⟩
      | false =>
        cases hp : findEmpty top.state with
        | none => rw [searchLoop_none ds _ g top rest hf hgoal hp] at h; cases h
        | some p =>
          rw [searchLoop_step ds fuel g top rest p hf hgoal hp] at h
          obtain ⟨k, g1, t, r, hk, hh, r1, r2, r3, r4⟩ := ih _ g' w h
          exact ⟨k + 1, g1, t, r, Nat.succ_lt_succ hk,
            by rw [loopHead_step ds k g top rest p hf hgoal hp]; exact hh, r1, r2, r3, r4⟩

/-- A search whose loop ends with the container empty does so at a head of the loop. -/
theorem searchLoop_exhausted_head (ds : Nat) : ∀ (fuel : Nat) (g g' : Globals),
    searchLoop ds fuel g = some (Result.exhausted g') →
    ∃ k, k < fuel ∧ loopHead ds k g = some g' ∧ frontier ds g' = [] := by
  intro fuel
  induction fuel with
  | zero => intro g g' h; simp [searchLoop] at h
  | succ fuel ih =>
    intro g g' h
    cases hf : frontier ds g with
    | nil =>
      rw [searchLoop_nil ds _ g hf] at h
      simp only [Option.some.injEq, Result.exhausted.injEq] at h
      subst h
      exact ⟨0, Nat.succ_pos _, rfl, hf⟩
    | cons top rest =>
      cases hgoal : checkGoal top.state with
      | true => rw [searchLoop_goal ds _ g top rest hf hgoal] at h; cases h
      | false =>
        cases hp : findEmpty top.state with
        | none => rw [searchLoop_none ds _ g top rest hf hgoal hp] at h; cases h
        | some p =>
          rw [searchLoop_step ds fuel g top rest p hf hgoal hp] at h
          obtain ⟨k, hk, hh, r1⟩ := ih _ g' h
          exact ⟨k + 1, Nat.succ_lt_succ hk,
            by rw [loopHead_step ds k g top rest p hf hgoal hp]; exact hh, r1⟩

/-- A property of the globals that every iteration on a node which is not the goal keeps
holds at every head of the loop. -/
theorem loopHead_induct_tied (ds : Nat) (hds : ds = 1 ∨ ds = 2 ∨ ds = 3 ∨ ds = 4)
    (I : Globals → Prop)
    (hstep : ∀ (g : Globals) (top : Node) (rest : List Node) (p : Nat), g.dataStructure = ds →
      I g → frontier ds g = top :: rest → top.state ≠ GOALSTATE →
      findEmpty top.state = some p →
      I (searchPattern p top.state (setFrontier ds rest { g with curr := top }))) :
    ∀ (k : Nat) (g g1 : Globals), g.dataStructure = ds → I g → loopHead ds k g = some g1 →
      I g1 ∧ g1.dataStructure = ds := by
  intro k
  induction k with
  | zero =>
    intro g g1 hg hi h
    simp only [loopHead, Option.some.injEq] at h
    subst h
    exact ⟨hi, hg⟩
  | succ k ih =>
    intro g g1 hg hi h
    obtain ⟨top, rest, p, hf, hgoal, hp⟩ := loopHead_succ_some ds k g g1 h
    rw [loopHead_step ds k g top rest p hf hgoal hp] at h
    exact ih _ g1 (expand_nodes ds hds g top rest p hg).2.2.2.2.2.2.2.2
      (hstep g top rest p hg hi hf ((checkGoal_false_iff _).mp hgoal) hp) h

/-- A property of nodes that passes from the node being expanded to the nodes that the
expansion of its state generates holds for every node that the loop generates, when it
holds for the nodes in the container at the start. -/
theorem loopNodes_forall_tied (ds : Nat) (hds : ds = 1 ∨ ds = 2 ∨ ds = 3 ∨ ds = 4)
    (P : Node → Prop)
    (hstep : ∀ (g : Globals) (p : Nat), g.dataStructure = ds → P g.curr →
      g.curr.state ≠ GOALSTATE → findEmpty g.curr.state = some p →
      ∀ nd ∈ expansionNodes ds p g.curr.state g, P nd) :
    ∀ (fuel : Nat) (g : Globals), g.dataStructure = ds → (∀ n ∈ frontier ds g, P n) →
      ∀ n ∈ loopNodes ds fuel g, P n := by
  intro fuel
  induction fuel with
  | zero => intro g _ _ n hn; simp [loopNodes] at hn
  | succ fuel ih =>
    intro g hg hfr n hn
    cases hf : frontier ds g with
    | nil => rw [loopNodes_nil ds _ g hf] at hn; cases hn
    | cons top rest =>
      cases hgoal : checkGoal top.state with
      | true => rw [loopNodes_goal ds _ g top rest hf hgoal] at hn; cases hn
      | false =>
        cases hp : findEmpty top.state with
        | none => rw [loopNodes_none ds _ g top rest hf hp] at hn; cases hn
        | some p =>
          obtain ⟨h1, h2, -, -, h5, -, -, -, h9⟩ := expand_nodes ds hds g top rest p hg
          have htop : P top := hfr top (by rw [hf]; exact List.mem_cons_self _ _)
          have hnew := hstep _ p h1 (h2.symm ▸ htop)
            (by rw [h2]; exact (checkGoal_false_iff _).mp hgoal) (by rw [h2]; exact hp)
          rw [h2] at hnew
          rw [loopNodes_step ds fuel g top rest p hf hgoal hp, List.mem_append] at hn
          rcases hn with hn | hn
          · exact hnew n hn
          · refine ih _ h9 ?_ n hn
            intro m hm
            rw [h5, mem_pushAll] at hm
            rcases hm with hm | hm
            · exact hnew m hm
            · exact hfr m (by rw [hf]; exact List.mem_cons_of_mem _ hm)

/-! ## Termination -/

/-- C22: for every valid start state and each of the four strategies, the search run
from a reset state terminates: started from the goal it returns the error before the
loop; otherwise, with fuel 725760 or more, the loop ends after finitely many iterations
on a head at which the container is empty or its top node is the goal, and the search
returns accordingly. -/
theorem search_terminates (ds : Nat) (hds : ds = 1 ∨ ds = 2 ∨ ds = 3 ∨ ds = 4)
    (s0 : List Char) (hv : ValidState s0) (g : Globals) (hreset : Reset g)
    (fuel : Nat) (hfuel : 725760 ≤ fuel) :
    (s0 = GOALSTATE ∧ search ds fuel s0 g = some (Result.error g)) ∨
    (s0 ≠ GOALSTATE ∧ ∃ g0 g1, searchInit ds s0 g = some g0 ∧
      (∃ k, k < fuel ∧ loopHead ds k g0 = some g1) ∧
      ((frontier ds g1 = [] ∧ search ds fuel s0 g = some (Result.exhausted g1)) ∨
       (∃ top rest, frontier ds g1 = top :: rest ∧ top.state = GOALSTATE ∧
          search ds fuel s0 g = some (Result.found { g1 with curr := top } GOALSTATE)))) := by
  by_cases hs : s0 = GOALSTATE
  · exact Or.inl ⟨hs, by simp [search, hs]⟩
  · refine Or.inr ⟨hs, ?_⟩
    obtain ⟨g0, p, hi, -, -, -, -, -, -⟩ := @searchInit_spec ds s0 g hds hv hreset
    have hsearch : search ds fuel s0 g = searchLoop ds fuel g0 := by
      unfold search
      rw [if_neg hs, hi]
    obtain ⟨g', -, hend⟩ := search_ends hds hv hs hreset fuel hfuel
    rw [hsearch] at hend ⊢
    rcases hend with ⟨-, hex⟩ | ⟨top, rest, -, -, hfound⟩
    · obtain ⟨k, hk, hh, hf⟩ := searchLoop_exhausted_head ds fuel g0 g' hex
      exact ⟨g0, g', hi, ⟨k, hk, hh⟩, Or.inl ⟨hf, hex⟩⟩
    · obtain ⟨k, g1, t, r, hk, hh, hf, hg, he, hw⟩ :=
        searchLoop_found_head ds fuel g0 _ _ hfound
      refine ⟨g0, g1, hi, ⟨k, hk, hh⟩, Or.inr ⟨t, r, hf, hw.symm, ?_⟩⟩
      rw [hfound, he]

theorem search_terminates_witness :
    ValidState ['1', '2', '3', '4', '5', '6', '7', 'E', '8'] ∧ Reset Globals.initial ∧
    725760 ≤ 725760 ∧
    ((['1', '2', '3', '4', '5', '6', '7', 'E', '8'] = GOALSTATE ∧
        search 3 725760 ['1', '2', '3', '4', '5', '6', '7', 'E', '8'] Globals.initial
          = some (Result.error Globals.initial)) ∨
     (['1', '2', '3', '4', '5', '6', '7', 'E', '8'] ≠ GOALSTATE ∧ ∃ g0 g1,
        searchInit 3 ['1', '2', '3', '4', '5', '6', '7', 'E', '8'] Globals.initial = some g0 ∧
        (∃ k, k < 725760 ∧ loopHead 3 k g0 = some g1) ∧
        ((frontier 3 g1 = [] ∧
            search 3 725760 ['1', '2', '3', '4', '5', '6', '7', 'E', '8'] Globals.initial
              = some (Result.exhausted g1)) ∨
         (∃ top rest, frontier 3 g1 = top :: rest ∧ top.state = GOALSTATE ∧
            search 3 725760 ['1', '2', '3', '4', '5', '6', '7', 'E', '8'] Globals.initial
              = some (Result.found { g1 with curr := top } GOALSTATE))))) :=
  ⟨by decide, by decide, Nat.le_refl _,
    search_terminates 3 (Or.inr (Or.inr (Or.inl rfl))) _ (by decide) Globals.initial
      (by decide) 725760 (Nat.le_refl _)⟩

/-! ## The position of the blank -/

/-- C23: for every valid state `s`, `findEmpty` returns a position `p` in 1..9 with the
blank at the cell `p - 1` of `s` (0-based), the only cell that holds the blank; for a
string of nine characters without `'E'` it returns no position. -/
theorem findEmpty_spec (s u : List Char) (hv : ValidState s) (hlen : u.length = 9)
    (hno : 'E' ∉ u) :
    (∃ p, findEmpty s = some p ∧ 1 ≤ p ∧ p ≤ 9 ∧ charAt s (p - 1) = 'E' ∧
      ∀ i, i < 9 → charAt s i = 'E' → i = p - 1) ∧
    findEmpty u = none := by
  constructor
  · obtain ⟨k, hk, hE, huniq, hfind⟩ := blank_position s hv
    exact ⟨k + 1, hfind, by omega, by omega, by simpa using hE, by simpa using huniq⟩
  · obtain ⟨a0, a1, a2, a3, a4, a5, a6, a7, a8, rfl⟩ := exists_nine u hlen
    simp only [List.mem_cons, List.mem_singleton, not_or, List.not_mem_nil, or_false] at hno
    obtain ⟨h0, h1, h2, h3, h4, h5, h6, h7, h8⟩ := hno
    simp [findEmpty, List.range_succ, charAt, Ne.symm h0, Ne.symm h1, Ne.symm h2, Ne.symm h3,
      Ne.symm h4, Ne.symm h5, Ne.symm h6, Ne.symm h7, Ne.symm h8]

theorem findEmpty_spec_witness :
    ValidState ['E', '1', '2', '3', '4', '5', '6', '7', '8'] ∧
    ['1', '2', '3', '4', '5', '6', '7', '8', '9'].length = 9 ∧
    'E' ∉ ['1', '2', '3', '4', '5', '6', '7', '8', '9'] ∧
    (∃ p, findEmpty ['E', '1', '2', '3', '4', '5', '6', '7', '8'] = some p ∧ 1 ≤ p ∧ p ≤ 9 ∧
      charAt ['E', '1', '2', '3', '4', '5', '6', '7', '8'] (p - 1) = 'E' ∧
      ∀ i, i < 9 → charAt ['E', '1', '2', '3', '4', '5', '6', '7', '8'] i = 'E' → i = p - 1) ∧
    findEmpty ['1', '2', '3', '4', '5', '6', '7', '8', '9'] = none :=
  ⟨by decide, by decide, by decide, findEmpty_spec _ _ (by decide) (by decide) (by decide)⟩

/-! ## Encoding and decoding a board -/

/-- C24: `puzzleState` and `populatePuzzle` are mutually inverse: a string of nine
characters is the state of the array populated with it, every 3x3 array is the array
populated with its state, and two arrays are equal if and only if their states are. -/
theorem encode_decode_inverse (s : List Char) (hlen : s.length = 9) (a b : Puzzle) :
    puzzleState (populatePuzzle s) = s ∧ populatePuzzle (puzzleState a) = a ∧
    (a = b ↔ puzzleState a = puzzleState b) := by
  have hinv : ∀ c : Puzzle, populatePuzzle (puzzleState c) = c := by
    intro c
    funext i j
    fin_cases i <;> fin_cases j <;> rfl
  refine ⟨?_, hinv a, ?_⟩
  · obtain ⟨a0, a1, a2, a3, a4, a5, a6, a7, a8, rfl⟩ := exists_nine s hlen
    rfl
  · constructor
    · intro h; rw [h]
    · intro h
      rw [← hinv a, ← hinv b, h]

theorem encode_decode_inverse_witness :
    ['4', '1', '3', 'E', '2', '6', '7', '5', '8'].length = 9 ∧
    puzzleState (populatePuzzle ['4', '1', '3', 'E', '2', '6', '7', '5', '8'])
      = ['4', '1', '3', 'E', '2', '6', '7', '5', '8'] ∧
    populatePuzzle (puzzleState (populatePuzzle GOALSTATE)) = populatePuzzle GOALSTATE ∧
    (populatePuzzle GOALSTATE = populatePuzzle ['4', '1', '3', 'E', '2', '6', '7', '5', '8'] ↔
      puzzleState (populatePuzzle GOALSTATE)
        = puzzleState (populatePuzzle ['4', '1', '3', 'E', '2', '6', '7', '5', '8'])) :=
  ⟨rfl, encode_decode_inverse ['4', '1', '3', 'E', '2', '6', '7', '5', '8'] rfl _ _⟩

/-! ## Solvability along the moves of the expansion -/

/-- C25: for every valid state `s` and every candidate successor `t` that the expansion
of `s` produces, the solvability check returns for `t` what it returns for `s`; and it
returns true for the goal `"12345678E"`. -/
theorem solvability_invariant (s : List Char) (hv : ValidState s) (p : Nat)
    (hp : findEmpty s = some p) :
    (∀ t ∈ candidates p s, stateSolvable t = stateSolvable s) ∧
    stateSolvable GOALSTATE = true := by
  refine ⟨?_, by decide⟩
  intro t ht
  exact stateSolvable_step s t hv ((legalMove_iff_candidates s p hv hp t).mpr ht)

theorem solvability_invariant_witness :
    ValidState ['2', '1', '3', '4', 'E', '6', '7', '5', '8'] ∧
    findEmpty ['2', '1', '3', '4', 'E', '6', '7', '5', '8'] = some 5 ∧
    (∀ t ∈ candidates 5 ['2', '1', '3', '4', 'E', '6', '7', '5', '8'],
      stateSolvable t = stateSolvable ['2', '1', '3', '4', 'E', '6', '7', '5', '8']) ∧
    stateSolvable GOALSTATE = true :=
  ⟨by decide, by decide, solvability_invariant _ (by decide) 5 (by decide)⟩

/-! ## Completeness -/

/-- C26: for every valid start state other than the goal from which some finite sequence
of legal moves leads to `"12345678E"`, each of the four searches run from a reset state
returns the goal state with fuel 725760 or more, and with no amount of fuel ends with an
empty container. -/
theorem reachable_goal_is_found (s0 : List Char) (g : Globals) (hv : ValidState s0)
    (hne : s0 ≠ GOALSTATE) (n : Nat) (hmoves : Moves n s0 GOALSTATE) (hreset : Reset g) :
    Finds bfs s0 g ∧ Finds dfs s0 g ∧ Finds oopl s0 g ∧ Finds mhttn s0 g :=
  ⟨search_finds_always (Or.inl rfl) hv hne hreset ⟨n, hmoves⟩,
    search_finds_always (Or.inr (Or.inl rfl)) hv hne hreset ⟨n, hmoves⟩,
    search_finds_always (Or.inr (Or.inr (Or.inl rfl))) hv hne hreset ⟨n, hmoves⟩,
    search_finds_always (Or.inr (Or.inr (Or.inr rfl))) hv hne hreset ⟨n, hmoves⟩⟩

theorem reachable_goal_is_found_witness :
    ValidState ['1', '2', '3', '4', '5', '6', '7', 'E', '8'] ∧
    ['1', '2', '3', '4', '5', '6', '7', 'E', '8'] ≠ GOALSTATE ∧
    Moves 1 ['1', '2', '3', '4', '5', '6', '7', 'E', '8'] GOALSTATE ∧
    Reset Globals.initial ∧
    Finds bfs ['1', '2', '3', '4', '5', '6', '7', 'E', '8'] Globals.initial ∧
    Finds dfs ['1', '2', '3', '4', '5', '6', '7', 'E', '8'] Globals.initial ∧
    Finds oopl ['1', '2', '3', '4', '5', '6', '7', 'E', '8'] Globals.initial ∧
    Finds mhttn ['1', '2', '3', '4', '5', '6', '7', 'E', '8'] Globals.initial :=
  ⟨by decide, by decide, moves_one_example, by decide,
    reachable_goal_is_found _ _ (by decide) (by decide) 1 moves_one_example (by decide)⟩

/-! ## The depth of a node is the length of a sequence of legal moves -/

/-- The nodes that the expansion of the state of `curr` generates carry candidate
successors of that state, at the depth of `curr` plus 1. -/
theorem expansion_successors (ds : Nat) (hds : ds = 1 ∨ ds = 2 ∨ ds = 3 ∨ ds = 4)
    (g : Globals) (hg : g.dataStructure = ds) (p : Nat) (ws : List Char) :
    ∀ nd ∈ expansionNodes ds p ws g, nd.state ∈ candidates p ws ∧
      nd.depth = g.curr.depth + 1 := by
  intro nd hnd
  obtain ⟨c, hc, g1, hcurr, -, -, -, rfl⟩ := mem_checkNodes ds hds ws nd (tileChecks p) g hg hnd
  refine ⟨?_, by rw [newNode_depth, hcurr]⟩
  rw [newNode_state]
  exact List.mem_map_of_mem (fun c => (c.1 (populatePuzzle ws)).2) hc

/-- C27: under each of the four strategies, run from a reset state on a valid start
state, for every node that enters the container, root included, there is a sequence of
legal moves from the start state to the state of the node whose length is exactly the
depth of the node; so the depth left in `curr` on success is the length of a sequence of
legal moves from the start state to the goal. -/
theorem depth_is_move_count (ds : Nat) (hds : ds = 1 ∨ ds = 2 ∨ ds = 3 ∨ ds = 4)
    (s0 : List Char) (hv : ValidState s0) (g : Globals) (hreset : Reset g) (fuel : Nat) :
    (∀ n ∈ searchNodes ds fuel s0 g, Moves n.depth s0 n.state) ∧
    (∀ g' w, search ds fuel s0 g = some (Result.found g' w) →
      w = GOALSTATE ∧ Moves g'.curr.depth s0 GOALSTATE) := by
  have hstep : ∀ (x : Globals) (p : Nat), x.dataStructure = ds →
      Moves x.curr.depth s0 x.curr.state → x.curr.state ≠ GOALSTATE →
      findEmpty x.curr.state = some p →
      ∀ nd ∈ expansionNodes ds p x.curr.state x, Moves nd.depth s0 nd.state := by
    intro x p hx hcur _ hp nd hnd
    obtain ⟨hc, hd⟩ := expansion_successors ds hds x hx p x.curr.state nd hnd
    have hl := (legalMove_iff_candidates x.curr.state p (valid_of_moves hcur hv) hp
      nd.state).mpr hc
    rw [hd]
    exact moves_snoc hcur hl
  have hall : ∀ n ∈ searchNodes ds fuel s0 g, Moves n.depth s0 n.state := by
    intro n hn
    by_cases hs : s0 = GOALSTATE
    · simp [searchNodes, hs] at hn
    cases hi : searchInit ds s0 g with
    | none => simp [searchNodes, hs, hi] at hn
    | some g0 =>
      obtain ⟨p, -, -, hf, hd, -⟩ := searchInit_reset hds hreset hi
      have hroot : ∀ m ∈ frontier ds g0, Moves m.depth s0 m.state := by
        intro m hm
        rw [hf, List.mem_singleton] at hm
        rw [hm]; exact Moves.zero _
      rw [searchNodes_eq hs hi, List.mem_append] at hn
      rcases hn with hn | hn
      · exact hroot n hn
      · exact loopNodes_forall_tied ds hds _ hstep fuel g0 hd hroot n hn
  refine ⟨hall, ?_⟩
  intro g' w h
  obtain ⟨hs, g0, hi, hl⟩ := search_found_init h
  obtain ⟨-, -, -, -, hd, -⟩ := searchInit_reset hds hreset hi
  obtain ⟨hmem, -, hst, hgoal⟩ := searchLoop_found ds hds fuel g0 g' w hd hl
  have hw : w = GOALSTATE := (checkGoal_iff w).mp hgoal
  refine ⟨hw, ?_⟩
  have := hall g'.curr (by rw [searchNodes_eq hs hi]; exact hmem)
  rw [hst, hw] at this
  exact this

theorem depth_is_move_count_witness :
    ValidState ['1', '2', '3', '4', '5', '6', '7', 'E', '8'] ∧ Reset Globals.initial ∧
    (∀ n ∈ searchNodes 2 3 ['1', '2', '3', '4', '5', '6', '7', 'E', '8'] Globals.initial,
      Moves n.depth ['1', '2', '3', '4', '5', '6', '7', 'E', '8'] n.state) ∧
    (∀ g' w, search 2 3 ['1', '2', '3', '4', '5', '6', '7', 'E', '8'] Globals.initial
        = some (Result.found g' w) →
      w = GOALSTATE ∧ Moves g'.curr.depth ['1', '2', '3', '4', '5', '6', '7', 'E', '8']
        GOALSTATE) :=
  ⟨by decide, by decide,
    depth_is_move_count 2 (Or.inr (Or.inl rfl)) _ (by decide) Globals.initial (by decide) 3⟩

/-! ## Validity of the states of a run -/

/-- C29: when the start state is a permutation of `"12345678E"`, then under each of the
four strategies, run from a reset state, at the head of every iteration of the loop
every key of the map and the state of every node in the container is a permutation of
`"12345678E"`. -/
theorem validity_preserved (ds : Nat) (hds : ds = 1 ∨ ds = 2 ∨ ds = 3 ∨ ds = 4)
    (s0 : List Char) (hv : ValidState s0) (g g0 g1 : Globals) (hreset : Reset g)
    (hi : searchInit ds s0 g = some g0) (k : Nat) (hk : loopHead ds k g0 = some g1) :
    (∀ v ∈ keys g1, ValidState v) ∧ (∀ n ∈ frontier ds g1, ValidState n.state) := by
  obtain ⟨p, -, hvis, hf, hd, -⟩ := searchInit_reset hds hreset hi
  have hk0 : keys g0 = [s0] := by simp [keys, hvis]
  have h0 : ∃ ws, Inv ds s0 ws [] g0 := ⟨s0, inv_init hk0 hf rfl hd⟩
  obtain ⟨⟨ws, inv⟩, -⟩ := loopHead_induct_tied ds hds (fun x => ∃ ws, Inv ds s0 ws [] x)
    (by
      intro x top rest q _ hx hfx hne hq
      obtain ⟨q', hq', hinv, -⟩ := inv_step hds hv x top rest hx hfx hne
      rw [hq] at hq'
      cases hq'
      exact hinv)
    k g0 g1 hd h0 hk
  have hkeys : ∀ v ∈ keys g1, ValidState v := fun v hvk =>
    valid_of_reach (inv.keys_reach v hvk) hv
  exact ⟨hkeys, fun n hn => hkeys _ (inv.front_mem n hn)⟩

theorem validity_preserved_witness :
    ValidState ['1', '2', '3', '4', '5', '6', 'E', '7', '8'] ∧ Reset Globals.initial ∧
    ∃ g0 g1, searchInit 1 ['1', '2', '3', '4', '5', '6', 'E', '7', '8'] Globals.initial
        = some g0 ∧
      loopHead 1 2 g0 = some g1 ∧
      (∀ v ∈ keys g1, ValidState v) ∧ (∀ n ∈ frontier 1 g1, ValidState n.state) :=
  ⟨by decide, by decide, _, _, rfl, rfl,
    validity_preserved 1 (Or.inl rfl) ['1', '2', '3', '4', '5', '6', 'E', '7', '8'] (by decide)
      Globals.initial _ _ (by decide) rfl 2 rfl⟩

/-! ## The map holds the states of the container, and as many keys as the counter says -/

theorem counted_runChecks (ds : Nat) (hds : ds = 1 ∨ ds = 2 ∨ ds = 3 ∨ ds = 4)
    (ws : List Char) (cs : List ((Puzzle → Puzzle × List Char) × String)) (g : Globals)
    (hg : g.dataStructure = ds)
    (h : (∀ n ∈ frontier ds g, n.state ∈ keys g) ∧ g.counter = (keys g).length ∧
      (keys g).Nodup) :
    (∀ n ∈ frontier ds (runChecks cs ws g), n.state ∈ keys (runChecks cs ws g)) ∧
    (runChecks cs ws g).counter = (keys (runChecks cs ws g)).length ∧
    (keys (runChecks cs ws g)).Nodup := by
  obtain ⟨h1, h2, h3⟩ := h
  obtain ⟨r1, -, r3, -, -⟩ := runChecks_nodes ds hds ws cs g hg
  have r2 := keys_runChecks ds hds ws cs g hg
  refine ⟨?_, ?_, keys_nodup_runChecks ds hds ws cs g hg h3⟩
  · intro n hn
    rw [r1, mem_pushAll] at hn
    rw [r2, List.mem_append]
    rcases hn with hn | hn
    · exact Or.inr (List.mem_map_of_mem _ hn)
    · exact Or.inl (h1 n hn)
  · rw [r3, r2, List.length_append, List.length_map, h2]

theorem counted_pop (ds : Nat) (hds : ds = 1 ∨ ds = 2 ∨ ds = 3 ∨ ds = 4)
    (g : Globals) (top : Node) (rest : List Node) (hf : frontier ds g = top :: rest)
    (h : (∀ n ∈ frontier ds g, n.state ∈ keys g) ∧ g.counter = (keys g).length ∧
      (keys g).Nodup) :
    (∀ n ∈ frontier ds (setFrontier ds rest { g with curr := top }),
      n.state ∈ keys (setFrontier ds rest { g with curr := top })) ∧
    (setFrontier ds rest { g with curr := top }).counter =
      (keys (setFrontier ds rest { g with curr := top })).length ∧
    (keys (setFrontier ds rest { g with curr := top })).Nodup := by
  obtain ⟨h1, h2, h3⟩ := h
  have hk : keys (setFrontier ds rest { g with curr := top }) = keys g := by
    rw [keys_setFrontier]; rfl
  rw [hk, frontier_setFrontier ds hds, counter_setFrontier]
  exact ⟨fun n hn => h1 n (by rw [hf]; exact List.mem_cons_of_mem _ hn), h2, h3⟩

/-- C30: under each of the four strategies, run from a reset state, at the head of every
iteration of the loop, and after every check of an expansion, the state of every node in
the container is a key of the map, and the counter is the number of keys of the map,
which are pairwise distinct. -/
theorem frontier_in_map_counter_is_size (ds : Nat) (hds : ds = 1 ∨ ds = 2 ∨ ds = 3 ∨ ds = 4)
    (s0 : List Char) (g g0 g1 : Globals) (hreset : Reset g)
    (hi : searchInit ds s0 g = some g0) (k : Nat) (hk : loopHead ds k g0 = some g1) :
    ((∀ n ∈ frontier ds g1, n.state ∈ keys g1) ∧ g1.counter = (keys g1).length ∧
      (keys g1).Nodup) ∧
    ∀ (top : Node) (rest : List Node) (cs : List ((Puzzle → Puzzle × List Char) × String)),
      frontier ds g1 = top :: rest →
      (∀ n ∈ frontier ds (runChecks cs top.state (setFrontier ds rest { g1 with curr := top })),
        n.state ∈ keys (runChecks cs top.state (setFrontier ds rest { g1 with curr := top }))) ∧
      (runChecks cs top.state (setFrontier ds rest { g1 with curr := top })).counter =
        (keys (runChecks cs top.state
          (setFrontier ds rest { g1 with curr := top }))).length := by
  obtain ⟨p, -, hvis, hf, hd, hc⟩ := searchInit_reset hds hreset hi
  have hk0 : keys g0 = [s0] := by simp [keys, hvis]
  have h0 : (∀ n ∈ frontier ds g0, n.state ∈ keys g0) ∧ g0.counter = (keys g0).length ∧
      (keys g0).Nodup := by
    rw [hk0, hf, hc]
    refine ⟨?_, rfl, List.nodup_singleton _⟩
    intro n hn
    rw [List.mem_singleton] at hn
    rw [hn]; exact List.mem_singleton.mpr rfl
  have hpopds : ∀ (x : Globals) (top : Node) (rest : List Node), x.dataStructure = ds →
      (setFrontier ds rest { x with curr := top }).dataStructure = ds := by
    intro x top rest hx
    rw [dataStructure_setFrontier]; exact hx
  obtain ⟨h1, hd1⟩ := loopHead_induct ds hds
    (fun x => (∀ n ∈ frontier ds x, n.state ∈ keys x) ∧ x.counter = (keys x).length ∧
      (keys x).Nodup)
    (by
      intro x top rest q hx hJ hfx
      rw [searchPattern_eq]
      exact counted_runChecks ds hds top.state (tileChecks q) _ (hpopds x top rest hx)
        (counted_pop ds hds x top rest hfx hJ))
    k g0 g1 hd h0 hk
  refine ⟨h1, ?_⟩
  intro top rest cs hfx
  have := counted_runChecks ds hds top.state cs _ (hpopds g1 top rest hd1)
    (counted_pop ds hds g1 top rest hfx h1)
  exact ⟨this.1, this.2.1⟩

theorem frontier_in_map_counter_is_size_witness :
    Reset Globals.initial ∧
    ∃ g0 g1, searchInit 4 ['1', '2', '3', '4', '5', '6', 'E', '7', '8'] Globals.initial
        = some g0 ∧
      loopHead 4 2 g0 = some g1 ∧
      ((∀ n ∈ frontier 4 g1, n.state ∈ keys g1) ∧ g1.counter = (keys g1).length ∧
        (keys g1).Nodup) ∧
      ∀ (top : Node) (rest : List Node) (cs : List ((Puzzle → Puzzle × List Char) × String)),
        frontier 4 g1 = top :: rest →
        (∀ n ∈ frontier 4 (runChecks cs top.state (setFrontier 4 rest { g1 with curr := top })),
          n.state ∈ keys (runChecks cs top.state
            (setFrontier 4 rest { g1 with curr := top }))) ∧
        (runChecks cs top.state (setFrontier 4 rest { g1 with curr := top })).counter =
          (keys (runChecks cs top.state
            (setFrontier 4 rest { g1 with curr := top }))).length :=
  ⟨by decide, _, _, rfl, rfl,
    frontier_in_map_counter_is_size 4 (Or.inr (Or.inr (Or.inr rfl)))
      ['1', '2', '3', '4', '5', '6', 'E', '7', '8'] Globals.initial _ _ (by decide) rfl 2 rfl⟩

/-! ## Replaying the path of a node -/

/-- The path entries of the checks for the empty tile on `k + 1` name the cell `k + 1`
and, in source order, the cells of `moveOrder k` (1-based). -/
theorem parseMove_tileChecks : ∀ k, k < 9 →
    (tileChecks (k + 1)).map (fun c => parseMove c.2) =
      (moveOrder k).map (fun q => some (k + 1, q + 1)) := by
  intro k hk
  interval_cases k <;> rfl

theorem moveOrder_lt : ∀ k, k < 9 → ∀ q ∈ moveOrder k, q < 9 := by
  decide

theorem map_pair_mem {α β γ δ : Type} (f : α → γ) (f' : α → δ) (h : β → γ) (h' : β → δ) :
    ∀ (l : List α) (m : List β), l.map f = m.map h → l.map f' = m.map h' →
      ∀ c ∈ l, ∃ q ∈ m, f c = h q ∧ f' c = h' q := by
  intro l
  induction l with
  | nil => intro m _ _ c hc; cases hc
  | cons a l ih =>
    intro m h1 h2 c hc
    cases m with
    | nil => simp at h1
    | cons b m =>
      simp only [List.map_cons, List.cons.injEq] at h1 h2
      rcases List.mem_cons.mp hc with hc | hc
      · subst hc
        exact ⟨b, List.mem_cons_self _ _, h1.1, h2.1⟩
      · obtain ⟨q, hq, r1, r2⟩ := ih m h1.2 h2.2 c hc
        exact ⟨q, List.mem_cons_of_mem _ hq, r1, r2⟩

/-- The path entry of a check, replayed on the state being expanded, gives the swapped
state of the check. -/
theorem replay_check (ws : List Char) (hv : ValidState ws) (p : Nat)
    (hp : findEmpty ws = some p) (c : (Puzzle → Puzzle × List Char) × String)
    (hc : c ∈ tileChecks p) :
    replayMoves [c.2] ws = some (c.1 (populatePuzzle ws)).2 := by
  obtain ⟨k, hk, hE, -, hfind⟩ := blank_position ws hv
  rw [hp] at hfind
  cases hfind
  have hlen : ws.length = 9 := by
    have := List.Perm.length_eq hv
    simpa [GOALSTATE] using this
  have hcand := candidates_eq_map ws hlen k hk
  unfold candidates at hcand
  obtain ⟨q, hq, hparse, hstate⟩ := map_pair_mem (fun c => parseMove c.2)
    (fun c => (c.1 (populatePuzzle ws)).2) (fun q => some (k + 1, q + 1))
    (fun q => swapAt ws k q) (tileChecks (k + 1)) (moveOrder k)
    (parseMove_tileChecks k hk) hcand c hc
  have hq9 := moveOrder_lt k hk q hq
  have hafter : charAt (swapAt ws k q) q = 'E' := by
    rw [charAt_swapAt ws k q q (by omega) (by omega), if_pos rfl]
    exact hE
  have hparse' : parseMove c.2 = some (k + 1, q + 1) := hparse
  have hstate' : (c.1 (populatePuzzle ws)).2 = swapAt ws k q := hstate
  simp only [replayMoves, hparse', Nat.add_sub_cancel, hE, hafter, hstate']
  rw [if_pos ⟨by omega, by omega, by omega, by omega, trivial, trivial⟩]

theorem replayMoves_append (d : String) : ∀ (ms : List String) (s t : List Char),
    replayMoves ms s = some t → replayMoves (ms ++ [d]) s = replayMoves [d] t := by
  intro ms
  induction ms with
  | nil => intro s t h; simp only [replayMoves, Option.some.injEq] at h; rw [← h]; rfl
  | cons m ms ih =>
    intro s t h
    rw [List.cons_append]
    cases hm : parseMove m with
    | none => simp only [replayMoves, hm] at h; cases h
    | some pq =>
      obtain ⟨p, q⟩ := pq
      simp only [replayMoves, hm] at h ⊢
      split at h
      · rename_i hcond
        rw [if_pos hcond]
        exact ih _ t h
      · cases h

theorem replayPath_append (d : String) (path : List String) (s t : List Char)
    (h : replayPath path s = some t) :
    replayPath (path ++ [d]) s = replayMoves [d] t := by
  cases path with
  | nil => simp [replayPath] at h
  | cons e ms =>
    simp only [replayPath, List.cons_append] at h ⊢
    split at h
    · rename_i he
      rw [if_pos he]
      exact replayMoves_append d ms s t h
    · cases h

/-- C28: under `bfs`, `oopl` and `mhttn`, run from a reset state on a valid start state,
the path of every node that enters the container is the entry `"Start, "` followed by
entries of the form `"p to q,"`, and exchanging the cells `p` and `q` (1-based,
row-major) of the start state in the recorded order, with the blank at `p` before and at
`q` after each exchange, gives the state of the node; so the path left in `curr` on
success, replayed on the start state, gives `"12345678E"`. -/
theorem path_replays_to_state (ds : Nat) (hds : ds = 1 ∨ ds = 3 ∨ ds = 4)
    (s0 : List Char) (hv : ValidState s0) (g : Globals) (hreset : Reset g) (fuel : Nat) :
    (∀ n ∈ searchNodes ds fuel s0 g, replayPath n.path s0 = some n.state) ∧
    (∀ g' w, search ds fuel s0 g = some (Result.found g' w) →
      replayPath g'.curr.path s0 = some GOALSTATE) := by
  have hds4 : ds = 1 ∨ ds = 2 ∨ ds = 3 ∨ ds = 4 := by
    rcases hds with h | h | h <;> simp [h]
  have hstep : ∀ (x : Globals) (p : Nat), x.dataStructure = ds →
      (replayPath x.curr.path s0 = some x.curr.state ∧ ValidState x.curr.state) →
      x.curr.state ≠ GOALSTATE → findEmpty x.curr.state = some p →
      ∀ nd ∈ expansionNodes ds p x.curr.state x,
        replayPath nd.path s0 = some nd.state ∧ ValidState nd.state := by
    intro x p hx hcur _ hp nd hnd
    obtain ⟨c, hc, hst, hpath, -⟩ := expansion_paths ds hds x hx p x.curr.state nd hnd
    have hcand : nd.state ∈ candidates p x.curr.state :=
      (expansion_successors ds hds4 x hx p x.curr.state nd hnd).1
    have hl := (legalMove_iff_candidates x.curr.state p hcur.2 hp nd.state).mpr hcand
    refine ⟨?_, valid_of_legalMove _ _ hcur.2 hl⟩
    rw [hpath, replayPath_append c.2 _ s0 _ hcur.1, hst]
    exact replay_check x.curr.state hcur.2 p hp c hc
  have hall : ∀ n ∈ searchNodes ds fuel s0 g,
      replayPath n.path s0 = some n.state ∧ ValidState n.state := by
    intro n hn
    by_cases hs : s0 = GOALSTATE
    · simp [searchNodes, hs] at hn
    cases hi : searchInit ds s0 g with
    | none => simp [searchNodes, hs, hi] at hn
    | some g0 =>
      obtain ⟨p, -, -, hf, hd, -⟩ := searchInit_reset hds4 hreset hi
      have hroot : ∀ m ∈ frontier ds g0,
          replayPath m.path s0 = some m.state ∧ ValidState m.state := by
        intro m hm
        rw [hf, List.mem_singleton] at hm
        rw [hm]; exact ⟨rfl, hv⟩
      rw [searchNodes_eq hs hi, List.mem_append] at hn
      rcases hn with hn | hn
      · exact hroot n hn
      · exact loopNodes_forall_tied ds hds4 _ hstep fuel g0 hd hroot n hn
  refine ⟨fun n hn => (hall n hn).1, ?_⟩
  intro g' w h
  obtain ⟨hs, g0, hi, hl⟩ := search_found_init h
  obtain ⟨-, -, -, -, hd, -⟩ := searchInit_reset hds4 hreset hi
  obtain ⟨hmem, -, hst, hgoal⟩ := searchLoop_found ds hds4 fuel g0 g' w hd hl
  have hw : w = GOALSTATE := (checkGoal_iff w).mp hgoal
  have := (hall g'.curr (by rw [searchNodes_eq hs hi]; exact hmem)).1
  rw [hst, hw] at this
  exact this

theorem path_replays_to_state_witness :
    ValidState ['1', '2', '3', '4', '5', '6', '7', 'E', '8'] ∧ Reset Globals.initial ∧
    (∀ n ∈ searchNodes 3 2 ['1', '2', '3', '4', '5', '6', '7', 'E', '8'] Globals.initial,
      replayPath n.path ['1', '2', '3', '4', '5', '6', '7', 'E', '8'] = some n.state) ∧
    (∀ g' w, search 3 2 ['1', '2', '3', '4', '5', '6', '7', 'E', '8'] Globals.initial
        = some (Result.found g' w) →
      replayPath g'.curr.path ['1', '2', '3', '4', '5', '6', '7', 'E', '8']
        = some GOALSTATE) :=
  ⟨by decide, by decide,
    path_replays_to_state 3 (Or.inr (Or.inl rfl)) _ (by decide) Globals.initial
      (by decide) 2⟩

/-! ## A second run after `clear` -/

theorem reset_clear (g : Globals) : Reset (clear g) :=
  ⟨rfl, rfl, rfl, rfl, rfl, rfl⟩

/-- A check whose swapped state is not in the map, in full: the counter, the map, the
container of the search and `neighbor` change, nothing else. -/
theorem tryMove_new_full (ds : Nat) (hds : ds = 1 ∨ ds = 2 ∨ ds = 3 ∨ ds = 4)
    (sw : Puzzle → Puzzle × List Char) (lbl : String) (ws : List Char)
    (g : Globals) (hg : g.dataStructure = ds) (h : (sw (populatePuzzle ws)).2 ∉ keys g) :
    tryMove sw lbl ws g =
      setFrontier ds
        (pushList ds (newNode ds g (sw (populatePuzzle ws)).2 lbl) (frontier ds g))
        { g with counter := g.counter + 1,
                 visited := g.visited ++ [((sw (populatePuzzle ws)).2, g.counter + 1)],
                 neighbor := (newNode ds g (sw (populatePuzzle ws)).2 lbl).clear } := by
  have hc : checkMap (sw (populatePuzzle ws)).2 g = false := by
    rw [← Bool.not_eq_true, checkMap_iff]; exact h
  have hany : (g.visited.any fun e => decide (e.1 = (sw (populatePuzzle ws)).2)) = false := by
    rw [← Bool.not_eq_true]
    intro hh
    apply h
    simp only [List.any_eq_true, decide_eq_true_eq] at hh
    obtain ⟨e, he, heq⟩ := hh
    rw [← heq]
    exact List.mem_map_of_mem _ he
  unfold tryMove
  simp only [hc, Bool.false_eq_true, if_false]
  rcases hds with rfl | rfl | rfl | rfl <;>
    simp [insertMap, hany, buildNode, insertDataStructure, hg, frontier, setFrontier,
      pushList, newNode, Node.clear]

theorem similar_newNode (ds : Nat) (hds : ds = 1 ∨ ds = 2 ∨ ds = 3 ∨ ds = 4)
    (g h : Globals) (hs : Similar ds g h) (hc : g.curr = h.curr) (t : List Char)
    (lbl : String) : newNode ds g t lbl = newNode ds h t lbl := by
  obtain ⟨h1, -, -, -, -, -, h7, h8, h9⟩ := hs
  rcases hds with rfl | rfl | rfl | rfl
  · simp only [newNode, hc, h1, h7, h8 (Or.inl rfl)]
  · simp only [newNode, hc, h1, h7, h8 (Or.inr rfl), h9 rfl]
  · simp only [newNode, hc, h1, h7]
  · simp only [newNode, hc, h1, h7]

theorem similar_frontier (ds : Nat) (g h : Globals) (hs : Similar ds g h) :
    frontier ds g = frontier ds h := by
  obtain ⟨-, -, h3, h4, h5, h6, -, -, -⟩ := hs
  unfold frontier
  split <;> first | assumption | rfl

/-- A check does the same to two globals that agree for the search `ds` and hold the
same node `curr`. -/
theorem similar_tryMove (ds : Nat) (hds : ds = 1 ∨ ds = 2 ∨ ds = 3 ∨ ds = 4)
    (sw : Puzzle → Puzzle × List Char) (lbl : String) (ws : List Char)
    (g h : Globals) (hg : g.dataStructure = ds) (hh : h.dataStructure = ds)
    (hs : Similar ds g h) (hc : g.curr = h.curr) :
    Similar ds (tryMove sw lbl ws g) (tryMove sw lbl ws h) ∧
    (tryMove sw lbl ws g).curr = (tryMove sw lbl ws h).curr ∧
    (tryMove sw lbl ws g).dataStructure = ds ∧ (tryMove sw lbl ws h).dataStructure = ds := by
  have hkeys : keys g = keys h := by unfold keys; rw [hs.2.1]
  by_cases hk : (sw (populatePuzzle ws)).2 ∈ keys g
  · rw [tryMove_old sw lbl ws g hk, tryMove_old sw lbl ws h (hkeys ▸ hk)]
    exact ⟨hs, hc, hg, hh⟩
  · have hk' : (sw (populatePuzzle ws)).2 ∉ keys h := hkeys ▸ hk
    have hd1 := (dataStructure_tryMove ds hds sw lbl ws g hg)
    have hd2 := (dataStructure_tryMove ds hds sw lbl ws h hh)
    refine ⟨?_, by rw [hd1.2, hd2.2, hc], hd1.1, hd2.1⟩
    rw [tryMove_new_full ds hds sw lbl ws g hg hk, tryMove_new_full ds hds sw lbl ws h hh hk',
      similar_newNode ds hds g h hs hc, similar_frontier ds g h hs]
    obtain ⟨h1, h2, h3, h4, h5, h6, h7, h8, h9⟩ := hs
    rcases hds with rfl | rfl | rfl | rfl <;>
      simp [Similar, setFrontier, h1, h2, h3, h4, h5, h6]

theorem similar_runChecks (ds : Nat) (hds : ds = 1 ∨ ds = 2 ∨ ds = 3 ∨ ds = 4)
    (ws : List Char) (cs : List ((Puzzle → Puzzle × List Char) × String)) :
    ∀ g h : Globals, g.dataStructure = ds → h.dataStructure = ds → Similar ds g h →
      g.curr = h.curr →
      Similar ds (runChecks cs ws g) (runChecks cs ws h) ∧
      (runChecks cs ws g).curr = (runChecks cs ws h).curr ∧
      (runChecks cs ws g).dataStructure = ds ∧ (runChecks cs ws h).dataStructure = ds := by
  induction cs with
  | nil => intro g h hg hh hs hc; exact ⟨hs, hc, hg, hh⟩
  | cons c cs ih =>
    intro g h hg hh hs hc
    obtain ⟨r1, r2, r3, r4⟩ := similar_tryMove ds hds c.1 c.2 ws g h hg hh hs hc
    rw [runChecks_cons, runChecks_cons]
    exact ih _ _ r3 r4 r1 r2

theorem similar_pop (ds : Nat) (hds : ds = 1 ∨ ds = 2 ∨ ds = 3 ∨ ds = 4)
    (g h : Globals) (hs : Similar ds g h) (top : Node) (rest : List Node) :
    Similar ds (setFrontier ds rest { g with curr := top })
      (setFrontier ds rest { h with curr := top }) := by
  obtain ⟨h1, h2, h3, h4, h5, h6, h7, h8, h9⟩ := hs
  rcases hds with rfl | rfl | rfl | rfl <;>
    simp [Similar, setFrontier, h1, h2, h3, h4, h5, h6, h7, h8, h9]

/-- The loop ends in the same way, on the same node `curr`, from two globals that agree
for the search `ds`, when they hold the same `curr` or the container is not empty. -/
theorem similar_searchLoop (ds : Nat) (hds : ds = 1 ∨ ds = 2 ∨ ds = 3 ∨ ds = 4) :
    ∀ (fuel : Nat) (g h : Globals), g.dataStructure = ds → h.dataStructure = ds →
      Similar ds g h → (g.curr = h.curr ∨ frontier ds g ≠ []) →
      (∀ a w, searchLoop ds fuel g = some (Result.found a w) →
        ∃ b, searchLoop ds fuel h = some (Result.found b w) ∧ b.curr = a.curr) ∧
      (∀ a, searchLoop ds fuel g = some (Result.exhausted a) →
        ∃ b, searchLoop ds fuel h = some (Result.exhausted b) ∧ b.curr = a.curr) := by
  intro fuel
  induction fuel with
  | zero =>
    intro g h _ _ _ _
    exact ⟨fun a w hr => by simp [searchLoop] at hr, fun a hr => by simp [searchLoop] at hr⟩
  | succ fuel ih =>
    intro g h hg hh hs hor
    have hfe := similar_frontier ds g h hs
    cases hf : frontier ds g with
    | nil =>
      have hc : g.curr = h.curr := by
        rcases hor with hc | hne
        · exact hc
        · exact absurd hf hne
      rw [searchLoop_nil ds _ g hf, searchLoop_nil ds _ h (hfe ▸ hf)]
      refine ⟨fun a w hr => (by cases hr), fun a hr => ?_⟩
      simp only [Option.some.injEq, Result.exhausted.injEq] at hr
      exact ⟨h, rfl, by rw [← hr, hc]⟩
    | cons top rest =>
      have hf' : frontier ds h = top :: rest := hfe ▸ hf
      cases hgoal : checkGoal top.state with
      | true =>
        rw [searchLoop_goal ds _ g top rest hf hgoal, searchLoop_goal ds _ h top rest hf' hgoal]
        refine ⟨fun a w hr => ?_, fun a hr => (by cases hr)⟩
        simp only [Option.some.injEq, Result.found.injEq] at hr
        exact ⟨{ h with curr := top }, by rw [hr.2], by rw [← hr.1]⟩
      | false =>
        cases hp : findEmpty top.state with
        | none =>
          rw [searchLoop_none ds _ g top rest hf hgoal hp]
          exact ⟨fun a w hr => (by cases hr), fun a hr => (by cases hr)⟩
        | some p =>
          rw [searchLoop_step ds fuel g top rest p hf hgoal hp,
            searchLoop_step ds fuel h top rest p hf' hgoal hp, searchPattern_eq,
            searchPattern_eq]
          have e1 := expand_nodes ds hds g top rest p hg
          have e2 := expand_nodes ds hds h top rest p hh
          obtain ⟨r1, r2, r3, r4⟩ := similar_runChecks ds hds top.state (tileChecks p) _ _
            e1.1 e2.1 (similar_pop ds hds g h hs top rest) (by rw [e1.2.1, e2.2.1])
          exact ih _ _ r3 r4 r1 (Or.inl r2)

/-- A check leaves the field `point` of `neighbor` as it is, under `bfs` and `dfs` also
the field `cheapest`, and under `dfs` an empty `path` stays empty. -/
theorem frame_tryMove (ds : Nat) (hds : ds = 1 ∨ ds = 2 ∨ ds = 3 ∨ ds = 4)
    (sw : Puzzle → Puzzle × List Char) (lbl : String) (ws : List Char)
    (pt ch : Nat) (x : Globals) (hx : x.dataStructure = ds)
    (h : x.neighbor.point = pt ∧ (ds = 1 ∨ ds = 2 → x.neighbor.cheapest = ch) ∧
      (ds = 2 → x.neighbor.path = [])) :
    (tryMove sw lbl ws x).neighbor.point = pt ∧
    (ds = 1 ∨ ds = 2 → (tryMove sw lbl ws x).neighbor.cheapest = ch) ∧
    (ds = 2 → (tryMove sw lbl ws x).neighbor.path = []) := by
  by_cases hk : (sw (populatePuzzle ws)).2 ∈ keys x
  · rw [tryMove_old sw lbl ws x hk]; exact h
  · rw [tryMove_new_full ds hds sw lbl ws x hx hk]
    obtain ⟨h1, h2, h3⟩ := h
    rcases hds with rfl | rfl | rfl | rfl
    · simpa [setFrontier, newNode, Node.clear, h1] using h2
    · simpa [setFrontier, newNode, Node.clear, h1] using h2
    · simp [setFrontier, newNode, Node.clear, h1]
    · simp [setFrontier, newNode, Node.clear, h1]

theorem frame_runChecks (ds : Nat) (hds : ds = 1 ∨ ds = 2 ∨ ds = 3 ∨ ds = 4)
    (ws : List Char) (pt ch : Nat) (cs : List ((Puzzle → Puzzle × List Char) × String)) :
    ∀ x : Globals, x.dataStructure = ds →
      (x.neighbor.point = pt ∧ (ds = 1 ∨ ds = 2 → x.neighbor.cheapest = ch) ∧
        (ds = 2 → x.neighbor.path = [])) →
      (runChecks cs ws x).neighbor.point = pt ∧
      (ds = 1 ∨ ds = 2 → (runChecks cs ws x).neighbor.cheapest = ch) ∧
      (ds = 2 → (runChecks cs ws x).neighbor.path = []) := by
  induction cs with
  | nil => intro x _ h; exact h
  | cons c cs ih =>
    intro x hx h
    rw [runChecks_cons]
    exact ih _ (dataStructure_tryMove ds hds c.1 c.2 ws x hx).1
      (frame_tryMove ds hds c.1 c.2 ws pt ch x hx h)

theorem neighbor_setFrontier (ds : Nat) (l : List Node) (g : Globals) :
    (setFrontier ds l g).neighbor = g.neighbor := by
  unfold setFrontier; split <;> rfl

theorem neighbor_searchInit {ds : Nat} {s0 : List Char} {g g0 : Globals}
    (h : searchInit ds s0 g = some g0) : g0.neighbor = g.neighbor := by
  cases hfind : findEmpty s0 with
  | none => simp only [searchInit, hfind] at h; cases h
  | some p =>
    simp only [searchInit, hfind, Option.some.injEq] at h
    subst h
    unfold pushFrontier insertMap
    split <;> split <;> rfl

/-- From two reset states whose `neighbor` agree where the search reads it, `searchInit`
leaves globals that agree for the search, with the root node in the container. -/
theorem similar_init (ds : Nat) (hds : ds = 1 ∨ ds = 2 ∨ ds = 3 ∨ ds = 4) (s0 : List Char)
    (g h g0 : Globals) (hrg : Reset g) (hrh : Reset h)
    (hpt : g.neighbor.point = h.neighbor.point)
    (hch : ds = 1 ∨ ds = 2 → g.neighbor.cheapest = h.neighbor.cheapest)
    (hpa : ds = 2 → g.neighbor.path = h.neighbor.path)
    (hi : searchInit ds s0 g = some g0) :
    ∃ h0, searchInit ds s0 h = some h0 ∧ Similar ds g0 h0 ∧ g0.dataStructure = ds ∧
      h0.dataStructure = ds ∧ frontier ds g0 ≠ [] := by
  obtain ⟨g1, g2, g3, g4, g5, g6⟩ := hrg
  obtain ⟨k1, k2, k3, k4, k5, k6⟩ := hrh
  cases hfind : findEmpty s0 with
  | none => simp only [searchInit, hfind] at hi; cases hi
  | some p =>
    simp only [searchInit, hfind, Option.some.injEq] at hi
    subst hi
    have hinit : searchInit ds s0 h = some (pushFrontier ds
        ⟨p, s0, 0, ["Start, "],
          (insertMap s0 h.counter { h with dataStructure := ds }).counter, 0⟩
        (insertMap s0 h.counter { h with dataStructure := ds })) := by
      simp only [searchInit, hfind]
    refine ⟨_, hinit, ?_⟩
    rcases hds with rfl | rfl | rfl | rfl
    · simpa [Similar, frontier, pushFrontier, insertMap, g1, g2, g3, g4, g5, g6, k1, k2, k3,
        k4, k5, k6, hpt] using hch
    · simpa [Similar, frontier, pushFrontier, insertMap, g1, g2, g3, g4, g5, g6, k1, k2, k3,
        k4, k5, k6, hpt] using And.intro hch hpa
    · simp [Similar, frontier, pushFrontier, insertMap, g1, g2, g3, g4, g5, g6, k1, k2, k3,
        k4, k5, k6, hpt, pqPush]
    · simp [Similar, frontier, pushFrontier, insertMap, g1, g2, g3, g4, g5, g6, k1, k2, k3,
        k4, k5, k6, hpt, pqPush]

/-- At every head of the loop `neighbor` has the field `point` it had before the search,
under `bfs` and `dfs` also the field `cheapest`, and under `dfs` an empty `path` when it
was empty before. -/
theorem frame_loopHead (ds : Nat) (hds : ds = 1 ∨ ds = 2 ∨ ds = 3 ∨ ds = 4)
    (s0 : List Char) (g g0 g1 : Globals) (hnb : ds = 2 → g.neighbor.path = [])
    (hi : searchInit ds s0 g = some g0) (k : Nat) (hk : loopHead ds k g0 = some g1) :
    g1.neighbor.point = g.neighbor.point ∧
    (ds = 1 ∨ ds = 2 → g1.neighbor.cheapest = g.neighbor.cheapest) ∧
    (ds = 2 → g1.neighbor.path = []) := by
  have hn := neighbor_searchInit hi
  have hd := (searchInit_push hds hi).2
  refine (loopHead_induct ds hds
    (fun x => x.neighbor.point = g.neighbor.point ∧
      (ds = 1 ∨ ds = 2 → x.neighbor.cheapest = g.neighbor.cheapest) ∧
      (ds = 2 → x.neighbor.path = []))
    ?_ k g0 g1 hd ?_ hk).1
  · intro x top rest q hx hF _
    rw [searchPattern_eq]
    apply frame_runChecks ds hds top.state _ _ (tileChecks q) _
      (by rw [dataStructure_setFrontier]; exact hx)
    rw [neighbor_setFrontier]
    exact hF
  · beta_reduce
    rw [hn]
    exact ⟨rfl, fun _ => rfl, hnb⟩

theorem search_exhausted_init {ds fuel : Nat} {s0 : List Char} {g g' : Globals}
    (h : search ds fuel s0 g = some (Result.exhausted g')) :
    s0 ≠ GOALSTATE ∧ ∃ g0, searchInit ds s0 g = some g0 ∧
      searchLoop ds fuel g0 = some (Result.exhausted g') := by
  unfold search at h
  by_cases hs : s0 = GOALSTATE
  · rw [if_pos hs] at h; cases h
  · rw [if_neg hs] at h
    refine ⟨hs, ?_⟩
    cases hi : searchInit ds s0 g with
    | none => rw [hi] at h; cases h
    | some g0 => rw [hi] at h; exact ⟨g0, rfl, h⟩

/-- C21: after a search from a reset state (under `dfs`, with the path of `neighbor`
empty, as it is at program start and after every search), `clear` gives a reset state
again, and the same search run again with the same fuel ends in the same way and leaves
in `curr` a node with the same state, depth, count and path: what the first run left in
`curr` and `neighbor` does not influence the second. -/
theorem rerun_after_clear (ds : Nat) (hds : ds = 1 ∨ ds = 2 ∨ ds = 3 ∨ ds = 4)
    (s0 : List Char) (g : Globals) (hreset : Reset g) (hnb : ds = 2 → g.neighbor.path = [])
    (fuel : Nat) :
    (∀ g1 w, search ds fuel s0 g = some (Result.found g1 w) →
      Reset (clear g1) ∧
      ∃ g2, search ds fuel s0 (clear g1) = some (Result.found g2 w) ∧
        g2.curr.state = g1.curr.state ∧ g2.curr.depth = g1.curr.depth ∧
        g2.curr.count = g1.curr.count ∧ g2.curr.path = g1.curr.path) ∧
    (∀ g1, search ds fuel s0 g = some (Result.exhausted g1) →
      Reset (clear g1) ∧
      ∃ g2, search ds fuel s0 (clear g1) = some (Result.exhausted g2) ∧
        g2.curr.state = g1.curr.state ∧ g2.curr.depth = g1.curr.depth ∧
        g2.curr.count = g1.curr.count ∧ g2.curr.path = g1.curr.path) := by
  constructor
  · intro g1 w h
    refine ⟨reset_clear g1, ?_⟩
    obtain ⟨hs, g0, hi, hl⟩ := search_found_init h
    obtain ⟨k, gh, top, rest, -, hh, -, -, he, -⟩ := searchLoop_found_head ds fuel g0 g1 w hl
    obtain ⟨f1, f2, f3⟩ := frame_loopHead ds hds s0 g g0 gh hnb hi k hh
    have hn : (clear g1).neighbor = gh.neighbor := by rw [he]; rfl
    obtain ⟨h0, hi0, hsim, hd1, hd2, hne⟩ := similar_init ds hds s0 g (clear g1) g0 hreset
      (reset_clear g1) (by rw [hn, f1]) (fun hh => by rw [hn, f2 hh])
      (fun hh => by rw [hn, f3 hh, hnb hh]) hi
    obtain ⟨b, hb, hcurr⟩ :=
      (similar_searchLoop ds hds fuel g0 h0 hd1 hd2 hsim (Or.inr hne)).1 g1 w hl
    refine ⟨b, ?_, by rw [hcurr], by rw [hcurr], by rw [hcurr], by rw [hcurr]⟩
    unfold search
    rw [if_neg hs, hi0]
    exact hb
  · intro g1 h
    refine ⟨reset_clear g1, ?_⟩
    obtain ⟨hs, g0, hi, hl⟩ := search_exhausted_init h
    obtain ⟨k, -, hh, -⟩ := searchLoop_exhausted_head ds fuel g0 g1 hl
    obtain ⟨f1, f2, f3⟩ := frame_loopHead ds hds s0 g g0 g1 hnb hi k hh
    have hn : (clear g1).neighbor = g1.neighbor := rfl
    obtain ⟨h0, hi0, hsim, hd1, hd2, hne⟩ := similar_init ds hds s0 g (clear g1) g0 hreset
      (reset_clear g1) (by rw [hn, f1]) (fun hh => by rw [hn, f2 hh])
      (fun hh => by rw [hn, f3 hh, hnb hh]) hi
    obtain ⟨b, hb, hcurr⟩ :=
      (similar_searchLoop ds hds fuel g0 h0 hd1 hd2 hsim (Or.inr hne)).2 g1 hl
    refine ⟨b, ?_, by rw [hcurr], by rw [hcurr], by rw [hcurr], by rw [hcurr]⟩
    unfold search
    rw [if_neg hs, hi0]
    exact hb

theorem rerun_after_clear_witness :
    Reset Globals.initial ∧ ((1 : Nat) = 2 → Globals.initial.neighbor.path = []) ∧
    ∃ g1, search 1 2 ['1', '2', '3', '4', '5', '6', '7', 'E', '8'] Globals.initial
        = some (Result.found g1 GOALSTATE) ∧
      Reset (clear g1) ∧
      ∃ g2, search 1 2 ['1', '2', '3', '4', '5', '6', '7', 'E', '8'] (clear g1)
          = some (Result.found g2 GOALSTATE) ∧
        g2.curr.state = g1.curr.state ∧ g2.curr.depth = g1.curr.depth ∧
        g2.curr.count = g1.curr.count ∧ g2.curr.path = g1.curr.path :=
  ⟨by decide, fun _ => rfl, _, rfl,
    (rerun_after_clear 1 (Or.inl rfl) ['1', '2', '3', '4', '5', '6', '7', 'E', '8']
      Globals.initial (by decide) (fun hh => absurd hh (by decide)) 2).1 _ _ rfl⟩

/-! ## One move changes each heuristic by at most 1 -/

/-- C32: for every valid state `s` and every state `t` obtained from `s` by one legal
move, `manhattanDistance t` differs from `manhattanDistance s` by exactly 1 and
`misplacedTiles t` differs from `misplacedTiles s` by at most 1. -/
theorem heuristics_step (s t : List Char) (hv : ValidState s) (hm : legalMove s t) :
    (manhattanDistance s = manhattanDistance t + 1 ∨
      manhattanDistance t = manhattanDistance s + 1) ∧
    (misplacedTiles s ≤ misplacedTiles t + 1 ∧ misplacedTiles t ≤ misplacedTiles s + 1) := by
  have hlen : s.length = 9 := by
    have := List.Perm.length_eq hv
    simpa [GOALSTATE] using this
  exact ⟨manhattanDistance_step s t hv hm, misplacedTiles_step s t hlen hm⟩

theorem heuristics_step_witness :
    ValidState ['1', '2', '3', '4', '5', '6', '7', 'E', '8'] ∧
    legalMove ['1', '2', '3', '4', '5', '6', '7', 'E', '8']
      ['1', '2', '3', '4', 'E', '6', '7', '5', '8'] ∧
    (manhattanDistance ['1', '2', '3', '4', '5', '6', '7', 'E', '8'] =
        manhattanDistance ['1', '2', '3', '4', 'E', '6', '7', '5', '8'] + 1 ∨
      manhattanDistance ['1', '2', '3', '4', 'E', '6', '7', '5', '8'] =
        manhattanDistance ['1', '2', '3', '4', '5', '6', '7', 'E', '8'] + 1) ∧
    (misplacedTiles ['1', '2', '3', '4', '5', '6', '7', 'E', '8'] ≤
        misplacedTiles ['1', '2', '3', '4', 'E', '6', '7', '5', '8'] + 1 ∧
      misplacedTiles ['1', '2', '3', '4', 'E', '6', '7', '5', '8'] ≤
        misplacedTiles ['1', '2', '3', '4', '5', '6', '7', 'E', '8'] + 1) :=
  ⟨by decide, ⟨7, 4, by decide, by decide, by decide, by decide, by decide⟩,
    heuristics_step _ _ (by decide)
      ⟨7, 4, by decide, by decide, by decide, by decide, by decide⟩⟩

/-! ## The two heuristics compared -/

/-- A character of a valid state at the cell `i` is at distance 0 from its goal cell
exactly when it is the blank or the character of the goal at `i`; otherwise the distance
is at least 1. -/
theorem tileDistance_zero_iff : ∀ i : Fin 9, ∀ c ∈ GOALSTATE,
    (tileDistance i.val c = 0 ↔ c = 'E' ∨ c = charAt GOALSTATE i.val) := by
  decide

theorem misplacedAt_eq_zero (a b : Char) : misplacedAt a b = 0 ↔ a = b := by
  unfold misplacedAt
  split <;> simp_all

/-- C33: for every valid state `s`, `misplacedTiles s` is at most `manhattanDistance s`,
and each of the two is 0 if and only if `s` is the goal `"12345678E"`. -/
theorem heuristics_compared (s : List Char) (hv : ValidState s) :
    misplacedTiles s ≤ manhattanDistance s ∧
    (misplacedTiles s = 0 ↔ s = GOALSTATE) ∧ (manhattanDistance s = 0 ↔ s = GOALSTATE) := by
  have hmis := misplacedTiles_eq_spec s hv
  have hman := manhattanDistance_eq_spec s hv
  obtain ⟨a0, a1, a2, a3, a4, a5, a6, a7, a8, rfl, hmem, hn, hE⟩ := valid_shape s hv
  have m0 := hmem a0 (by simp)
  have m1 := hmem a1 (by simp)
  have m2 := hmem a2 (by simp)
  have m3 := hmem a3 (by simp)
  have m4 := hmem a4 (by simp)
  have m5 := hmem a5 (by simp)
  have m6 := hmem a6 (by simp)
  have m7 := hmem a7 (by simp)
  have m8 := hmem a8 (by simp)
  have z0 : tileDistance 0 a0 = 0 ↔ a0 = 'E' ∨ a0 = '1' := tileDistance_zero_iff 0 a0 m0
  have z1 : tileDistance 1 a1 = 0 ↔ a1 = 'E' ∨ a1 = '2' := tileDistance_zero_iff 1 a1 m1
  have z2 : tileDistance 2 a2 = 0 ↔ a2 = 'E' ∨ a2 = '3' := tileDistance_zero_iff 2 a2 m2
  have z3 : tileDistance 3 a3 = 0 ↔ a3 = 'E' ∨ a3 = '4' := tileDistance_zero_iff 3 a3 m3
  have z4 : tileDistance 4 a4 = 0 ↔ a4 = 'E' ∨ a4 = '5' := tileDistance_zero_iff 4 a4 m4
  have z5 : tileDistance 5 a5 = 0 ↔ a5 = 'E' ∨ a5 = '6' := tileDistance_zero_iff 5 a5 m5
  have z6 : tileDistance 6 a6 = 0 ↔ a6 = 'E' ∨ a6 = '7' := tileDistance_zero_iff 6 a6 m6
  have z7 : tileDistance 7 a7 = 0 ↔ a7 = 'E' ∨ a7 = '8' := tileDistance_zero_iff 7 a7 m7
  have z8 : tileDistance 8 a8 = 0 ↔ a8 = 'E' ∨ a8 = 'E' := tileDistance_zero_iff 8 a8 m8
  simp only [List.nodup_cons, List.mem_cons, List.mem_singleton, not_or, List.not_mem_nil,
    or_false, not_false_eq_true, List.nodup_nil, and_true] at hn
  obtain ⟨⟨-, -, -, -, -, -, -, n0⟩, ⟨-, -, -, -, -, -, n1⟩, ⟨-, -, -, -, -, n2⟩,
    ⟨-, -, -, -, n3⟩, ⟨-, -, -, n4⟩, ⟨-, -, n5⟩, ⟨-, n6⟩, n7⟩ := hn
  refine ⟨?_, ?_, ?_⟩
  · rw [hmis, hman, misplacedSpec_nine, manhattanSpec_nine]
    have c0 : (if a0 ≠ 'E' ∧ a0 ≠ '1' then 1 else 0) ≤ tileDistance 0 a0 := by
      split
      · rename_i h; have := mt z0.mp (fun hh => hh.elim h.1 h.2); omega
      · exact Nat.zero_le _
    have c1 : (if a1 ≠ 'E' ∧ a1 ≠ '2' then 1 else 0) ≤ tileDistance 1 a1 := by
      split
      · rename_i h; have := mt z1.mp (fun hh => hh.elim h.1 h.2); omega
      · exact Nat.zero_le _
    have c2 : (if a2 ≠ 'E' ∧ a2 ≠ '3' then 1 else 0) ≤ tileDistance 2 a2 := by
      split
      · rename_i h; have := mt z2.mp (fun hh => hh.elim h.1 h.2); omega
      · exact Nat.zero_le _
    have c3 : (if a3 ≠ 'E' ∧ a3 ≠ '4' then 1 else 0) ≤ tileDistance 3 a3 := by
      split
      · rename_i h; have := mt z3.mp (fun hh => hh.elim h.1 h.2); omega
      · exact Nat.zero_le _
    have c4 : (if a4 ≠ 'E' ∧ a4 ≠ '5' then 1 else 0) ≤ tileDistance 4 a4 := by
      split
      · rename_i h; have := mt z4.mp (fun hh => hh.elim h.1 h.2); omega
      · exact Nat.zero_le _
    have c5 : (if a5 ≠ 'E' ∧ a5 ≠ '6' then 1 else 0) ≤ tileDistance 5 a5 := by
      split
      · rename_i h; have := mt z5.mp (fun hh => hh.elim h.1 h.2); omega
      · exact Nat.zero_le _
    have c6 : (if a6 ≠ 'E' ∧ a6 ≠ '7' then 1 else 0) ≤ tileDistance 6 a6 := by
      split
      · rename_i h; have := mt z6.mp (fun hh => hh.elim h.1 h.2); omega
      · exact Nat.zero_le _
    have c7 : (if a7 ≠ 'E' ∧ a7 ≠ '8' then 1 else 0) ≤ tileDistance 7 a7 := by
      split
      · rename_i h; have := mt z7.mp (fun hh => hh.elim h.1 h.2); omega
      · exact Nat.zero_le _
    have c8 : (if a8 ≠ 'E' ∧ a8 ≠ 'E' then 1 else 0) ≤ tileDistance 8 a8 := by
      split
      · rename_i h; have := mt z8.mp (fun hh => hh.elim h.1 h.2); omega
      · exact Nat.zero_le _
    omega
  · constructor
    · intro h
      rw [misplacedTiles_nine] at h
      have e0 := (misplacedAt_eq_zero a0 '1').mp (by omega)
      have e1 := (misplacedAt_eq_zero a1 '2').mp (by omega)
      have e2 := (misplacedAt_eq_zero a2 '3').mp (by omega)
      have e3 := (misplacedAt_eq_zero a3 '4').mp (by omega)
      have e4 := (misplacedAt_eq_zero a4 '5').mp (by omega)
      have e5 := (misplacedAt_eq_zero a5 '6').mp (by omega)
      have e6 := (misplacedAt_eq_zero a6 '7').mp (by omega)
      have e7 := (misplacedAt_eq_zero a7 '8').mp (by omega)
      subst e0 e1 e2 e3 e4 e5 e6 e7
      have e8 : a8 = 'E' := by
        simp only [List.mem_cons, List.mem_singleton, List.not_mem_nil, or_false] at hE
        rcases hE with h | h | h | h | h | h | h | h | h
        all_goals first | exact h.symm | (exact absurd h (by decide))
      rw [e8]; rfl
    · intro h; rw [h]; decide
  · constructor
    · intro h
      rw [hman, manhattanSpec_nine] at h
      have e8 : a8 = 'E' := by
        rcases z8.mp (by omega) with h | h <;> exact h
      subst e8
      have e0 : a0 = '1' := (z0.mp (by omega)).resolve_left n0
      have e1 : a1 = '2' := (z1.mp (by omega)).resolve_left n1
      have e2 : a2 = '3' := (z2.mp (by omega)).resolve_left n2
      have e3 : a3 = '4' := (z3.mp (by omega)).resolve_left n3
      have e4 : a4 = '5' := (z4.mp (by omega)).resolve_left n4
      have e5 : a5 = '6' := (z5.mp (by omega)).resolve_left n5
      have e6 : a6 = '7' := (z6.mp (by omega)).resolve_left n6
      have e7 : a7 = '8' := (z7.mp (by omega)).resolve_left n7
      rw [e0, e1, e2, e3, e4, e5, e6, e7]; rfl
    · intro h; rw [h]; decide

theorem heuristics_compared_witness :
    ValidState ['8', '1', '3', '4', 'E', '2', '7', '6', '5'] ∧
    misplacedTiles ['8', '1', '3', '4', 'E', '2', '7', '6', '5'] ≤
      manhattanDistance ['8', '1', '3', '4', 'E', '2', '7', '6', '5'] ∧
    (misplacedTiles ['8', '1', '3', '4', 'E', '2', '7', '6', '5'] = 0 ↔
      ['8', '1', '3', '4', 'E', '2', '7', '6', '5'] = GOALSTATE) ∧
    (manhattanDistance ['8', '1', '3', '4', 'E', '2', '7', '6', '5'] = 0 ↔
      ['8', '1', '3', '4', 'E', '2', '7', '6', '5'] = GOALSTATE) :=
  ⟨by decide, heuristics_compared _ (by decide)⟩

/-! ## Moves are reversible -/

/-- Exchanging two cells of an array twice gives the array back. -/
theorem swapTiles_twice (x y : Point) (a : Puzzle) :
    (swapTiles x y (swapTiles x y a).1).1 = a := by
  funext i j
  simp only [swapTiles, setCell]
  by_cases h1 : i = y.x ∧ j = y.y
  · by_cases h2 : i = x.x ∧ j = x.y
    · simp [h1, h2]
      intro e1 e2; rw [e1, e2]
    · simp [h1, h2]
      intro e1 e2; rw [e1, e2]
  · by_cases h2 : i = x.x ∧ j = x.y
    · simp [h1, h2]
      intro e1 e2; exact absurd ⟨h2.1.trans e1, h2.2.trans e2⟩ h1
    · simp [h1, h2]

theorem getElem?_eq_charAt (s : List Char) (i : Nat) (hi : i < s.length) :
    s[i]? = some (charAt s i) := by
  unfold charAt
  simp [List.getD_eq_getElem?_getD, List.getElem?_eq_getElem hi]

/-- Exchanging two cells of a string twice gives the string back. -/
theorem swapAt_twice (s : List Char) (p q : Nat) (hp : p < s.length) (hq : q < s.length) :
    swapAt (swapAt s p q) q p = s := by
  have hlen : (swapAt s p q).length = s.length := length_swapAt s p q
  apply List.ext_getElem?
  intro i
  by_cases hi : i < s.length
  · rw [getElem?_eq_charAt _ i (by rw [length_swapAt, hlen]; exact hi),
      getElem?_eq_charAt s i hi,
      charAt_swapAt _ q p i (by rw [hlen]; exact hq) (by rw [hlen]; exact hp),
      charAt_swapAt s p q q hp hq, charAt_swapAt s p q p hp hq, charAt_swapAt s p q i hp hq]
    by_cases h1 : i = p
    · subst h1
      by_cases h2 : i = q
      · subst h2; simp
      · simp [h2]
    · by_cases h2 : i = q
      · subst h2; simp [h1]
        intro h; exact absurd h.symm h1
      · simp [h1, h2]
  · rw [List.getElem?_eq_none (by rw [length_swapAt, hlen]; omega),
      List.getElem?_eq_none (by omega)]

theorem adjacent_symm (p q : Nat) (h : adjacent p q) : adjacent q p := by
  unfold adjacent at h ⊢
  omega

/-- A legal move can be taken back by a legal move. -/
theorem legalMove_symm (s t : List Char) (hv : ValidState s) (h : legalMove s t) :
    legalMove t s := by
  have hlen : s.length = 9 := by
    have := List.Perm.length_eq hv
    simpa [GOALSTATE] using this
  obtain ⟨p, q, hp, hq, hadj, hE, rfl⟩ := h
  refine ⟨q, p, hq, hp, adjacent_symm p q hadj, ?_, ?_⟩
  · rw [charAt_swapAt s p q q (by omega) (by omega), if_pos rfl]
    exact hE
  · exact (swapAt_twice s p q (by omega) (by omega)).symm

/-- C34: each of the twelve swap functions, applied twice to an array, gives the array
back; and for valid states `s` and `t`, `t` is a candidate successor of `s` if and only
if `s` is a candidate successor of `t`. -/
theorem moves_reversible (a : Puzzle) (s t : List Char) (hs : ValidState s)
    (ht : ValidState t) (p q : Nat) (hp : findEmpty s = some p) (hq : findEmpty t = some q) :
    (∀ sw ∈ [oneTwo, oneFour, twoThree, twoFive, threeSix, fourSeven, fourFive, fiveEight,
        fiveSix, sixNine, sevenEight, eightNine], (sw (sw a).1).1 = a) ∧
    (t ∈ candidates p s ↔ s ∈ candidates q t) := by
  constructor
  · intro sw hsw
    simp only [List.mem_cons, List.mem_singleton, List.not_mem_nil, or_false] at hsw
    rcases hsw with h | h | h | h | h | h | h | h | h | h | h | h <;>
      (rw [h]; exact swapTiles_twice _ _ a)
  · rw [← legalMove_iff_candidates s p hs hp t, ← legalMove_iff_candidates t q ht hq s]
    exact ⟨legalMove_symm s t hs, legalMove_symm t s ht⟩

theorem moves_reversible_witness :
    ValidState ['1', '2', '3', '4', '5', '6', '7', 'E', '8'] ∧ ValidState GOALSTATE ∧
    findEmpty ['1', '2', '3', '4', '5', '6', '7', 'E', '8'] = some 8 ∧
    findEmpty GOALSTATE = some 9 ∧
    (∀ sw ∈ [oneTwo, oneFour, twoThree, twoFive, threeSix, fourSeven, fourFive, fiveEight,
        fiveSix, sixNine, sevenEight, eightNine],
      (sw (sw (populatePuzzle GOALSTATE)).1).1 = populatePuzzle GOALSTATE) ∧
    (GOALSTATE ∈ candidates 8 ['1', '2', '3', '4', '5', '6', '7', 'E', '8'] ↔
      ['1', '2', '3', '4', '5', '6', '7', 'E', '8'] ∈ candidates 9 GOALSTATE) :=
  ⟨by decide, by decide, by decide, by decide,
    moves_reversible (populatePuzzle GOALSTATE) ['1', '2', '3', '4', '5', '6', '7', 'E', '8']
      GOALSTATE (by decide) (by decide) 8 9 (by decide) (by decide)⟩

/-! ## The depths in the queue of `bfs` -/

theorem pushAll_bfs : ∀ (new l : List Node), pushAll 1 new l = l ++ new := by
  intro new
  induction new with
  | nil => intro l; simp [pushAll]
  | cons n new ih =>
    intro l
    rw [pushAll_cons, ih]
    simp [pushList]

theorem loopHead_add (ds : Nat) : ∀ (k m : Nat) (g gk : Globals),
    loopHead ds k g = some gk → loopHead ds (k + m) g = loopHead ds m gk := by
  intro k
  induction k with
  | zero =>
    intro m g gk h
    simp only [loopHead, Option.some.injEq] at h
    rw [h, Nat.zero_add]
  | succ k ih =>
    intro m g gk h
    obtain ⟨top, rest, p, hf, hgoal, hp⟩ := loopHead_succ_some ds k g gk h
    rw [loopHead_step ds k g top rest p hf hgoal hp] at h
    rw [Nat.add_right_comm, loopHead_step ds _ g top rest p hf hgoal hp]
    exact ih m _ gk h

/-- One iteration of `bfs`: the queue becomes the rest followed by nodes one level below
the popped node. -/
theorem bfs_expand (g : Globals) (hg : g.dataStructure = 1) (top : Node) (rest : List Node)
    (p : Nat) :
    ∃ new : List Node, (∀ nd ∈ new, nd.depth = top.depth + 1) ∧
      frontier 1 (searchPattern p top.state (setFrontier 1 rest { g with curr := top }))
        = rest ++ new := by
  obtain ⟨h1, h2, -, -, h5, -, -, -, -⟩ := expand_nodes 1 (Or.inl rfl) g top rest p hg
  refine ⟨expansionNodes 1 p top.state (setFrontier 1 rest { g with curr := top }), ?_, ?_⟩
  · intro nd hnd
    rw [(expansion_successors 1 (Or.inl rfl) _ h1 p top.state nd hnd).2, h2]
  · rw [h5, pushAll_bfs]

/-- The depths in the queue stay non-decreasing from front to back and within 1 of each
other. -/
theorem bfs_depths_step (g : Globals) (hg : g.dataStructure = 1) (top : Node)
    (rest : List Node) (p : Nat) (hf : frontier 1 g = top :: rest)
    (h : (frontier 1 g).Pairwise (fun a b => a.depth ≤ b.depth) ∧
      ∀ a ∈ frontier 1 g, ∀ b ∈ frontier 1 g, b.depth ≤ a.depth + 1) :
    (frontier 1 (searchPattern p top.state
        (setFrontier 1 rest { g with curr := top }))).Pairwise
      (fun a b => a.depth ≤ b.depth) ∧
    ∀ a ∈ frontier 1 (searchPattern p top.state (setFrontier 1 rest { g with curr := top })),
      ∀ b ∈ frontier 1 (searchPattern p top.state
          (setFrontier 1 rest { g with curr := top })),
        b.depth ≤ a.depth + 1 := by
  obtain ⟨new, hnew, hq⟩ := bfs_expand g hg top rest p
  obtain ⟨hs, hb⟩ := h
  rw [hf] at hs hb
  rw [hq]
  obtain ⟨htop, hrest⟩ := List.pairwise_cons.mp hs
  have hlow : ∀ a ∈ rest, top.depth ≤ a.depth := htop
  have hup : ∀ a ∈ rest, a.depth ≤ top.depth + 1 := fun a ha =>
    hb top (List.mem_cons_self _ _) a (List.mem_cons_of_mem _ ha)
  constructor
  · rw [List.pairwise_append]
    refine ⟨hrest, ?_, ?_⟩
    · rw [List.pairwise_iff_forall_sublist]
      intro a b hab
      have ha := hnew a (hab.subset (List.mem_cons_self _ _))
      have hb' := hnew b (hab.subset (List.mem_cons_of_mem _ (List.mem_singleton.mpr rfl)))
      omega
    · intro a ha b hb'
      have := hup a ha
      have := hnew b hb'
      omega
  · intro a ha b hb'
    rcases List.mem_append.mp ha with ha | ha <;> rcases List.mem_append.mp hb' with hb' | hb'
    · exact hb a (List.mem_cons_of_mem _ ha) b (List.mem_cons_of_mem _ hb')
    · have := hlow a ha
      have := hnew b hb'
      omega
    · have := hup b hb'
      have := hnew a ha
      omega
    · have := hnew a ha
      have := hnew b hb'
      omega

/-- A lower bound of the depths in the queue of `bfs` stays one at every later head. -/
theorem bfs_lower_bound (d : Nat) : ∀ (m : Nat) (g gm : Globals), g.dataStructure = 1 →
    (∀ n ∈ frontier 1 g, d ≤ n.depth) → loopHead 1 m g = some gm →
    ∀ n ∈ frontier 1 gm, d ≤ n.depth := by
  refine fun m g gm hg hd hm => ((loopHead_induct 1 (Or.inl rfl)
    (fun x => ∀ n ∈ frontier 1 x, d ≤ n.depth) ?_ m g gm hg hd hm).1)
  intro x top rest p hx hI hfx
  obtain ⟨new, hnew, hq⟩ := bfs_expand x hx top rest p
  intro n hn
  rw [hq] at hn
  rw [hfx] at hI
  rcases List.mem_append.mp hn with hn | hn
  · exact hI n (List.mem_cons_of_mem _ hn)
  · have := hnew n hn
    have := hI top (List.mem_cons_self _ _)
    omega

/-- C31: throughout a run of `bfs` from a reset state, at the head of every iteration
the depths of the nodes in the queue are non-decreasing from front to back and any two
of them, in particular the back and the front, differ by at most 1; and the node on top
at a later head is at least as deep as the node on top at an earlier head, so nodes are
examined in non-decreasing depth order. -/
theorem bfs_queue_depths (s0 : List Char) (g g0 gk gm : Globals) (hreset : Reset g)
    (hi : searchInit 1 s0 g = some g0) (k m : Nat) (hk : loopHead 1 k g0 = some gk)
    (hm : loopHead 1 (k + m) g0 = some gm) :
    gk.bfsQueue.Pairwise (fun a b => a.depth ≤ b.depth) ∧
    (∀ a ∈ gk.bfsQueue, ∀ b ∈ gk.bfsQueue, b.depth ≤ a.depth + 1) ∧
    (∀ top rest top' rest', gk.bfsQueue = top :: rest → gm.bfsQueue = top' :: rest' →
      top.depth ≤ top'.depth) := by
  obtain ⟨p, -, -, hf, hd, -⟩ := searchInit_reset (Or.inl rfl) hreset hi
  have h0 : (frontier 1 g0).Pairwise (fun a b => a.depth ≤ b.depth) ∧
      ∀ a ∈ frontier 1 g0, ∀ b ∈ frontier 1 g0, b.depth ≤ a.depth + 1 := by
    rw [hf]
    refine ⟨List.pairwise_singleton _ _, ?_⟩
    intro a ha b hb
    rw [List.mem_singleton] at ha hb
    rw [ha, hb]
    exact Nat.le_succ _
  obtain ⟨⟨hs, hb⟩, hdk⟩ := loopHead_induct 1 (Or.inl rfl)
    (fun x => (frontier 1 x).Pairwise (fun a b => a.depth ≤ b.depth) ∧
      ∀ a ∈ frontier 1 x, ∀ b ∈ frontier 1 x, b.depth ≤ a.depth + 1)
    (fun x top rest q hx hI hfx => bfs_depths_step x hx top rest q hfx hI)
    k g0 gk hd h0 hk
  refine ⟨hs, hb, ?_⟩
  intro top rest top' rest' hq hq'
  rw [loopHead_add 1 k m g0 gk hk] at hm
  have hq1 : frontier 1 gk = top :: rest := hq
  have hlow : ∀ n ∈ frontier 1 gk, top.depth ≤ n.depth := by
    intro n hn
    rw [hq1] at hn hs
    rcases List.mem_cons.mp hn with hn | hn
    · rw [hn]
    · exact (List.pairwise_cons.mp hs).1 n hn
  have hq2 : frontier 1 gm = top' :: rest' := hq'
  exact bfs_lower_bound top.depth m gk gm hdk hlow hm top'
    (by rw [hq2]; exact List.mem_cons_self _ _)

theorem bfs_queue_depths_witness :
    Reset Globals.initial ∧
    ∃ g0 gk gm, searchInit 1 ['1', '2', '3', '4', '5', '6', 'E', '7', '8'] Globals.initial
        = some g0 ∧
      loopHead 1 2 g0 = some gk ∧ loopHead 1 (2 + 1) g0 = some gm ∧
      gk.bfsQueue.Pairwise (fun a b => a.depth ≤ b.depth) ∧
      (∀ a ∈ gk.bfsQueue, ∀ b ∈ gk.bfsQueue, b.depth ≤ a.depth + 1) ∧
      (∀ top rest top' rest', gk.bfsQueue = top :: rest → gm.bfsQueue = top' :: rest' →
        top.depth ≤ top'.depth) :=
  ⟨by decide, _, _, _, rfl, rfl, rfl,
    bfs_queue_depths ['1', '2', '3', '4', '5', '6', 'E', '7', '8'] Globals.initial _ _ _
      (by decide) rfl 2 1 rfl rfl⟩

end SliderPuzzle
